import Mathlib

/-!
Verification development for the fink-fat inter-night association module
(`alert_association/inter_night_associations.py`).

The embedding models a pandas dataframe of alerts as a `List Obs`; every
dataframe operation of the source (boolean-mask filtering, `isin`, `concat`,
`duplicated`, `groupby` row counts, column assignment under a mask) becomes the
corresponding list operation.  The twelve orbital-element columns of the source
(`a`, `e`, `i`, ... and their rms columns) are always written together with the
same sentinel value, and the code branches only on the `a` column; the model
therefore carries the single representative column `a`.  Floating point data
(positions, magnitudes, julian dates, criteria) is modelled over `ℚ`; the
source never relies on rounding behaviour in the logic under study.

External collaborators that live in other files of the repository
(the pairwise matcher, the intra-night tracklet builder, the orbit fitter,
the time-window manager) are not part of the given sources; they are either
taken as parameters at their interface boundary or modelled from the spec,
as marked in the individual doc comments.
-/

namespace FinkFat

/-- One alert row of the trajectory / observation dataframes.  Fields mirror
the dataframe columns used by `inter_night_associations.py`: position, derived
magnitude, filter id, night id, julian date, unique candidate id, trajectory
id, the temporary trajectory id column `tmp_traj` added by the matcher on
right-hand rows, the representative orbital-element column `a` (sentinel `-1`
meaning "not yet computed"), and the `not_updated` flag. -/
structure Obs where
  ra : ℚ
  dec : ℚ
  dcmag : ℚ
  nid : ℤ
  fid : ℤ
  jd : ℚ
  candid : ℤ
  trajectory_id : ℤ
  tmp_traj : ℤ
  a : ℚ
  not_updated : Bool
deriving DecidableEq, Repr

/-- Distinct trajectory ids of a table, in first-appearance order
(`np.unique` is used in the source only for membership and maxima, so the
order of this list is never observable). -/
def trajIds (l : List Obs) : List ℤ := (l.map Obs.trajectory_id).dedup

/-- The candidate-id column of a table. -/
def candids (l : List Obs) : List ℤ := l.map Obs.candid

/-- Rows of a table carrying a given candidate id. -/
def rowsWithCandid (l : List Obs) (c : ℤ) : List Obs :=
  l.filter (fun r => r.candid == c)

/-- Rows of a table carrying a given trajectory id
(`df[df["trajectory_id"] == t]`). -/
def rowsWithId (l : List Obs) (t : ℤ) : List Obs :=
  l.filter (fun r => r.trajectory_id == t)

/-- Maximum of a list of integers, `0` on the empty list. -/
def maxIntList : List ℤ → ℤ
  | [] => 0
  | [x] => x
  | x :: y :: xs => max x (maxIntList (y :: xs))

/-- Embeds `np.max(np.unique(df["trajectory_id"]))`; only evaluated by the
source on non-empty tables. -/
def maxTrajId (l : List Obs) : ℤ := maxIntList (l.map Obs.trajectory_id)

/-- Embeds line 1409 of the source,
`np.nan_to_num(np.max(trajectory_df["trajectory_id"])) + 1`: on an empty
table `np.max` yields NaN, `np.nan_to_num` maps it to `0`, and the result is
`0 + 1 = 1`; otherwise the result is the maximal existing id plus one. -/
def seedTrajectoryId (trajectory_df : List Obs) : ℤ :=
  maxIntList (trajectory_df.map Obs.trajectory_id) + 1

/-- Marking pass of `pandas.Series.duplicated()` on the `trajectory_id`
column with the default `keep="first"`: a row is marked `true` exactly when
its trajectory id already occurred earlier (or is in `seen`). -/
def markDupsAux (seen : List ℤ) : List Obs → List (Obs × Bool)
  | [] => []
  | o :: rest => (o, seen.contains o.trajectory_id) :: markDupsAux (o.trajectory_id :: seen) rest

/-- Rows surviving `assoc[~assoc["trajectory_id"].duplicated()]`: the first
match of each trajectory id, in encounter order. -/
def keptRows (l : List Obs) : List Obs :=
  ((markDupsAux [] l).filter (fun p => !p.2)).map Prod.fst

/-- Rows selected by `assoc[assoc["trajectory_id"].duplicated()]`: every match
after the first one for its trajectory id, in encounter order. -/
def dupRows (l : List Obs) : List Obs :=
  ((markDupsAux [] l).filter (fun p => p.2)).map Prod.fst

/-- Row transformation applied by the duplicate-resolution loops of
`trajectories_associations` / `old_observations_associations`: the orbital
columns are reset to the sentinel, the row is re-homed under the freshly
minted trajectory id, and the row is marked updated. -/
def forkRow (n : ℤ) (o : Obs) : Obs :=
  { o with a := -1, trajectory_id := n, not_updated := false }

/-- Row transformation of the duplicate-resolution loop of
`tracklets_associations` (which does not reset orbital columns): re-home the
row under the fresh id and mark it updated. -/
def reassignRow (n : ℤ) (o : Obs) : Obs :=
  { o with trajectory_id := n, not_updated := false }

/-- Mark a row as updated this night (`df["not_updated"] = False`). -/
def flagFalse (o : Obs) : Obs := { o with not_updated := false }

/-- The duplicate-resolution loop of `trajectories_associations` (lines
642-676) and of `old_observations_associations` (lines 966-1000): for each
duplicated match `d` (in encounter order) the running maximal id is bumped,
the full current history of the trajectory `d.trajectory_id` is copied under
the fresh id with orbital columns reset, and the single duplicated
continuation row is appended to that copy. -/
def mkForks (hist : List Obs) (m : ℤ) : List Obs → List Obs
  | [] => []
  | d :: ds =>
      ((rowsWithId hist d.trajectory_id).map (forkRow (m + 1)) ++ [forkRow (m + 1) d])
        ++ mkForks hist (m + 1) ds

/-- The freshly minted ids consumed by a duplicate-resolution loop starting
from maximal id `m`: `m+1, m+2, ...`, one per duplicated row. -/
def forkIdRange (m : ℤ) (len : Nat) : List ℤ :=
  (List.range len).map (fun i => m + i + 1)

/-- The duplicate-resolution loop of `tracklets_associations` (lines
251-289): the history copy is taken from the trajectory table (without orbit
reset) and the continuation is the whole duplicated tracklet, looked up in
the tracklet table by its temporary id. -/
def pass1Forks (trajs tracklets : List Obs) (m : ℤ) : List Obs → List Obs
  | [] => []
  | d :: ds =>
      ((rowsWithId trajs d.trajectory_id).map (reassignRow (m + 1))
        ++ (tracklets.filter (fun k => k.trajectory_id == d.tmp_traj)).map (reassignRow (m + 1)))
        ++ pass1Forks trajs tracklets (m + 1) ds

/-- Embeds `df.loc[df["trajectory_id"].isin(ids), "not_updated"] = False`. -/
def setUpdatedFlags (ids : List ℤ) (l : List Obs) : List Obs :=
  l.map (fun o => if ids.contains o.trajectory_id then flagFalse o else o)

/-- Core of one night-id iteration of `trajectories_associations` (lines
615-701), taking the matcher output `oa` for this iteration: fork every
duplicated association, keep the first association of every trajectory id,
append the kept continuations, and mark all touched trajectories updated.
Returns the new trajectory table together with the
"number of duplicated association" figure recorded in the report. -/
def trajAssocApply (trajs : List Obs) (oa : List Obs) : List Obs × Nat :=
  if oa.length = 0 then (trajs, 0)
  else
    let dups := dupRows oa
    let trajs1 := if dups.length = 0 then trajs
                  else trajs ++ mkForks trajs (maxTrajId trajs) dups
    let kept := keptRows oa
    let trajs2 := trajs1 ++ kept
    (setUpdatedFlags (trajIds kept) trajs2, oa.length - kept.length)

/-- Insertion into a strictly increasing list, skipping values already
present; building block for the `np.sort(np.unique(...))` idiom. -/
def insertUnique (x : ℤ) : List ℤ → List ℤ
  | [] => [x]
  | y :: ys => if x = y then y :: ys else if x < y then x :: y :: ys else y :: insertUnique x ys

/-- Embeds `np.unique`: the distinct values of a list in increasing order. -/
def sortedUnique (l : List ℤ) : List ℤ := l.foldr insertUnique []

/-- Embeds `np.sort(np.unique(values))[::-1]`: the distinct values in strictly
decreasing order, the iteration order of every historical-night loop. -/
def descNids (l : List ℤ) : List ℤ := (sortedUnique l).reverse

/-- Embeds `np.union1d` (used only for the report lists of updated ids). -/
def union1d (a b : List ℤ) : List ℤ := sortedUnique (a ++ b)

/-- Insertion sort of rows by julian date (ascending). -/
def insertByJd (x : Obs) : List Obs → List Obs
  | [] => [x]
  | y :: ys => if x.jd ≤ y.jd then x :: y :: ys else y :: insertByJd x ys

/-- Rows of a table ordered by julian date. -/
def sortByJd (l : List Obs) : List Obs := l.foldr insertByJd []

/-- Per-trajectory tail/head selection over an explicit id list; helper for
`get_n_last_observations_from_trajectories`. -/
def getNLastGroups (df : List Obs) (n : Nat) (ascending : Bool) : List ℤ → List Obs
  | [] => []
  | t :: ts =>
      (let g := sortByJd (rowsWithId df t)
       if ascending then g.drop (g.length - n) else g.take n)
        ++ getNLastGroups df n ascending ts

/-- Modelled from the spec: `get_n_last_observations_from_trajectories` is
imported from `alert_association/intra_night_association.py`, which is not
among the given sources.  Per spec section 4.2 the passes anchor on "the two
most recent observations of each involved trajectory tail" matched against
the candidate set "leading edge": for each trajectory id the `n` most recent
rows by julian date are kept when `ascending` is true, and the `n` earliest
rows when it is false. -/
def get_n_last_observations_from_trajectories (df : List Obs) (n : Nat) (ascending : Bool) :
    List Obs :=
  getNLastGroups df n ascending (trajIds df)

/-- Interface type of the external matcher
`night_to_night_trajectory_associations` (spec section 6, Association
Matcher): two tables and four numeric criteria in, the matched left rows and
matched right rows out.  Right rows come back with their `trajectory_id`
column set to the matched trajectory (and, for tracklet rows, their own
temporary id in `tmp_traj`). -/
def Matcher : Type :=
  List Obs → List Obs → ℚ → ℚ → ℚ → ℚ → (List Obs × List Obs)

/-- Interface type of the external matcher
`night_to_night_observation_association` used by the fourth pass (no cone
search, hence no angle criterion). -/
def ObsMatcher : Type :=
  List Obs → List Obs → ℚ → ℚ → ℚ → (List Obs × List Obs)

/-- Ghost record of one matcher invocation: the historical night id being
processed and the three scaled criteria actually passed. -/
structure MatcherCall where
  old_nid : ℤ
  sep : ℚ
  msame : ℚ
  mdiff : ℚ
deriving DecidableEq, Repr

/-- Per-night-id report entry of `tracklets_associations`; the duplicate
count key is only written when the iteration had at least one association,
hence the `Option`. -/
structure Pass1NidReport where
  old_nid : ℤ
  nbDup : Option Nat
deriving DecidableEq, Repr

/-- Per-night-id report entry of the other passes (duplicate count always
present). -/
structure NidReport where
  old_nid : ℤ
  nbDup : Nat
deriving DecidableEq, Repr

/-- Report of a pass: the ids recorded as updated and the per-night-id
entries. -/
structure Pass1Report where
  updated : List ℤ
  nids : List Pass1NidReport
deriving DecidableEq, Repr

/-- Report of `trajectories_associations` / `old_observations_associations`. -/
structure PassReport where
  updated : List ℤ
  nids : List NidReport
deriving DecidableEq, Repr

/-- Result of `tracklets_associations`: the `report` is `none` exactly when
the source returns the empty dict `{}` (empty-input short circuit).  The
`calls` field is ghost instrumentation recording every matcher invocation;
it does not influence the data outputs. -/
structure Pass1Out where
  trajectories : List Obs
  tracklets : List Obs
  report : Option Pass1Report
  calls : List MatcherCall
deriving DecidableEq, Repr

/-- Result of `trajectories_associations`. -/
structure Pass2Out where
  trajectories : List Obs
  new_observations : List Obs
  report : Option PassReport
  calls : List MatcherCall
deriving DecidableEq, Repr

/-- Result of `old_observations_associations`. -/
structure Pass3Out where
  tracklets : List Obs
  old_observations : List Obs
  report : Option PassReport
  calls : List MatcherCall
deriving DecidableEq, Repr

/-- Result of `observations_associations`.  The source returns a 3-tuple
`(old_observations, new_observations, {})` on the empty-input short circuit
and a 4-tuple `(trajectory_df, old_observations, new_observations, report)`
otherwise; the two constructors mirror the two arities. -/
inductive Pass4Out where
  | shortCircuit (old_observations new_observations : List Obs)
  | full (trajectory_df old_observations new_observations : List Obs)
      (new_trajectories : List ℤ) (nids : List NidReport) (calls : List MatcherCall)
deriving DecidableEq, Repr

/-- Loop state of `tracklets_associations`. -/
structure Pass1State where
  T : List Obs
  K : List Obs
  updated : List ℤ
  reports : List Pass1NidReport
  calls : List MatcherCall

/-- Re-homing of whole tracklets onto their matched trajectories (lines
308-324 of the source): for each kept association row, all rows of the
tracklet named by its `tmp_traj` receive the trajectory id of the match. -/
def assocTracklets (K : List Obs) : List Obs → List Obs
  | [] => []
  | r :: rs =>
      (K.filter (fun k => k.trajectory_id == r.tmp_traj)).map
        (fun k => { k with trajectory_id := r.trajectory_id })
        ++ assocTracklets K rs

/-- One iteration of the night-id loop of `tracklets_associations` (lines
206-370). -/
def pass1Step (matcher : Matcher) (next_nid : ℤ) (sep ms md ang : ℚ)
    (twoLast lastObs extremity : List Obs) (s : Pass1State) (tr_nid : ℤ) : Pass1State :=
  let anchorIdsHere := trajIds (lastObs.filter (fun r => r.nid == tr_nid))
  let anchors := twoLast.filter (fun r => anchorIdsHere.contains r.trajectory_id)
  let d : ℚ := ((next_nid - tr_nid : ℤ) : ℚ)
  let call : MatcherCall := ⟨tr_nid, sep * d, ms * d, md * d⟩
  let mres := matcher anchors extremity (sep * d) (ms * d) (md * d) ang
  let te := mres.2
  if te.length = 0 then
    { s with reports := s.reports ++ [⟨tr_nid, none⟩], calls := s.calls ++ [call] }
  else
    let dups := dupRows te
    let m := maxTrajId s.T
    let T1 := if dups.length = 0 then s.T else s.T ++ pass1Forks s.T s.K m dups
    let K1 := if dups.length = 0 then s.K
              else s.K.filter (fun k => !(dups.map Obs.tmp_traj).contains k.trajectory_id)
    let updated1 := union1d (s.updated ++ forkIdRange m dups.length) (trajIds mres.1)
    let kept := keptRows te
    let nb := te.length - kept.length
    let assoc := assocTracklets K1 kept
    let K2 := K1.filter (fun k => !(kept.map Obs.tmp_traj).contains k.trajectory_id)
    let T2 := setUpdatedFlags (trajIds assoc) (T1 ++ assoc)
    { T := T2, K := K2, updated := updated1,
      reports := s.reports ++ [⟨tr_nid, some nb⟩], calls := s.calls ++ [call] }

/-- Embeds `tracklets_associations` (pass 1): recorded trajectories against
the tracklets of the incoming night. -/
def tracklets_associations (matcher : Matcher) (trajectories tracklets : List Obs)
    (next_nid : ℤ) (sep ms md ang : ℚ) : Pass1Out :=
  if trajectories.length = 0 ∨ tracklets.length = 0 then
    { trajectories := trajectories, tracklets := tracklets, report := none, calls := [] }
  else
    let tnu := trajectories.filter (fun t => t.not_updated && t.a == -1)
    let twoLast := get_n_last_observations_from_trajectories tnu 2 true
    let lastObs := get_n_last_observations_from_trajectories tnu 1 true
    let extremity := get_n_last_observations_from_trajectories tracklets 1 false
    let nids := descNids (lastObs.map Obs.nid)
    let s := nids.foldl (pass1Step matcher next_nid sep ms md ang twoLast lastObs extremity)
      { T := trajectories, K := tracklets, updated := [], reports := [], calls := [] }
    { trajectories := s.T, tracklets := s.K,
      report := some { updated := s.updated, nids := s.reports }, calls := s.calls }

/-- Loop state of `trajectories_associations`. -/
structure Pass2State where
  T : List Obs
  N : List Obs
  updated : List ℤ
  reports : List NidReport
  calls : List MatcherCall

/-- One iteration of the night-id loop of `trajectories_associations` (lines
573-716): the matched candidate ids are removed from the new-observation
pool, then the association/duplication core `trajAssocApply` runs. -/
def pass2Step (matcher : Matcher) (next_nid : ℤ) (sep ms md ang : ℚ)
    (twoLast lastObs : List Obs) (s : Pass2State) (tr_nid : ℤ) : Pass2State :=
  let anchorIdsHere := trajIds (lastObs.filter (fun r => r.nid == tr_nid))
  let anchors := twoLast.filter (fun r => anchorIdsHere.contains r.trajectory_id)
  let d : ℚ := ((next_nid - tr_nid : ℤ) : ℚ)
  let call : MatcherCall := ⟨tr_nid, sep * d, ms * d, md * d⟩
  let mres := matcher anchors s.N (sep * d) (ms * d) (md * d) ang
  let oa := mres.2
  let N1 := s.N.filter (fun o => !((oa.map Obs.candid).contains o.candid))
  let app := trajAssocApply s.T oa
  let updated1 := if oa.length = 0 then s.updated
    else union1d (s.updated ++ forkIdRange (maxTrajId s.T) (dupRows oa).length) (trajIds oa)
  { T := app.1, N := N1, updated := updated1,
    reports := s.reports ++ [⟨tr_nid, app.2⟩], calls := s.calls ++ [call] }

/-- Embeds `trajectories_associations` (pass 2): recorded trajectories not
updated by pass 1 against the new observations left over by the intra-night
builder. -/
def trajectories_associations (matcher : Matcher) (trajectories new_observations : List Obs)
    (next_nid : ℤ) (sep ms md ang : ℚ) : Pass2Out :=
  if trajectories.length = 0 ∨ new_observations.length = 0 then
    { trajectories := trajectories, new_observations := new_observations,
      report := none, calls := [] }
  else
    let tnu := trajectories.filter (fun t => t.not_updated && t.a == -1)
    let twoLast := get_n_last_observations_from_trajectories tnu 2 true
    let lastObs := get_n_last_observations_from_trajectories tnu 1 true
    let nids := descNids (lastObs.map Obs.nid)
    let s := nids.foldl (pass2Step matcher next_nid sep ms md ang twoLast lastObs)
      { T := trajectories, N := new_observations, updated := [], reports := [], calls := [] }
    { trajectories := s.T, new_observations := s.N,
      report := some { updated := s.updated, nids := s.reports }, calls := s.calls }

/-- Loop state of `old_observations_associations`; the anchor table
`twoFirst` is loop-carried because the source removes matched anchors from it
(line 1016). -/
structure Pass3State where
  K : List Obs
  O : List Obs
  twoFirst : List Obs
  updated : List ℤ
  reports : List NidReport
  calls : List MatcherCall

/-- One iteration of the night-id loop of `old_observations_associations`
(lines 902-1063). -/
def pass3Step (matcher : Matcher) (next_nid : ℤ) (sep ms md ang : ℚ)
    (s : Pass3State) (obs_nid : ℤ) : Pass3State :=
  let current := s.O.filter (fun o => o.nid == obs_nid)
  let d : ℚ := ((next_nid - obs_nid : ℤ) : ℚ)
  let call : MatcherCall := ⟨obs_nid, sep * d, ms * d, md * d⟩
  let mres := matcher s.twoFirst current (sep * d) (ms * d) (md * d) ang
  let tl := mres.1
  let ra := mres.2
  let O1 := s.O.filter (fun o => !((ra.map Obs.candid).contains o.candid))
  if tl.length = 0 then
    { s with O := O1, reports := s.reports ++ [⟨obs_nid, 0⟩], calls := s.calls ++ [call] }
  else
    let dups := dupRows ra
    let m := maxTrajId s.K
    let K1 := if dups.length = 0 then s.K else s.K ++ mkForks s.K m dups
    let kept := keptRows ra
    let nb := ra.length - kept.length
    let K2 := K1 ++ kept
    let twoFirst1 := s.twoFirst.filter (fun r => !(trajIds tl).contains r.trajectory_id)
    let updated1 := union1d (s.updated ++ forkIdRange m dups.length) (trajIds kept)
    let K3 := setUpdatedFlags (trajIds kept) K2
    let O2 := O1.filter (fun o => !((kept.map Obs.candid).contains o.candid))
    { K := K3, O := O2, twoFirst := twoFirst1, updated := updated1,
      reports := s.reports ++ [⟨obs_nid, nb⟩], calls := s.calls ++ [call] }

/-- Embeds `old_observations_associations` (pass 3): tracklets left over by
pass 1 against the retained old observations. -/
def old_observations_associations (matcher : Matcher) (tracklets old_observations : List Obs)
    (next_nid : ℤ) (sep ms md ang : ℚ) : Pass3Out :=
  if tracklets.length = 0 ∨ old_observations.length = 0 then
    { tracklets := tracklets, old_observations := old_observations, report := none, calls := [] }
  else
    let nids := descNids (old_observations.map Obs.nid)
    let twoFirst := get_n_last_observations_from_trajectories tracklets 2 false
    let s := nids.foldl (pass3Step matcher next_nid sep ms md ang)
      { K := tracklets, O := old_observations, twoFirst := twoFirst,
        updated := [], reports := [], calls := [] }
    { tracklets := s.K, old_observations := s.O,
      report := some { updated := s.updated, nids := s.reports }, calls := s.calls }

/-- Positional assignment of consecutive fresh trajectory ids, embedding
`left_assoc["trajectory_id"] = right_assoc["trajectory_id"] = np.arange(last, last + len)`. -/
def setIdsPositional : List Obs → ℤ → List Obs
  | [], _ => []
  | o :: os, n => { o with trajectory_id := n } :: setIdsPositional os (n + 1)

/-- Loop state of `observations_associations`. -/
structure Pass4State where
  Tdf : List Obs
  O : List Obs
  N : List Obs
  lastId : ℤ
  newTrajs : List ℤ
  reports : List NidReport
  calls : List MatcherCall

/-- One iteration of the night-id loop of `observations_associations` (lines
1155-1220). -/
def pass4Step (matcher : ObsMatcher) (next_nid : ℤ) (sep ms md : ℚ)
    (s : Pass4State) (obs_nid : ℤ) : Pass4State :=
  let current := s.O.filter (fun o => o.nid == obs_nid)
  let d : ℚ := ((next_nid - obs_nid : ℤ) : ℚ)
  let call : MatcherCall := ⟨obs_nid, sep * d, ms * d, md * d⟩
  let mres := matcher current s.N (sep * d) (ms * d) (md * d)
  let la := mres.1
  let ra := mres.2
  if la.length = 0 then
    { s with reports := s.reports ++ [⟨obs_nid, 0⟩], calls := s.calls ++ [call] }
  else
    let ids := (List.range la.length).map (fun i => s.lastId + i)
    let O1 := s.O.filter (fun o => !((la.map Obs.candid).contains o.candid))
    let N1 := s.N.filter (fun o => !((ra.map Obs.candid).contains o.candid))
    let la1 := setIdsPositional la s.lastId
    let ra1 := setIdsPositional ra s.lastId
    { Tdf := s.Tdf ++ la1 ++ ra1, O := O1, N := N1,
      lastId := s.lastId + la.length,
      newTrajs := union1d s.newTrajs ids,
      reports := s.reports ++ [⟨obs_nid, 0⟩], calls := s.calls ++ [call] }

/-- Embeds `observations_associations` (pass 4): leftover old observations
against leftover new observations, forming brand-new two-point trajectories. -/
def observations_associations (matcher : ObsMatcher)
    (old_observations new_observations : List Obs)
    (next_nid last_trajectory_id : ℤ) (sep ms md : ℚ) : Pass4Out :=
  if old_observations.length = 0 ∨ new_observations.length = 0 then
    .shortCircuit old_observations new_observations
  else
    let nids := descNids (old_observations.map Obs.nid)
    let s := nids.foldl (pass4Step matcher next_nid sep ms md)
      { Tdf := [], O := old_observations, N := new_observations,
        lastId := last_trajectory_id, newTrajs := [], reports := [], calls := [] }
    .full s.Tdf s.O s.N s.newTrajs s.reports s.calls

/-- Ghost call log of a pass-4 result (empty for the short circuit, which
performs no matcher invocation). -/
def pass4Calls : Pass4Out → List MatcherCall
  | .shortCircuit _ _ => []
  | .full _ _ _ _ _ cs => cs

/-- The table of brand-new two-point trajectories of a pass-4 result (empty
on the short circuit). -/
def pass4NewTrajectories : Pass4Out → List Obs
  | .shortCircuit _ _ => []
  | .full tdf _ _ _ _ _ => tdf

/-- Embeds `prep_orbit_computation` (lines 1233-1246): group rows by
trajectory id, send the trajectories with at least 3 rows to orbit
computation and keep the others back.  The `pd.to_numeric` / `astype(int)`
conversions of the source are identities in this typed model. -/
def prep_orbit_computation (trajectory_df : List Obs) : List Obs × List Obs :=
  let counts := fun t => (rowsWithId trajectory_df t).length
  let idsGe3 := (trajIds trajectory_df).filter (fun t => decide (3 ≤ counts t))
  let idsLt3 := (trajIds trajectory_df).filter (fun t => decide (counts t < 3))
  (trajectory_df.filter (fun r => idsLt3.contains r.trajectory_id),
   trajectory_df.filter (fun r => idsGe3.contains r.trajectory_id))

/-- Filesystem events of one `compute_orbit_elem` worker. -/
inductive OrbEvent where
  | mkdir
  | rmdir
deriving DecidableEq, Repr

/-- Observable behaviour of one `compute_orbit_elem` worker: the scratch
directory events in program order, the tables put on the result channel, and
the direct return value (`some df` for the early return on empty input; the
normal path returns the sentinel `0`, modelled as `none`). -/
structure OrbitRun where
  events : List OrbEvent
  puts : List (List Obs)
  ret : Option (List Obs)
deriving DecidableEq, Repr

/-- Interface of the external orbit fitter `compute_df_orbit_param` (spec
section 6, Orbit Computation Service): per trajectory id, the computed value
for the representative orbital column. -/
def OrbitCalc : Type := List Obs → List (ℤ × ℚ)

/-- First computed orbital value for a trajectory id, if any; embeds the
`merge(..., on="trajectory_id")` join for the single-result-per-id case. -/
def lookupOrbit (t : ℤ) : List (ℤ × ℚ) → Option ℚ
  | [] => none
  | p :: ps => if p.1 = t then some p.2 else lookupOrbit t ps

/-- Embeds `compute_orbit_elem` (lines 1249-1293): the scratch directory is
created unconditionally before the emptiness check; an empty table is
returned directly with nothing put on the channel (and the scratch directory
is never removed on that path); otherwise rows with computed elements pass
through and rows with sentinel `a = -1` are joined with the fitter output,
and the single concatenated table is put on the channel. -/
def compute_orbit_elem (orbitCalc : OrbitCalc) (trajectory_df : List Obs) : OrbitRun :=
  if trajectory_df.length = 0 then
    { events := [.mkdir], puts := [], ret := some trajectory_df }
  else
    let traj_to_compute := trajectory_df.filter (fun r => r.a == -1)
    let traj_with_orbelem := trajectory_df.filter (fun r => !(r.a == -1))
    let orbit_elem := orbitCalc traj_to_compute
    let merged := traj_to_compute.filterMap
      (fun r => (lookupOrbit r.trajectory_id orbit_elem).map (fun v => { r with a := v }))
    { events := [.mkdir, .rmdir], puts := [traj_with_orbelem ++ merged], ret := none }

/-- Modelled from the spec: `time_window_management` is imported from
`alert_association/night_to_night_association.py`, which is not among the
given sources.  Per spec section 4.1 (Window Manager) it partitions
trajectories into archived (last-observation night id older than the
horizon) and active, filters bare observations by the same horizon, and on
an empty trajectory table returns both partitions empty with observations
passing through untouched. -/
structure TWOut where
  old_traj : List Obs
  most_recent_traj : List Obs
  old_observation : List Obs
deriving DecidableEq, Repr

/-- Modelled from the spec: see `TWOut`. -/
def time_window_management (trajectory_df old_observation : List Obs)
    (last_nid next_nid time_window : ℤ) : TWOut :=
  if trajectory_df.length = 0 then
    { old_traj := [], most_recent_traj := [], old_observation := old_observation }
  else
    let lastNidOf := fun t => maxIntList ((rowsWithId trajectory_df t).map Obs.nid)
    { old_traj :=
        trajectory_df.filter (fun r => decide (time_window < next_nid - lastNidOf r.trajectory_id)),
      most_recent_traj :=
        trajectory_df.filter (fun r => decide (next_nid - lastNidOf r.trajectory_id ≤ time_window)),
      old_observation := old_observation.filter (fun o => decide (next_nid - o.nid ≤ time_window)) }

/-- Interface of the external intra-night builder (spec section 6,
Intra-Night Tracklet Builder): one night of observations and the next
available trajectory id in, the tracklet table out. -/
def IntraBuilder : Type := List Obs → ℤ → List Obs

/-- Embeds `intra_night_step` (lines 1296-1334) at the builder interface:
the builder forms the tracklets and every alert appearing in a tracklet is
removed from the unassociated pool. -/
def intra_night_step (builder : IntraBuilder) (new_observation : List Obs)
    (last_trajectory_id : ℤ) : List Obs × List Obs :=
  let tracklets := builder new_observation last_trajectory_id
  (tracklets,
   new_observation.filter (fun o => !((tracklets.map Obs.candid).contains o.candid)))

/-- Scheduling events of one `night_to_night_association` cycle: invocation
of an association pass, start of a background orbit worker, one blocking
receive on the result channel, termination of a worker.  Workers 1, 2, 3 are
the processes started after passes 1, 2, 3; worker 0 is the single process of
the empty-trajectory-table branch. -/
inductive Event where
  | passStart (n : Nat)
  | spawn (w : Nat)
  | receive
  | terminate (w : Nat)
deriving DecidableEq, Repr

/-- Concatenation of the tables received from the result channel
(`pd.concat(tmp_traj_orb_elem)`). -/
def concatTables : List (List Obs) → List Obs
  | [] => []
  | t :: ts => t ++ concatTables ts

/-- Observable behaviour of one `night_to_night_association` cycle: the
three orbit batches handed to the background workers, the scheduling trace,
and the returned `(trajectory_df, old_observation)` pair (`none` when a
blocking `q.get()` can never be served because a worker with an empty batch
enqueues nothing — the source would block forever there). -/
structure N2NRun where
  batch1 : List Obs
  batch2 : List Obs
  batch3 : List Obs
  trace : List Event
  result : Option (List Obs × List Obs)
deriving DecidableEq, Repr

/-- Embeds `night_to_night_association` (lines 1337-1564).  The result
channel is modelled as the list of tables enqueued by the workers in spawn
order (the source does not depend on arrival order: it performs three
blocking receives and concatenates).  Note that the source invokes only
passes 1-3; `observations_associations` is never called (only its banner is
printed), and only the workers started after passes 1 and 2 are terminated. -/
def night_to_night_association (matcher : Matcher) (obsMatcher : ObsMatcher)
    (builder : IntraBuilder) (orbitCalc : OrbitCalc)
    (trajectory_df old_observation new_observation : List Obs)
    (last_nid next_nid time_window : ℤ) (sep ms md ang : ℚ) : N2NRun :=
  let last_trajectory_id := seedTrajectoryId trajectory_df
  let tw := time_window_management trajectory_df old_observation last_nid next_nid time_window
  let istep := intra_night_step builder new_observation last_trajectory_id
  let tracklets := istep.1
  let remaining_new := istep.2
  if trajectory_df.length = 0 then
    let po := prep_orbit_computation tracklets
    let r0 := compute_orbit_elem orbitCalc po.2
    { batch1 := po.2, batch2 := [], batch3 := [],
      trace := Event.spawn 0 ::
        (match r0.puts with
         | [_] => [Event.receive, Event.terminate 0]
         | _ => []),
      result := match r0.puts with
        | [tbl] => some (po.1 ++ tbl, remaining_new)
        | _ => none }
  else
    let p1 := tracklets_associations matcher tw.most_recent_traj tracklets next_nid sep ms md ang
    let traj_to_orb := p1.trajectories.filter (fun r => !r.not_updated)
    let traj_not_updated := p1.trajectories.filter (fun r => r.not_updated)
    let po1 := prep_orbit_computation p1.tracklets
    let b1 := traj_to_orb ++ po1.2
    let r1 := compute_orbit_elem orbitCalc b1
    let p2 := trajectories_associations matcher traj_not_updated remaining_new next_nid sep ms md ang
    let po2 := prep_orbit_computation p2.trajectories
    let b2 := po2.2
    let r2 := compute_orbit_elem orbitCalc b2
    let p3 := old_observations_associations matcher po1.1 tw.old_observation next_nid sep ms md ang
    let updated_tracklets := p3.tracklets.filter (fun r => !r.not_updated)
    let not_updated_tracklets := p3.tracklets.filter (fun r => r.not_updated)
    let b3 := updated_tracklets
    let r3 := compute_orbit_elem orbitCalc b3
    let queue := r1.puts ++ r2.puts ++ r3.puts
    let preTrace := [Event.passStart 1, .spawn 1, .passStart 2, .spawn 2, .passStart 3, .spawn 3]
    { batch1 := b1, batch2 := b2, batch3 := b3,
      trace := preTrace ++
        (if 3 ≤ queue.length
         then [.receive, .receive, .receive, .terminate 1, .terminate 2]
         else List.replicate queue.length .receive),
      result := if 3 ≤ queue.length
        then some (tw.old_traj ++ (concatTables (queue.take 3) ++ po2.1
            ++ not_updated_tracklets),
          p3.old_observations ++ p2.new_observations)
        else none }

/-- Concrete observation builder for the test scenarios below (positions and
magnitudes are irrelevant to the orchestration logic). -/
def mkObs (nid fid candid tid : ℤ) (jd : ℚ) (a : ℚ) (fl : Bool) : Obs :=
  { ra := 0, dec := 0, dcmag := 0, nid := nid, fid := fid, jd := jd,
    candid := candid, trajectory_id := tid, tmp_traj := 0, a := a, not_updated := fl }

/-- A matcher instance that never matches anything (a valid behaviour of the
spec interface, section 6). -/
def neverMatcher : Matcher := fun _ _ _ _ _ _ => ([], [])

/-- An observation matcher instance that never matches anything. -/
def neverObsMatcher : ObsMatcher := fun _ _ _ _ _ => ([], [])

/-- Demo matcher: matches exactly when the right table holds a row with
filter id 5 and the left table is non-empty; the first such right row is
paired with the first left anchor (a valid behaviour of the spec interface). -/
def demoMatcher : Matcher := fun l r _ _ _ _ =>
  match l, r.filter (fun o => o.fid == 5) with
  | l0 :: _, x :: _ =>
      ([l0], [{ x with trajectory_id := l0.trajectory_id, tmp_traj := x.trajectory_id }])
  | _, _ => ([], [])

/-- Demo observation matcher for the fourth pass: pairs the first left row of
filter id 9 with the first right row. -/
def demoObsMatcher : ObsMatcher := fun l r _ _ _ =>
  match l.filter (fun o => o.fid == 9), r with
  | x :: _, y :: _ => ([x], [y])
  | _, _ => ([], [])

/-- Demo intra-night builder: rows of filter id 1 form one tracklet under the
next available id, rows of filter id 2 a second one (a valid behaviour of the
spec interface). -/
def demoIntra : IntraBuilder := fun obs lastId =>
  (obs.filter (fun o => o.fid == 1)).map (fun o => { o with trajectory_id := lastId })
    ++ (obs.filter (fun o => o.fid == 2)).map (fun o => { o with trajectory_id := lastId + 1 })

/-- Demo orbit fitter: assigns semi-major axis 1 to every submitted
trajectory id. -/
def demoOrbit : OrbitCalc := fun df => (trajIds df).map (fun t => (t, 1))

/-- Demo night scenario: one recorded 3-point trajectory (id 0, sentinel
orbital elements, not yet updated). -/
def demoTraj : List Obs :=
  [mkObs 7 4 1 0 1 (-1) true, mkObs 8 4 2 0 2 (-1) true, mkObs 9 4 3 0 3 (-1) true]

/-- Demo night scenario: two retained old observations; candid 50 (filter 5)
is matchable by pass 3, candid 51 (filter 9) is only matchable by pass 4. -/
def demoOld : List Obs :=
  [mkObs 8 5 50 0 2 (-1) true, mkObs 7 9 51 0 1 (-1) true]

/-- Demo night scenario: six new observations; filters 1 and 2 form two
tracklets (3 and 2 rows), candid 66 (filter 3) stays unassociated and is only
matchable by pass 4 against candid 51. -/
def demoNew : List Obs :=
  [mkObs 10 1 60 0 10 (-1) true, mkObs 10 1 61 0 11 (-1) true, mkObs 10 1 62 0 12 (-1) true,
   mkObs 10 2 63 0 10 (-1) true, mkObs 10 2 64 0 11 (-1) true,
   mkObs 10 3 66 0 10 (-1) true]

/-- The demo night cycle. -/
def demoRun : N2NRun :=
  night_to_night_association demoMatcher demoObsMatcher demoIntra demoOrbit
    demoTraj demoOld demoNew 9 10 100 1 1 1 30

/-- A matcher that returns the same right-hand observation matched to two
different left trajectories (permitted by the spec interface of section 6,
which promises only matched pairs plus unmatched remainders). -/
def doubleMatcher : Matcher := fun l r _ _ _ _ =>
  match l, r with
  | l0 :: l1 :: _, x :: _ =>
      ([l0, l1], [{ x with trajectory_id := l0.trajectory_id, tmp_traj := x.trajectory_id },
                  { x with trajectory_id := l1.trajectory_id, tmp_traj := x.trajectory_id }])
  | _, _ => ([], [])

/-- Two single-point trajectories used to exhibit the double match. -/
def cxTraj : List Obs := [mkObs 9 4 1 0 1 (-1) true, mkObs 9 4 2 1 1 (-1) true]

/-- The single new observation matched twice by `doubleMatcher`. -/
def cxNew : List Obs := [mkObs 10 4 100 0 10 (-1) true]

/-- Interface contract of the external matcher drawn from the spec (section
6): the matched right rows are drawn from the right input (by candidate id),
each right-hand candidate is matched at most once, and each matched row is
tagged with the trajectory id of one of the left anchors. -/
def MatcherOK (matcher : Matcher) : Prop :=
  ∀ l r s a b g,
    (∀ o ∈ (matcher l r s a b g).2, o.candid ∈ candids r)
    ∧ ((matcher l r s a b g).2.map Obs.candid).Nodup
    ∧ (∀ o ∈ (matcher l r s a b g).2, o.trajectory_id ∈ trajIds l)

/-- Conservation invariant of the night-id loop of
`trajectories_associations`: every original new-observation candidate id is
either still in the pool and in no trajectory, or out of the pool and in
exactly one trajectory row — one whose trajectory id is not anchored at any
night id still to be processed. -/
def pass2Inv (N0 lastObs : List Obs) (rest : List ℤ) (T N : List Obs) : Prop :=
  ∀ c ∈ candids N0,
    (c ∈ candids N ∧ rowsWithCandid T c = [])
    ∨ (c ∉ candids N ∧ ∃ r0, rowsWithCandid T c = [r0]
        ∧ ∀ row ∈ lastObs, row.trajectory_id = r0.trajectory_id → row.nid ∉ rest)

/-- Core of one night-id iteration of `tracklets_associations` (lines
239-345), taking the matcher output `te` for this iteration: fork every
duplicated association (copying the trajectory history and the whole
duplicated tracklet under the fresh id), drop the duplicated tracklets from
the pool, attach the whole tracklet of every kept first-match under its
trajectory id (looked up in the already thinned pool, as the source does),
drop those tracklets from the pool as well, and mark the trajectories that
actually received a continuation as updated.  Returns the new trajectory
table, the new tracklet pool, and the "number of duplicated association"
figure of the report.  `pass1Step` is this core plus the report and ghost
bookkeeping (see `pass1Step_TK`). -/
def trackAssocApply (trajs K te : List Obs) : List Obs × List Obs × Nat :=
  if te.length = 0 then (trajs, K, 0)
  else
    let dups := dupRows te
    let m := maxTrajId trajs
    let T1 := if dups.length = 0 then trajs else trajs ++ pass1Forks trajs K m dups
    let K1 := if dups.length = 0 then K
              else K.filter (fun k => !(dups.map Obs.tmp_traj).contains k.trajectory_id)
    let kept := keptRows te
    let assoc := assocTracklets K1 kept
    let K2 := K1.filter (fun k => !(kept.map Obs.tmp_traj).contains k.trajectory_id)
    (setUpdatedFlags (trajIds assoc) (T1 ++ assoc), K2, te.length - kept.length)

/-- Matched-pairs half of the external matcher contract (spec section 6):
the matched left rows are drawn from the left table, and every matched
right row is tagged with the trajectory id of one of the matched left rows
— the two returned tables being the two sides of one set of pairs. -/
def MatcherPairs (matcher : Matcher) : Prop :=
  ∀ l r s a b g,
    (∀ o ∈ (matcher l r s a b g).1, o ∈ l)
    ∧ (∀ o ∈ (matcher l r s a b g).2, o.trajectory_id ∈ trajIds (matcher l r s a b g).1)

/-- At-most-once side condition on the tracklet side of the matcher: the
temporary tracklet ids carried by the matched right rows are pairwise
distinct, i.e. a whole tracklet comes back in at most one association row
per call.  The spec interface does not itself promise this. -/
def MatcherTmpNodup (matcher : Matcher) : Prop :=
  ∀ l r s a b g, ((matcher l r s a b g).2.map Obs.tmp_traj).Nodup

/-- Interface contract of the pass-4 matcher
`night_to_night_observation_association` (spec section 6): matched left and
right rows are drawn from the inputs by candidate id; the pairwise
distinctness of the matched right candidates is the at-most-once side
condition that the spec interface does not itself promise. -/
def ObsMatcherOK (matcher : ObsMatcher) : Prop :=
  ∀ l r s a b,
    (∀ o ∈ (matcher l r s a b).1, o.candid ∈ candids l)
    ∧ (∀ o ∈ (matcher l r s a b).2, o.candid ∈ candids r)
    ∧ ((matcher l r s a b).2.map Obs.candid).Nodup

/-- Conservation invariant of the night-id loop of `tracklets_associations`:
every original tracklet-pool candidate id is either still in the pool and in
no trajectory, or out of the pool and in exactly one trajectory row — one
whose trajectory id is not anchored at any night id still to be
processed. -/
def pass1Inv (K0 lastObs : List Obs) (rest : List ℤ) (T K : List Obs) : Prop :=
  ∀ c ∈ candids K0,
    (c ∈ candids K ∧ rowsWithCandid T c = [])
    ∨ (c ∉ candids K ∧ ∃ r0, rowsWithCandid T c = [r0]
        ∧ ∀ row ∈ lastObs, row.trajectory_id = r0.trajectory_id → row.nid ∉ rest)

/-- Conservation invariant of the night-id loop of
`old_observations_associations`: every original old-observation candidate id
is either still in the retained pool and in no tracklet, or out of the pool
and in exactly one tracklet row — one whose trajectory id no longer appears
in the loop-carried anchor table (the source removes matched anchors at line
1016, so such a tracklet is never matched again). -/
def pass3Inv (O0 : List Obs) (K O twoFirst : List Obs) : Prop :=
  ∀ c ∈ candids O0,
    (c ∈ candids O ∧ rowsWithCandid K c = [])
    ∨ (c ∉ candids O ∧ ∃ r0, rowsWithCandid K c = [r0]
        ∧ r0.trajectory_id ∉ trajIds twoFirst)

/-- Conservation invariant of the night-id loop of
`observations_associations`: every original new-observation candidate id is
either still unassociated and in no brand-new trajectory, or removed from
the pool and in exactly one row of the brand-new trajectory table. -/
def pass4Inv (N0 : List Obs) (T N : List Obs) : Prop :=
  ∀ c ∈ candids N0,
    (c ∈ candids N ∧ rowsWithCandid T c = [])
    ∨ (c ∉ candids N ∧ ∃ r0, rowsWithCandid T c = [r0])

/-- The remaining new observations of a pass-4 result. -/
def pass4RemainingNew : Pass4Out → List Obs
  | .shortCircuit _ n => n
  | .full _ _ n _ _ _ => n

/-- Single recorded one-point trajectory of the pass-1 duplicate
scenarios. -/
def c2T : List Obs := [mkObs 9 4 1 0 1 (-1) true]

/-- Tracklet pool of the pass-1 duplicate scenarios: tracklet 7 with two
alerts and tracklet 8 with one alert. -/
def c2K : List Obs :=
  [mkObs 10 1 80 7 10 (-1) true, mkObs 10 1 81 7 11 (-1) true,
   mkObs 10 2 82 8 10 (-1) true]

/-- Matcher output associating trajectory 0 with tracklet 7, tracklet 8 and
tracklet 7 again: three association rows for one trajectory naming two
distinct tracklets, with the same tracklet matched twice — which the spec
interface (matched pairs plus each side's unmatched remainder) does not
forbid. -/
def c2te : List Obs :=
  [{ mkObs 10 1 80 0 10 (-1) true with tmp_traj := 7 },
   { mkObs 10 2 82 0 10 (-1) true with tmp_traj := 8 },
   { mkObs 10 1 80 0 10 (-1) true with tmp_traj := 7 }]

/-- Matched rows of `c2teGood`: the same two distinct tracklets for
trajectory 0, but each tracklet matched exactly once. -/
def c2teGood : List Obs :=
  [{ mkObs 10 1 80 0 10 (-1) true with tmp_traj := 7 },
   { mkObs 10 2 82 0 10 (-1) true with tmp_traj := 8 }]

/-- A matcher instance returning the association rows of `c2te` whenever the
anchor table is non-empty. -/
def c2Matcher : Matcher := fun l _ _ _ _ _ =>
  match l with
  | [] => ([], [])
  | l0 :: _ => ([l0], c2te)

/-! ### Generic list lemmas -/

theorem length_filter_partition {α : Type} (p : α → Bool) (l : List α) :
    (l.filter p).length + (l.filter (fun a => !p a)).length = l.length := by
  induction l with
  | nil => simp
  | cons h t ih =>
      by_cases hp : p h = true
      · rw [List.filter_cons_of_pos hp, List.filter_cons_of_neg (by simp [hp])]
        simp only [List.length_cons]
        omega
      · rw [List.filter_cons_of_neg hp, List.filter_cons_of_pos (by simp [hp])]
        simp only [List.length_cons]
        omega

theorem le_maxIntList {x : ℤ} {l : List ℤ} (hx : x ∈ l) : x ≤ maxIntList l := by
  induction l with
  | nil => cases hx
  | cons h t ih =>
      cases t with
      | nil =>
          simp only [List.mem_singleton] at hx
          simp [maxIntList, hx]
      | cons y ys =>
          rcases List.mem_cons.mp hx with h1 | h2
          · subst h1; exact le_max_left _ _
          · exact le_trans (ih h2) (le_max_right _ _)

theorem maxIntList_mem {l : List ℤ} (h : l ≠ []) : maxIntList l ∈ l := by
  induction l with
  | nil => exact absurd rfl h
  | cons x t ih =>
      cases t with
      | nil => simp [maxIntList]
      | cons y ys =>
          rcases max_cases x (maxIntList (y :: ys)) with ⟨he, _⟩ | ⟨he, _⟩
          · simp only [maxIntList, he]
            exact List.mem_cons_self _ _
          · have hm := ih (by simp)
            simp only [maxIntList, he]
            exact List.mem_cons_of_mem _ hm

/-! ### Claim theorems: identifier seed, empty-input short circuits,
orbit-batch split, orbit worker -/

/-- C3 counterexample: the claim states that with no trajectories the
allocator is seeded with `0`; the source expression
`np.nan_to_num(np.max(ids)) + 1` yields `1` on the empty table. -/
theorem C3_seed_counterexample :
    seedTrajectoryId [] = 1 ∧ seedTrajectoryId [] ≠ 0 := by
  constructor
  · rfl
  · decide

/-- C3 (amended): at the start of a night, `night_to_night_association`
seeds the identifier allocator (the value handed to the intra-night builder
and used for fresh ids) with a value strictly greater than every existing
trajectory id and equal to some existing id plus one when trajectories
exist; when no trajectories exist the seed is `1` (the NaN maximum is
mapped to `0` before the increment), not `0`. -/
theorem C3_identifier_seed (trajectory_df : List Obs) :
    (trajectory_df ≠ [] →
      (∀ r ∈ trajectory_df, r.trajectory_id < seedTrajectoryId trajectory_df)
      ∧ ∃ r ∈ trajectory_df, seedTrajectoryId trajectory_df = r.trajectory_id + 1)
    ∧ (trajectory_df = [] → seedTrajectoryId trajectory_df = 1) := by
  constructor
  · intro hne
    constructor
    · intro r hr
      have : r.trajectory_id ≤ maxIntList (trajectory_df.map Obs.trajectory_id) :=
        le_maxIntList (List.mem_map_of_mem _ hr)
      unfold seedTrajectoryId
      omega
    · have hmapne : trajectory_df.map Obs.trajectory_id ≠ [] := by
        simpa using hne
      have hmem := maxIntList_mem hmapne
      rcases List.mem_map.mp hmem with ⟨r, hr, he⟩
      exact ⟨r, hr, by unfold seedTrajectoryId; rw [he]⟩
  · intro h; subst h; rfl

/-- C3 witness. -/
theorem C3_identifier_seed_witness :
    ((∀ r ∈ demoTraj, r.trajectory_id < seedTrajectoryId demoTraj)
      ∧ ∃ r ∈ demoTraj, seedTrajectoryId demoTraj = r.trajectory_id + 1)
    ∧ seedTrajectoryId [] = 1 :=
  ⟨(C3_identifier_seed demoTraj).1 (by decide), (C3_identifier_seed []).2 rfl⟩

/-- C4: each of the four matching passes, given an empty left or an empty
right table, returns its inputs unchanged together with the empty report
(`report = none`, respectively the short-circuit arity of pass 4), without
touching anything else. -/
theorem C4_empty_input_short_circuit
    (matcher : Matcher) (obsMatcher : ObsMatcher) (left right : List Obs)
    (next_nid last_id : ℤ) (sep ms md ang : ℚ) (h : left = [] ∨ right = []) :
    tracklets_associations matcher left right next_nid sep ms md ang
        = { trajectories := left, tracklets := right, report := none, calls := [] }
    ∧ trajectories_associations matcher left right next_nid sep ms md ang
        = { trajectories := left, new_observations := right, report := none, calls := [] }
    ∧ old_observations_associations matcher left right next_nid sep ms md ang
        = { tracklets := left, old_observations := right, report := none, calls := [] }
    ∧ observations_associations obsMatcher left right next_nid last_id sep ms md
        = .shortCircuit left right := by
  have hlen : left.length = 0 ∨ right.length = 0 := by
    rcases h with h | h <;> [left; right] <;> simp [h]
  refine ⟨?_, ?_, ?_, ?_⟩
  · unfold tracklets_associations; rw [if_pos hlen]
  · unfold trajectories_associations; rw [if_pos hlen]
  · unfold old_observations_associations; rw [if_pos hlen]
  · unfold observations_associations; rw [if_pos hlen]

/-- C4 witness. -/
theorem C4_empty_input_short_circuit_witness :
    tracklets_associations neverMatcher [] demoNew 10 1 1 1 30
        = { trajectories := [], tracklets := demoNew, report := none, calls := [] }
    ∧ trajectories_associations neverMatcher [] demoNew 10 1 1 1 30
        = { trajectories := [], new_observations := demoNew, report := none, calls := [] }
    ∧ old_observations_associations neverMatcher [] demoNew 10 1 1 1 30
        = { tracklets := [], old_observations := demoNew, report := none, calls := [] }
    ∧ observations_associations neverObsMatcher [] demoNew 10 0 1 1 1
        = .shortCircuit [] demoNew :=
  C4_empty_input_short_circuit neverMatcher neverObsMatcher [] demoNew 10 0 1 1 1 30
    (Or.inl rfl)

/-- C7: `prep_orbit_computation` splits a trajectory table exactly at the
3-observation threshold: the orbit-bound partition consists precisely of the
rows whose trajectory has at least 3 observations, the held-back partition
of the rows whose trajectory has fewer, each row kept untouched, and the two
partitions together account for every row (none lost, none duplicated). -/
theorem C7_prep_orbit_computation_split (trajectory_df : List Obs) :
    (prep_orbit_computation trajectory_df).2
        = trajectory_df.filter
            (fun r => decide (3 ≤ (rowsWithId trajectory_df r.trajectory_id).length))
    ∧ (prep_orbit_computation trajectory_df).1
        = trajectory_df.filter
            (fun r => decide ((rowsWithId trajectory_df r.trajectory_id).length < 3))
    ∧ (prep_orbit_computation trajectory_df).1.length
        + (prep_orbit_computation trajectory_df).2.length
        = trajectory_df.length := by
  have hmem : ∀ r ∈ trajectory_df, r.trajectory_id ∈ trajIds trajectory_df := by
    intro r hr
    exact List.mem_dedup.mpr (List.mem_map_of_mem _ hr)
  have h2 : (prep_orbit_computation trajectory_df).2
      = trajectory_df.filter
          (fun r => decide (3 ≤ (rowsWithId trajectory_df r.trajectory_id).length)) := by
    unfold prep_orbit_computation
    refine List.filter_congr ?_
    intro r hr
    simp only [List.elem_eq_mem, List.mem_filter, decide_eq_true_eq, decide_eq_decide]
    constructor
    · rintro ⟨-, hc⟩; exact hc
    · intro hc; exact ⟨hmem r hr, hc⟩
  have h1 : (prep_orbit_computation trajectory_df).1
      = trajectory_df.filter
          (fun r => decide ((rowsWithId trajectory_df r.trajectory_id).length < 3)) := by
    unfold prep_orbit_computation
    refine List.filter_congr ?_
    intro r hr
    simp only [List.elem_eq_mem, List.mem_filter, decide_eq_true_eq, decide_eq_decide]
    constructor
    · rintro ⟨-, hc⟩; exact hc
    · intro hc; exact ⟨hmem r hr, hc⟩
  refine ⟨h2, h1, ?_⟩
  rw [h1, h2]
  have hneg : (fun r : Obs => decide (3 ≤ (rowsWithId trajectory_df r.trajectory_id).length))
      = fun r => !decide ((rowsWithId trajectory_df r.trajectory_id).length < 3) := by
    funext r
    by_cases hc : (rowsWithId trajectory_df r.trajectory_id).length < 3
    · simp [hc, Nat.not_le_of_lt hc]
    · simp [hc, Nat.le_of_not_lt hc]
  rw [hneg]
  exact length_filter_partition _ trajectory_df

/-- C10: `compute_orbit_elem` creates its scratch directory first on every
path (the very first event is `mkdir`, even for empty input); on an empty
batch it returns the table directly and enqueues nothing on the result
channel; on a non-empty batch exactly one table is enqueued and every row
whose orbital elements are already computed (`a ≠ -1`) passes through into
that table unchanged. -/
theorem C10_compute_orbit_elem (orbitCalc : OrbitCalc) (trajectory_df : List Obs) :
    (compute_orbit_elem orbitCalc trajectory_df).events.head? = some .mkdir
    ∧ (trajectory_df = [] →
        (compute_orbit_elem orbitCalc trajectory_df).puts = []
        ∧ (compute_orbit_elem orbitCalc trajectory_df).ret = some trajectory_df)
    ∧ (trajectory_df ≠ [] →
        ∃ tbl, (compute_orbit_elem orbitCalc trajectory_df).puts = [tbl]
        ∧ ∀ r ∈ trajectory_df, r.a ≠ -1 → r ∈ tbl) := by
  by_cases hlen : trajectory_df.length = 0
  · have hnil : trajectory_df = [] := List.length_eq_zero.mp hlen
    refine ⟨?_, fun _ => ⟨?_, ?_⟩, fun hne => absurd hnil hne⟩
      <;> simp [compute_orbit_elem, hlen]
  · refine ⟨?_, fun hnil => absurd (by simp [hnil]) hlen, fun _ => ?_⟩
    · simp [compute_orbit_elem, hlen]
    · refine ⟨(trajectory_df.filter (fun r => !(r.a == -1)))
        ++ (trajectory_df.filter (fun r => r.a == -1)).filterMap
          (fun r => (lookupOrbit r.trajectory_id
              (orbitCalc (trajectory_df.filter (fun r => r.a == -1)))).map
            (fun v => { r with a := v })), ?_, ?_⟩
      · simp [compute_orbit_elem, hlen]
      · intro r hr ha
        refine List.mem_append_left _ (List.mem_filter.mpr ⟨hr, ?_⟩)
        simp [ha]

/-- C10 witness. -/
theorem C10_compute_orbit_elem_witness :
    ((compute_orbit_elem demoOrbit []).puts = []
      ∧ (compute_orbit_elem demoOrbit []).ret = some [])
    ∧ ∃ tbl, (compute_orbit_elem demoOrbit demoTraj).puts = [tbl]
        ∧ ∀ r ∈ demoTraj, r.a ≠ -1 → r ∈ tbl :=
  ⟨(C10_compute_orbit_elem demoOrbit []).2.1 rfl,
   (C10_compute_orbit_elem demoOrbit demoTraj).2.2 (by decide)⟩

/-! ### Sorted-unique night ids -/

theorem mem_insertUnique {x y : ℤ} {l : List ℤ} :
    y ∈ insertUnique x l ↔ y = x ∨ y ∈ l := by
  induction l with
  | nil => simp [insertUnique]
  | cons h t ih =>
      simp only [insertUnique]
      split
      · next he => subst he; simp only [List.mem_cons]; tauto
      · split
        · simp [List.mem_cons]
        · simp only [List.mem_cons, ih]; tauto

theorem pairwise_insertUnique {x : ℤ} {l : List ℤ} (h : l.Pairwise (· < ·)) :
    (insertUnique x l).Pairwise (· < ·) := by
  induction l with
  | nil => simp [insertUnique]
  | cons y ys ih =>
      rcases List.pairwise_cons.mp h with ⟨hy, hys⟩
      by_cases he : x = y
      · simpa only [insertUnique, if_pos he] using h
      · by_cases hlt : x < y
        · simp only [insertUnique, if_neg he, if_pos hlt]
          refine List.pairwise_cons.mpr ⟨?_, h⟩
          intro z hz
          rcases List.mem_cons.mp hz with h1 | h2
          · exact h1 ▸ hlt
          · exact lt_trans hlt (hy z h2)
        · have hyx : y < x := by omega
          simp only [insertUnique, if_neg he, if_neg hlt]
          refine List.pairwise_cons.mpr ⟨?_, ih hys⟩
          intro z hz
          rcases mem_insertUnique.mp hz with h1 | h2
          · exact h1 ▸ hyx
          · exact hy z h2

theorem pairwise_sortedUnique (l : List ℤ) : (sortedUnique l).Pairwise (· < ·) := by
  induction l with
  | nil => simp [sortedUnique]
  | cons x xs ih => exact pairwise_insertUnique ih

theorem mem_sortedUnique {y : ℤ} {l : List ℤ} : y ∈ sortedUnique l ↔ y ∈ l := by
  induction l with
  | nil => simp [sortedUnique]
  | cons x xs ih =>
      simp only [sortedUnique, List.foldr_cons, List.mem_cons]
      rw [show xs.foldr insertUnique [] = sortedUnique xs from rfl] at *
      rw [mem_insertUnique, ih]

theorem pairwise_descNids (l : List ℤ) : (descNids l).Pairwise (· > ·) := by
  unfold descNids
  exact List.pairwise_reverse.mpr (pairwise_sortedUnique l)

theorem mem_descNids {y : ℤ} {l : List ℤ} : y ∈ descNids l ↔ y ∈ l := by
  unfold descNids
  rw [List.mem_reverse, mem_sortedUnique]

/-! ### Ghost call logs of the four passes -/

theorem foldl_calls_shape {σ : Type} (step : σ → ℤ → σ) (proj : σ → List MatcherCall)
    (f : ℤ → MatcherCall) (h : ∀ s n, proj (step s n) = proj s ++ [f n]) :
    ∀ (nids : List ℤ) (s : σ), proj (nids.foldl step s) = proj s ++ nids.map f := by
  intro nids
  induction nids with
  | nil => simp
  | cons n ns ih =>
      intro s
      rw [List.foldl_cons, ih, h, List.map_cons]
      simp

theorem pass1Step_calls (matcher : Matcher) (next_nid : ℤ) (sep ms md ang : ℚ)
    (twoLast lastObs extremity : List Obs) (s : Pass1State) (tr_nid : ℤ) :
    (pass1Step matcher next_nid sep ms md ang twoLast lastObs extremity s tr_nid).calls
      = s.calls ++ [⟨tr_nid, sep * ((next_nid - tr_nid : ℤ) : ℚ),
          ms * ((next_nid - tr_nid : ℤ) : ℚ), md * ((next_nid - tr_nid : ℤ) : ℚ)⟩] := by
  simp only [pass1Step]
  split <;> rfl

theorem pass2Step_calls (matcher : Matcher) (next_nid : ℤ) (sep ms md ang : ℚ)
    (twoLast lastObs : List Obs) (s : Pass2State) (tr_nid : ℤ) :
    (pass2Step matcher next_nid sep ms md ang twoLast lastObs s tr_nid).calls
      = s.calls ++ [⟨tr_nid, sep * ((next_nid - tr_nid : ℤ) : ℚ),
          ms * ((next_nid - tr_nid : ℤ) : ℚ), md * ((next_nid - tr_nid : ℤ) : ℚ)⟩] := by
  simp only [pass2Step]

theorem pass3Step_calls (matcher : Matcher) (next_nid : ℤ) (sep ms md ang : ℚ)
    (s : Pass3State) (obs_nid : ℤ) :
    (pass3Step matcher next_nid sep ms md ang s obs_nid).calls
      = s.calls ++ [⟨obs_nid, sep * ((next_nid - obs_nid : ℤ) : ℚ),
          ms * ((next_nid - obs_nid : ℤ) : ℚ), md * ((next_nid - obs_nid : ℤ) : ℚ)⟩] := by
  simp only [pass3Step]
  split <;> rfl

theorem pass4Step_calls (matcher : ObsMatcher) (next_nid : ℤ) (sep ms md : ℚ)
    (s : Pass4State) (obs_nid : ℤ) :
    (pass4Step matcher next_nid sep ms md s obs_nid).calls
      = s.calls ++ [⟨obs_nid, sep * ((next_nid - obs_nid : ℤ) : ℚ),
          ms * ((next_nid - obs_nid : ℤ) : ℚ), md * ((next_nid - obs_nid : ℤ) : ℚ)⟩] := by
  simp only [pass4Step]
  split <;> rfl

theorem tracklets_associations_calls (matcher : Matcher) (T K : List Obs)
    (next_nid : ℤ) (sep ms md ang : ℚ) (h1 : T ≠ []) (h2 : K ≠ []) :
    (tracklets_associations matcher T K next_nid sep ms md ang).calls
      = (descNids ((get_n_last_observations_from_trajectories
            (T.filter (fun t => t.not_updated && t.a == -1)) 1 true).map Obs.nid)).map
          (fun n => ⟨n, sep * ((next_nid - n : ℤ) : ℚ),
            ms * ((next_nid - n : ℤ) : ℚ), md * ((next_nid - n : ℤ) : ℚ)⟩) := by
  have hg : ¬(T.length = 0 ∨ K.length = 0) := by
    simp [List.length_eq_zero, h1, h2]
  simp only [tracklets_associations, if_neg hg]
  exact foldl_calls_shape _ Pass1State.calls _
    (fun s n => pass1Step_calls matcher next_nid sep ms md ang _ _ _ s n) _ _

theorem trajectories_associations_calls (matcher : Matcher) (T N : List Obs)
    (next_nid : ℤ) (sep ms md ang : ℚ) (h1 : T ≠ []) (h2 : N ≠ []) :
    (trajectories_associations matcher T N next_nid sep ms md ang).calls
      = (descNids ((get_n_last_observations_from_trajectories
            (T.filter (fun t => t.not_updated && t.a == -1)) 1 true).map Obs.nid)).map
          (fun n => ⟨n, sep * ((next_nid - n : ℤ) : ℚ),
            ms * ((next_nid - n : ℤ) : ℚ), md * ((next_nid - n : ℤ) : ℚ)⟩) := by
  have hg : ¬(T.length = 0 ∨ N.length = 0) := by
    simp [List.length_eq_zero, h1, h2]
  simp only [trajectories_associations, if_neg hg]
  exact foldl_calls_shape _ Pass2State.calls _
    (fun s n => pass2Step_calls matcher next_nid sep ms md ang _ _ s n) _ _

theorem old_observations_associations_calls (matcher : Matcher) (K O : List Obs)
    (next_nid : ℤ) (sep ms md ang : ℚ) (h1 : K ≠ []) (h2 : O ≠ []) :
    (old_observations_associations matcher K O next_nid sep ms md ang).calls
      = (descNids (O.map Obs.nid)).map
          (fun n => ⟨n, sep * ((next_nid - n : ℤ) : ℚ),
            ms * ((next_nid - n : ℤ) : ℚ), md * ((next_nid - n : ℤ) : ℚ)⟩) := by
  have hg : ¬(K.length = 0 ∨ O.length = 0) := by
    simp [List.length_eq_zero, h1, h2]
  simp only [old_observations_associations, if_neg hg]
  exact foldl_calls_shape _ Pass3State.calls _
    (fun s n => pass3Step_calls matcher next_nid sep ms md ang s n) _ _

theorem observations_associations_calls (matcher : ObsMatcher) (O N : List Obs)
    (next_nid last_id : ℤ) (sep ms md : ℚ) (h1 : O ≠ []) (h2 : N ≠ []) :
    pass4Calls (observations_associations matcher O N next_nid last_id sep ms md)
      = (descNids (O.map Obs.nid)).map
          (fun n => ⟨n, sep * ((next_nid - n : ℤ) : ℚ),
            ms * ((next_nid - n : ℤ) : ℚ), md * ((next_nid - n : ℤ) : ℚ)⟩) := by
  have hg : ¬(O.length = 0 ∨ N.length = 0) := by
    simp [List.length_eq_zero, h1, h2]
  simp only [observations_associations, if_neg hg, pass4Calls]
  exact foldl_calls_shape _ Pass4State.calls _
    (fun s n => pass4Step_calls matcher next_nid sep ms md s n) _ _

theorem calls_spec_of_eq (next_nid : ℤ) (sep ms md : ℚ) (src : List ℤ)
    (calls : List MatcherCall)
    (h : calls = (descNids src).map
        (fun n => ⟨n, sep * ((next_nid - n : ℤ) : ℚ),
          ms * ((next_nid - n : ℤ) : ℚ), md * ((next_nid - n : ℤ) : ℚ)⟩)) :
    (calls.map MatcherCall.old_nid).Pairwise (· > ·)
    ∧ (∀ call ∈ calls,
        call.sep = sep * ((next_nid - call.old_nid : ℤ) : ℚ)
        ∧ call.msame = ms * ((next_nid - call.old_nid : ℤ) : ℚ)
        ∧ call.mdiff = md * ((next_nid - call.old_nid : ℤ) : ℚ))
    ∧ (∀ n : ℤ, n ∈ calls.map MatcherCall.old_nid ↔ n ∈ src) := by
  subst h
  have hid : (MatcherCall.old_nid ∘ fun n => (⟨n, sep * ((next_nid - n : ℤ) : ℚ),
      ms * ((next_nid - n : ℤ) : ℚ), md * ((next_nid - n : ℤ) : ℚ)⟩ : MatcherCall))
      = id := rfl
  refine ⟨?_, ?_, ?_⟩
  · rw [List.map_map, hid, List.map_id]
    exact pairwise_descNids src
  · intro call hc
    rcases List.mem_map.mp hc with ⟨n, _, he⟩
    subst he
    exact ⟨rfl, rfl, rfl⟩
  · intro n
    rw [List.map_map, hid, List.map_id]
    exact mem_descNids

/-- C6: in every matching pass the historical night ids are visited in
strictly descending order (most recent first), each distinct night id of the
relevant source exactly once, and at night id `n` the separation criterion
and both magnitude criteria handed to the external matcher are the base
criteria multiplied by `next_nid - n` (the ghost `calls` log records the
arguments of every matcher invocation). -/
theorem C6_descending_nids_and_scaled_criteria
    (matcher : Matcher) (obsMatcher : ObsMatcher) (T K N O : List Obs)
    (next_nid last_id : ℤ) (sep ms md ang : ℚ) :
    (((tracklets_associations matcher T K next_nid sep ms md ang).calls.map
        MatcherCall.old_nid).Pairwise (· > ·)
      ∧ (∀ call ∈ (tracklets_associations matcher T K next_nid sep ms md ang).calls,
          call.sep = sep * ((next_nid - call.old_nid : ℤ) : ℚ)
          ∧ call.msame = ms * ((next_nid - call.old_nid : ℤ) : ℚ)
          ∧ call.mdiff = md * ((next_nid - call.old_nid : ℤ) : ℚ))
      ∧ (T ≠ [] → K ≠ [] → ∀ n : ℤ,
          (n ∈ (tracklets_associations matcher T K next_nid sep ms md ang).calls.map
            MatcherCall.old_nid
          ↔ n ∈ (get_n_last_observations_from_trajectories
              (T.filter (fun t => t.not_updated && t.a == -1)) 1 true).map Obs.nid)))
    ∧ (((trajectories_associations matcher T N next_nid sep ms md ang).calls.map
        MatcherCall.old_nid).Pairwise (· > ·)
      ∧ (∀ call ∈ (trajectories_associations matcher T N next_nid sep ms md ang).calls,
          call.sep = sep * ((next_nid - call.old_nid : ℤ) : ℚ)
          ∧ call.msame = ms * ((next_nid - call.old_nid : ℤ) : ℚ)
          ∧ call.mdiff = md * ((next_nid - call.old_nid : ℤ) : ℚ))
      ∧ (T ≠ [] → N ≠ [] → ∀ n : ℤ,
          (n ∈ (trajectories_associations matcher T N next_nid sep ms md ang).calls.map
            MatcherCall.old_nid
          ↔ n ∈ (get_n_last_observations_from_trajectories
              (T.filter (fun t => t.not_updated && t.a == -1)) 1 true).map Obs.nid)))
    ∧ (((old_observations_associations matcher K O next_nid sep ms md ang).calls.map
        MatcherCall.old_nid).Pairwise (· > ·)
      ∧ (∀ call ∈ (old_observations_associations matcher K O next_nid sep ms md ang).calls,
          call.sep = sep * ((next_nid - call.old_nid : ℤ) : ℚ)
          ∧ call.msame = ms * ((next_nid - call.old_nid : ℤ) : ℚ)
          ∧ call.mdiff = md * ((next_nid - call.old_nid : ℤ) : ℚ))
      ∧ (K ≠ [] → O ≠ [] → ∀ n : ℤ,
          (n ∈ (old_observations_associations matcher K O next_nid sep ms md ang).calls.map
            MatcherCall.old_nid
          ↔ n ∈ O.map Obs.nid)))
    ∧ (((pass4Calls (observations_associations obsMatcher O N next_nid last_id sep ms md)).map
        MatcherCall.old_nid).Pairwise (· > ·)
      ∧ (∀ call ∈ pass4Calls (observations_associations obsMatcher O N next_nid last_id sep ms md),
          call.sep = sep * ((next_nid - call.old_nid : ℤ) : ℚ)
          ∧ call.msame = ms * ((next_nid - call.old_nid : ℤ) : ℚ)
          ∧ call.mdiff = md * ((next_nid - call.old_nid : ℤ) : ℚ))
      ∧ (O ≠ [] → N ≠ [] → ∀ n : ℤ,
          (n ∈ (pass4Calls (observations_associations obsMatcher O N next_nid last_id sep ms md)).map
            MatcherCall.old_nid
          ↔ n ∈ O.map Obs.nid))) := by
  refine ⟨?_, ?_, ?_, ?_⟩
  · by_cases hT : T = []
    · have hc : (tracklets_associations matcher T K next_nid sep ms md ang).calls = [] := by
        simp [tracklets_associations, hT]
      exact ⟨by rw [hc]; simp, by rw [hc]; simp, fun h _ _ => absurd hT h⟩
    · by_cases hK : K = []
      · have hc : (tracklets_associations matcher T K next_nid sep ms md ang).calls = [] := by
          simp [tracklets_associations, hK]
        exact ⟨by rw [hc]; simp, by rw [hc]; simp, fun _ h _ => absurd hK h⟩
      · have hs := calls_spec_of_eq next_nid sep ms md _ _
          (tracklets_associations_calls matcher T K next_nid sep ms md ang hT hK)
        exact ⟨hs.1, hs.2.1, fun _ _ => hs.2.2⟩
  · by_cases hT : T = []
    · have hc : (trajectories_associations matcher T N next_nid sep ms md ang).calls = [] := by
        simp [trajectories_associations, hT]
      exact ⟨by rw [hc]; simp, by rw [hc]; simp, fun h _ _ => absurd hT h⟩
    · by_cases hN : N = []
      · have hc : (trajectories_associations matcher T N next_nid sep ms md ang).calls = [] := by
          simp [trajectories_associations, hN]
        exact ⟨by rw [hc]; simp, by rw [hc]; simp, fun _ h _ => absurd hN h⟩
      · have hs := calls_spec_of_eq next_nid sep ms md _ _
          (trajectories_associations_calls matcher T N next_nid sep ms md ang hT hN)
        exact ⟨hs.1, hs.2.1, fun _ _ => hs.2.2⟩
  · by_cases hK : K = []
    · have hc : (old_observations_associations matcher K O next_nid sep ms md ang).calls = [] := by
        simp [old_observations_associations, hK]
      exact ⟨by rw [hc]; simp, by rw [hc]; simp, fun h _ _ => absurd hK h⟩
    · by_cases hO : O = []
      · have hc : (old_observations_associations matcher K O next_nid sep ms md ang).calls = [] := by
          simp [old_observations_associations, hO]
        exact ⟨by rw [hc]; simp, by rw [hc]; simp, fun _ h _ => absurd hO h⟩
      · have hs := calls_spec_of_eq next_nid sep ms md _ _
          (old_observations_associations_calls matcher K O next_nid sep ms md ang hK hO)
        exact ⟨hs.1, hs.2.1, fun _ _ => hs.2.2⟩
  · by_cases hO : O = []
    · have hc : pass4Calls (observations_associations obsMatcher O N next_nid last_id sep ms md)
          = [] := by
        simp [observations_associations, hO, pass4Calls]
      exact ⟨by rw [hc]; simp, by rw [hc]; simp, fun h _ _ => absurd hO h⟩
    · by_cases hN : N = []
      · have hc : pass4Calls (observations_associations obsMatcher O N next_nid last_id sep ms md)
            = [] := by
          simp [observations_associations, hN, pass4Calls]
        exact ⟨by rw [hc]; simp, by rw [hc]; simp, fun _ h _ => absurd hN h⟩
      · have hs := calls_spec_of_eq next_nid sep ms md _ _
          (observations_associations_calls obsMatcher O N next_nid last_id sep ms md hO hN)
        exact ⟨hs.1, hs.2.1, fun _ _ => hs.2.2⟩

/-- C6 witness. -/
theorem C6_descending_nids_and_scaled_criteria_witness :
    (8 ∈ (old_observations_associations demoMatcher demoNew demoOld 10 1 1 1 30).calls.map
        MatcherCall.old_nid ↔ 8 ∈ demoOld.map Obs.nid)
    ∧ ((old_observations_associations demoMatcher demoNew demoOld 10 1 1 1 30).calls.map
        MatcherCall.old_nid).Pairwise (· > ·) :=
  ⟨(C6_descending_nids_and_scaled_criteria demoMatcher demoObsMatcher demoTraj demoNew
      demoNew demoOld 10 3 1 1 1 30).2.2.1.2.2 (by decide) (by decide) 8,
   (C6_descending_nids_and_scaled_criteria demoMatcher demoObsMatcher demoTraj demoNew
      demoNew demoOld 10 3 1 1 1 30).2.2.1.1⟩

/-! ### Duplicate-mask lemmas -/

theorem markDupsAux_map_fst (l : List Obs) :
    ∀ seen : List ℤ, (markDupsAux seen l).map Prod.fst = l := by
  induction l with
  | nil => intro seen; rfl
  | cons o rest ih =>
      intro seen
      simp only [markDupsAux, List.map_cons, ih]

theorem keptRows_sublist (l : List Obs) : (keptRows l).Sublist l := by
  unfold keptRows
  have h := (List.filter_sublist (p := fun p : Obs × Bool => !p.2) (markDupsAux [] l)).map Prod.fst
  rwa [markDupsAux_map_fst l []] at h

theorem dupRows_sublist (l : List Obs) : (dupRows l).Sublist l := by
  unfold dupRows
  have h := (List.filter_sublist (p := fun p : Obs × Bool => p.2) (markDupsAux [] l)).map Prod.fst
  rwa [markDupsAux_map_fst l []] at h

theorem keptRows_length_add (l : List Obs) :
    (keptRows l).length + (dupRows l).length = l.length := by
  unfold keptRows dupRows
  rw [List.length_map, List.length_map]
  have hp := length_filter_partition (fun p : Obs × Bool => p.2) (markDupsAux [] l)
  have hlen : (markDupsAux [] l).length = l.length := by
    have := congrArg List.length (markDupsAux_map_fst l [])
    simpa using this
  omega

theorem kept_filter_id (A : ℤ) (l : List Obs) :
    ∀ seen : List ℤ,
      (((markDupsAux seen l).filter (fun p => !p.2)).map Prod.fst).filter
          (fun r => r.trajectory_id == A)
        = if seen.contains A then []
          else (l.filter (fun r => r.trajectory_id == A)).take 1 := by
  induction l with
  | nil =>
      intro seen
      simp only [markDupsAux, List.filter_nil, List.map_nil, List.take_nil]
      split <;> rfl
  | cons o rest ih =>
      intro seen
      by_cases hA : o.trajectory_id = A
      · by_cases hb : A ∈ seen
        · have hbo : o.trajectory_id ∈ seen := hA ▸ hb
          simp [markDupsAux, List.filter_cons, ih, hA, hb, hbo, List.mem_cons]
        · have hbo : o.trajectory_id ∉ seen := hA ▸ hb
          simp [markDupsAux, List.filter_cons, ih, hA, hb, hbo, List.mem_cons]
      · have hA2 : ¬(A = o.trajectory_id) := fun h => hA h.symm
        by_cases hb : A ∈ seen
        · by_cases hbo : o.trajectory_id ∈ seen
          · simp [markDupsAux, List.filter_cons, ih, hA, hA2, hb, hbo, List.mem_cons]
          · simp [markDupsAux, List.filter_cons, ih, hA, hA2, hb, hbo, List.mem_cons]
        · by_cases hbo : o.trajectory_id ∈ seen
          · simp [markDupsAux, List.filter_cons, ih, hA, hA2, hb, hbo, List.mem_cons]
          · simp [markDupsAux, List.filter_cons, ih, hA, hA2, hb, hbo, List.mem_cons]

theorem dup_filter_id (A : ℤ) (l : List Obs) :
    ∀ seen : List ℤ,
      (((markDupsAux seen l).filter (fun p => p.2)).map Prod.fst).filter
          (fun r => r.trajectory_id == A)
        = if seen.contains A then l.filter (fun r => r.trajectory_id == A)
          else (l.filter (fun r => r.trajectory_id == A)).drop 1 := by
  induction l with
  | nil =>
      intro seen
      simp only [markDupsAux, List.filter_nil, List.map_nil, List.drop_nil]
      split <;> rfl
  | cons o rest ih =>
      intro seen
      by_cases hA : o.trajectory_id = A
      · by_cases hb : A ∈ seen
        · have hbo : o.trajectory_id ∈ seen := hA ▸ hb
          simp [markDupsAux, List.filter_cons, ih, hA, hb, hbo, List.mem_cons]
        · have hbo : o.trajectory_id ∉ seen := hA ▸ hb
          simp [markDupsAux, List.filter_cons, ih, hA, hb, hbo, List.mem_cons]
      · have hA2 : ¬(A = o.trajectory_id) := fun h => hA h.symm
        by_cases hb : A ∈ seen
        · by_cases hbo : o.trajectory_id ∈ seen
          · simp [markDupsAux, List.filter_cons, ih, hA, hA2, hb, hbo, List.mem_cons]
          · simp [markDupsAux, List.filter_cons, ih, hA, hA2, hb, hbo, List.mem_cons]
        · by_cases hbo : o.trajectory_id ∈ seen
          · simp [markDupsAux, List.filter_cons, ih, hA, hA2, hb, hbo, List.mem_cons]
          · simp [markDupsAux, List.filter_cons, ih, hA, hA2, hb, hbo, List.mem_cons]

theorem keptRows_filter_id (A : ℤ) (l : List Obs) :
    (keptRows l).filter (fun r => r.trajectory_id == A)
      = (l.filter (fun r => r.trajectory_id == A)).take 1 := by
  have h := kept_filter_id A l []
  simpa [keptRows] using h

theorem dupRows_filter_id (A : ℤ) (l : List Obs) :
    (dupRows l).filter (fun r => r.trajectory_id == A)
      = (l.filter (fun r => r.trajectory_id == A)).drop 1 := by
  have h := dup_filter_id A l []
  simpa [dupRows] using h

/-! ### Fork-construction lemmas -/

theorem mem_trajIds_le_max {t : ℤ} {l : List Obs} (h : t ∈ trajIds l) : t ≤ maxTrajId l := by
  unfold trajIds at h
  exact le_maxIntList (List.mem_dedup.mp h)

theorem mem_trajIds_of_mem {r : Obs} {l : List Obs} (h : r ∈ l) :
    r.trajectory_id ∈ trajIds l :=
  List.mem_dedup.mpr (List.mem_map_of_mem _ h)

theorem mkForks_id_lower {hist : List Obs} {ds : List Obs} :
    ∀ {m : ℤ} {r : Obs}, r ∈ mkForks hist m ds → m < r.trajectory_id := by
  induction ds with
  | nil => intro m r hr; cases hr
  | cons d rest ih =>
      intro m r hr
      simp only [mkForks, List.append_assoc, List.mem_append] at hr
      rcases hr with h1 | h2 | h3
      · rcases List.mem_map.mp h1 with ⟨x, _, he⟩
        subst he
        simp [forkRow]
      · simp only [List.mem_singleton] at h2
        subst h2
        simp [forkRow]
      · have := ih h3
        omega

theorem rowsWithId_map_forkRow_self (l : List Obs) (n : ℤ) :
    rowsWithId (l.map (forkRow n)) n = l.map (forkRow n) := by
  unfold rowsWithId
  rw [List.filter_map]
  have h : ((fun r : Obs => r.trajectory_id == n) ∘ forkRow n) = fun _ => true := by
    funext x
    simp [forkRow]
  rw [h, List.filter_true]

theorem rowsWithId_map_forkRow_ne (l : List Obs) {n t : ℤ} (h : t ≠ n) :
    rowsWithId (l.map (forkRow n)) t = [] := by
  unfold rowsWithId
  rw [List.filter_map]
  have hp : ((fun r : Obs => r.trajectory_id == t) ∘ forkRow n) = fun _ => false := by
    funext x
    simp [forkRow]
    exact fun he => absurd he.symm h
  rw [hp]
  simp

theorem rowsWithId_append (l1 l2 : List Obs) (t : ℤ) :
    rowsWithId (l1 ++ l2) t = rowsWithId l1 t ++ rowsWithId l2 t := by
  unfold rowsWithId
  exact List.filter_append _ _

theorem rowsWithId_eq_nil_of_lt {l : List Obs} {t : ℤ}
    (h : ∀ r ∈ l, r.trajectory_id ≠ t) : rowsWithId l t = [] := by
  unfold rowsWithId
  rw [List.filter_eq_nil_iff]
  intro r hr
  simp [h r hr]

theorem mkForks_rowsWithId_at (hist : List Obs) (ds : List Obs) :
    ∀ (m : ℤ) (j : Nat) (hj : j < ds.length),
      rowsWithId (mkForks hist m ds) (m + j + 1)
        = (rowsWithId hist (ds.get ⟨j, hj⟩).trajectory_id).map (forkRow (m + j + 1))
          ++ [forkRow (m + j + 1) (ds.get ⟨j, hj⟩)] := by
  induction ds with
  | nil => intro m j hj; exact absurd hj (by simp)
  | cons d rest ih =>
      intro m j hj
      cases j with
      | zero =>
          simp only [mkForks, List.get, Nat.cast_zero]
          rw [show m + (0 : ℤ) + 1 = m + 1 by ring]
          rw [rowsWithId_append, rowsWithId_append]
          rw [rowsWithId_map_forkRow_self]
          have h1 : rowsWithId [forkRow (m + 1) d] (m + 1) = [forkRow (m + 1) d] := by
            unfold rowsWithId
            simp [forkRow]
          have h2 : rowsWithId (mkForks hist (m + 1) rest) (m + 1) = [] := by
            apply rowsWithId_eq_nil_of_lt
            intro r hr
            have := mkForks_id_lower hr
            omega
          rw [h1, h2, List.append_nil]
      | succ i =>
          have hi : i < rest.length := by simpa using hj
          simp only [mkForks, List.get]
          rw [rowsWithId_append, rowsWithId_append]
          have hne : (m + (i + 1 : ℕ) + 1 : ℤ) ≠ m + 1 := by
            push_cast
            omega
          rw [rowsWithId_map_forkRow_ne _ hne]
          have h1 : rowsWithId [forkRow (m + 1) d] (m + (i + 1 : ℕ) + 1) = [] := by
            apply rowsWithId_eq_nil_of_lt
            intro r hr
            simp only [List.mem_singleton] at hr
            subst hr
            simp only [forkRow]
            push_cast
            omega
          rw [h1]
          have harith : (m + (i + 1 : ℕ) + 1 : ℤ) = (m + 1) + i + 1 := by
            push_cast
            ring
          rw [harith, ih (m + 1) i hi]
          simp

/-! ### Updated-flag lemmas -/

theorem setUpdatedFlags_preserves_id (ids : List ℤ) (o : Obs) :
    (if ids.contains o.trajectory_id then flagFalse o else o).trajectory_id
      = o.trajectory_id := by
  split <;> rfl

theorem rowsWithId_setUpdatedFlags_pos {ids : List ℤ} {t : ℤ} (h : ids.contains t = true)
    (l : List Obs) :
    rowsWithId (setUpdatedFlags ids l) t = (rowsWithId l t).map flagFalse := by
  unfold setUpdatedFlags rowsWithId
  rw [List.filter_map]
  have hcomp : ((fun r : Obs => r.trajectory_id == t)
      ∘ fun o => if ids.contains o.trajectory_id then flagFalse o else o)
      = fun r : Obs => r.trajectory_id == t := by
    funext o
    simp only [Function.comp]
    rw [setUpdatedFlags_preserves_id]
  rw [hcomp]
  apply List.map_congr_left
  intro o ho
  have hot : o.trajectory_id = t := by
    have := (List.mem_filter.mp ho).2
    simpa using this
  rw [hot, h]
  simp

theorem rowsWithId_setUpdatedFlags_neg {ids : List ℤ} {t : ℤ} (h : ids.contains t = false)
    (l : List Obs) :
    rowsWithId (setUpdatedFlags ids l) t = rowsWithId l t := by
  unfold setUpdatedFlags rowsWithId
  rw [List.filter_map]
  have hcomp : ((fun r : Obs => r.trajectory_id == t)
      ∘ fun o => if ids.contains o.trajectory_id then flagFalse o else o)
      = fun r : Obs => r.trajectory_id == t := by
    funext o
    simp only [Function.comp]
    rw [setUpdatedFlags_preserves_id]
  rw [hcomp]
  have : ∀ o ∈ List.filter (fun r : Obs => r.trajectory_id == t) l,
      (if ids.contains o.trajectory_id then flagFalse o else o) = o := by
    intro o ho
    have hot : o.trajectory_id = t := by
      have := (List.mem_filter.mp ho).2
      simpa using this
    rw [hot, h]
    simp
  rw [List.map_congr_left this, List.map_id']

theorem setUpdatedFlags_nil (l : List Obs) : setUpdatedFlags [] l = l := by
  unfold setUpdatedFlags
  have : ∀ o ∈ l, (if ([] : List ℤ).contains o.trajectory_id then flagFalse o else o) = o := by
    intro o _
    rfl
  rw [List.map_congr_left this, List.map_id']

/-- Canonical form of the association/duplication core: forks first, then the
kept first-matches, then the updated-flag sweep over the kept ids; the
reported duplicate count is the number of duplicated rows. -/
theorem trajAssocApply_eq (trajs oa : List Obs) :
    trajAssocApply trajs oa
      = (setUpdatedFlags (trajIds (keptRows oa))
          ((trajs ++ mkForks trajs (maxTrajId trajs) (dupRows oa)) ++ keptRows oa),
         (dupRows oa).length) := by
  unfold trajAssocApply
  by_cases h : oa.length = 0
  · have hnil : oa = [] := List.length_eq_zero.mp h
    rw [if_pos h, hnil]
    have hk : keptRows [] = [] := rfl
    have hd : dupRows [] = [] := rfl
    rw [hk, hd]
    simp only [mkForks, List.append_nil]
    rw [show trajIds ([] : List Obs) = [] from rfl, setUpdatedFlags_nil]
    rfl
  · rw [if_neg h]
    have hcnt : oa.length - (keptRows oa).length = (dupRows oa).length := by
      have := keptRows_length_add oa
      omega
    by_cases hd : (dupRows oa).length = 0
    · have hdn : dupRows oa = [] := List.length_eq_zero.mp hd
      simp [hd, hdn, mkForks, hcnt]
    · simp [hd, hcnt, List.append_assoc]

/-- Duplicate resolution in the association core shared by the night-id
iterations of `trajectories_associations` (whose per-night report records
the returned count).  When the matcher output `oa` associates `k > 1`
continuations with the same trajectory id `A`: the first match in encounter
order is attached under the original id `A` (the group of `A` afterwards is
its original history plus exactly that first continuation, every row marked
updated); every later match for `A` is exactly one of the duplicated rows,
and the `j`-th duplicated row overall is resolved into a fork under the
freshly minted id `maxTrajId + j + 1` — an id distinct from every
pre-existing trajectory id — whose rows are a copy of the full history of
its original trajectory plus exactly that one continuation, all marked
updated; and the reported "number of duplicated association" equals the
number of duplicated rows removed from the association set. -/
theorem trajAssoc_duplicate_resolution (trajs oa : List Obs) (A : ℤ)
    (hmem : ∀ r ∈ oa, r.trajectory_id ∈ trajIds trajs)
    (hk : 1 < (oa.filter (fun r => r.trajectory_id == A)).length) :
    (∃ a0, (oa.filter (fun r => r.trajectory_id == A)).head? = some a0
      ∧ rowsWithId (trajAssocApply trajs oa).1 A
          = (rowsWithId trajs A).map flagFalse ++ [flagFalse a0])
    ∧ (dupRows oa).filter (fun r => r.trajectory_id == A)
        = (oa.filter (fun r => r.trajectory_id == A)).drop 1
    ∧ (∀ j : Nat, (hj : j < (dupRows oa).length) →
        (maxTrajId trajs + j + 1) ∉ trajIds trajs
        ∧ rowsWithId (trajAssocApply trajs oa).1 (maxTrajId trajs + j + 1)
            = (rowsWithId trajs ((dupRows oa).get ⟨j, hj⟩).trajectory_id).map
                (forkRow (maxTrajId trajs + j + 1))
              ++ [forkRow (maxTrajId trajs + j + 1) ((dupRows oa).get ⟨j, hj⟩)])
    ∧ (trajAssocApply trajs oa).2 = (dupRows oa).length
    ∧ (keptRows oa).length + (dupRows oa).length = oa.length := by
  have heq := trajAssocApply_eq trajs oa
  obtain ⟨a0, arest, hAm⟩ :
      ∃ a0 arest, oa.filter (fun r => r.trajectory_id == A) = a0 :: arest := by
    cases hc : oa.filter (fun r => r.trajectory_id == A) with
    | nil => rw [hc] at hk; simp at hk
    | cons x xs => exact ⟨x, xs, rfl⟩
  have ha0A : a0.trajectory_id = A := by
    have : a0 ∈ oa.filter (fun r => r.trajectory_id == A) := by rw [hAm]; simp
    have := (List.mem_filter.mp this).2
    simpa using this
  have ha0oa : a0 ∈ oa := by
    have : a0 ∈ oa.filter (fun r => r.trajectory_id == A) := by rw [hAm]; simp
    exact (List.mem_filter.mp this).1
  have hAmemT : A ∈ trajIds trajs := ha0A ▸ hmem a0 ha0oa
  have hAle : A ≤ maxTrajId trajs := mem_trajIds_le_max hAmemT
  have hkept_le : ∀ r ∈ keptRows oa, r.trajectory_id ≤ maxTrajId trajs := by
    intro r hr
    exact mem_trajIds_le_max (hmem r ((keptRows_sublist oa).mem hr))
  have htrajs_le : ∀ r ∈ trajs, r.trajectory_id ≤ maxTrajId trajs := by
    intro r hr
    exact mem_trajIds_le_max (mem_trajIds_of_mem hr)
  have hkeptA : rowsWithId (keptRows oa) A = [a0] := by
    unfold rowsWithId
    rw [keptRows_filter_id, hAm, List.take_succ_cons, List.take_zero]
  refine ⟨⟨a0, by rw [hAm]; rfl, ?_⟩, dupRows_filter_id A oa, ?_, by rw [heq], keptRows_length_add oa⟩
  · have hcontA : (trajIds (keptRows oa)).contains A = true := by
      have ha0k : a0 ∈ keptRows oa := by
        have : a0 ∈ rowsWithId (keptRows oa) A := by rw [hkeptA]; simp
        exact (List.mem_filter.mp this).1
      have : A ∈ trajIds (keptRows oa) := ha0A ▸ mem_trajIds_of_mem ha0k
      simpa using this
    rw [heq]
    rw [rowsWithId_setUpdatedFlags_pos hcontA, rowsWithId_append, rowsWithId_append]
    have hforksA : rowsWithId (mkForks trajs (maxTrajId trajs) (dupRows oa)) A = [] := by
      apply rowsWithId_eq_nil_of_lt
      intro r hr
      have := mkForks_id_lower hr
      omega
    rw [hforksA, hkeptA, List.append_nil, List.map_append]
    rfl
  · intro j hj
    have hfr : (maxTrajId trajs + j + 1 : ℤ) ∉ trajIds trajs := by
      intro hmemn
      have := mem_trajIds_le_max hmemn
      omega
    refine ⟨hfr, ?_⟩
    have hcontN : (trajIds (keptRows oa)).contains (maxTrajId trajs + j + 1) = false := by
      by_contra hcc
      have : (maxTrajId trajs + j + 1 : ℤ) ∈ trajIds (keptRows oa) := by
        have := Bool.of_not_eq_false hcc
        simpa using this
      rcases List.mem_dedup.mp this with hmm
      rcases List.mem_map.mp hmm with ⟨r, hr, he⟩
      have := hkept_le r hr
      omega
    rw [heq]
    rw [rowsWithId_setUpdatedFlags_neg hcontN, rowsWithId_append, rowsWithId_append]
    have h1 : rowsWithId trajs (maxTrajId trajs + j + 1) = [] := by
      apply rowsWithId_eq_nil_of_lt
      intro r hr
      have := htrajs_le r hr
      omega
    have h3 : rowsWithId (keptRows oa) (maxTrajId trajs + j + 1) = [] := by
      apply rowsWithId_eq_nil_of_lt
      intro r hr
      have := hkept_le r hr
      omega
    rw [h1, h3, mkForks_rowsWithId_at trajs (dupRows oa) (maxTrajId trajs) j hj]
    simp

/-! ### Candidate-id bookkeeping lemmas -/

theorem rowsWithCandid_append (l1 l2 : List Obs) (c : ℤ) :
    rowsWithCandid (l1 ++ l2) c = rowsWithCandid l1 c ++ rowsWithCandid l2 c := by
  unfold rowsWithCandid
  exact List.filter_append _ _

theorem mem_rowsWithCandid {x : Obs} {l : List Obs} {c : ℤ} :
    x ∈ rowsWithCandid l c ↔ x ∈ l ∧ x.candid = c := by
  unfold rowsWithCandid
  rw [List.mem_filter]
  simp

theorem rowsWithCandid_eq_nil {l : List Obs} {c : ℤ} (h : ∀ x ∈ l, x.candid ≠ c) :
    rowsWithCandid l c = [] := by
  unfold rowsWithCandid
  rw [List.filter_eq_nil_iff]
  intro x hx
  simp [h x hx]

theorem eq_of_rowsWithCandid_singleton {l : List Obs} {c : ℤ} {r0 x : Obs}
    (h : rowsWithCandid l c = [r0]) (hx : x ∈ l) (hc : x.candid = c) : x = r0 := by
  have : x ∈ rowsWithCandid l c := mem_rowsWithCandid.mpr ⟨hx, hc⟩
  rw [h] at this
  simpa using this

theorem rowsWithCandid_map_preserve {f : Obs → Obs} (hf : ∀ o, (f o).candid = o.candid)
    (l : List Obs) (c : ℤ) :
    rowsWithCandid (l.map f) c = (rowsWithCandid l c).map f := by
  unfold rowsWithCandid
  rw [List.filter_map]
  have hpred : ((fun r : Obs => r.candid == c) ∘ f) = fun r : Obs => r.candid == c := by
    funext o
    simp [Function.comp, hf]
  rw [hpred]

theorem eq_of_length_le_one {α : Type} {l : List α} {a b : α}
    (h : l.length ≤ 1) (ha : a ∈ l) (hb : b ∈ l) : a = b := by
  cases l with
  | nil => cases ha
  | cons x xs =>
      cases xs with
      | nil =>
          simp only [List.mem_singleton] at ha hb
          rw [ha, hb]
      | cons y ys => simp at h

theorem candid_singleton_of_nodup {l : List Obs} {c : ℤ}
    (hnd : (l.map Obs.candid).Nodup) (hc : c ∈ l.map Obs.candid) :
    ∃ o, rowsWithCandid l c = [o] := by
  induction l with
  | nil => simp at hc
  | cons o rest ih =>
      rw [List.map_cons, List.nodup_cons] at hnd
      by_cases he : o.candid = c
      · refine ⟨o, ?_⟩
        unfold rowsWithCandid
        rw [List.filter_cons_of_pos (by simp [he])]
        have : rowsWithCandid rest c = [] := by
          apply rowsWithCandid_eq_nil
          intro x hx hxc
          exact hnd.1 (he ▸ hxc ▸ List.mem_map_of_mem Obs.candid hx)
        unfold rowsWithCandid at this
        rw [this]
      · have hc2 : c ∈ rest.map Obs.candid := by
          rcases List.mem_map.mp hc with ⟨x, hx, hxc⟩
          rcases List.mem_cons.mp hx with h1 | h2
          · exact absurd (h1 ▸ hxc) he
          · exact hxc ▸ List.mem_map_of_mem _ h2
        rcases ih hnd.2 hc2 with ⟨r0, hr0⟩
        refine ⟨r0, ?_⟩
        unfold rowsWithCandid at hr0 ⊢
        rw [List.filter_cons_of_neg (by simp [he]), hr0]

theorem kept_dup_perm (l : List Obs) : (keptRows l ++ dupRows l).Perm l := by
  unfold keptRows dupRows
  have hp := List.filter_append_perm (fun p : Obs × Bool => !p.2) (markDupsAux [] l)
  have hq : (fun x : Obs × Bool => !(!x.2)) = fun x : Obs × Bool => x.2 := by
    funext x
    exact Bool.not_not x.2
  rw [hq] at hp
  have hm := hp.map Prod.fst
  rw [List.map_append, markDupsAux_map_fst l []] at hm
  exact hm

theorem mem_kept_or_dup {r : Obs} {l : List Obs} (hr : r ∈ l) :
    r ∈ keptRows l ∨ r ∈ dupRows l := by
  have := (kept_dup_perm l).mem_iff.mpr hr
  exact List.mem_append.mp this

theorem rowsWithCandid_kept_dup {l : List Obs} {c : ℤ} {o : Obs}
    (h : rowsWithCandid l c = [o]) :
    rowsWithCandid (keptRows l) c ++ rowsWithCandid (dupRows l) c = [o] := by
  have hp := (kept_dup_perm l).filter (fun r : Obs => r.candid == c)
  unfold rowsWithCandid at *
  rw [List.filter_append] at hp
  rw [h] at hp
  exact List.perm_singleton.mp hp

/-! ### Fork membership under candidate filtering -/

theorem mkForks_mem {hist : List Obs} {ds : List Obs} :
    ∀ {m : ℤ} {r : Obs}, r ∈ mkForks hist m ds →
      (∃ d ∈ ds, ∃ x ∈ hist, x.trajectory_id = d.trajectory_id ∧ ∃ n, r = forkRow n x)
      ∨ (∃ d ∈ ds, ∃ n, m < n ∧ r = forkRow n d) := by
  induction ds with
  | nil => intro m r hr; cases hr
  | cons d rest ih =>
      intro m r hr
      simp only [mkForks, List.append_assoc, List.mem_append] at hr
      rcases hr with h1 | h2 | h3
      · rcases List.mem_map.mp h1 with ⟨x, hx, he⟩
        have hx2 := List.mem_filter.mp hx
        refine Or.inl ⟨d, List.mem_cons_self _ _, x, hx2.1, ?_, m + 1, he.symm⟩
        simpa using hx2.2
      · simp only [List.mem_singleton] at h2
        exact Or.inr ⟨d, List.mem_cons_self _ _, m + 1, by omega, h2⟩
      · rcases ih h3 with ⟨d2, hd2, x, hx, he, n, hn⟩ | ⟨d2, hd2, n, hlt, hn⟩
        · exact Or.inl ⟨d2, List.mem_cons_of_mem _ hd2, x, hx, he, n, hn⟩
        · exact Or.inr ⟨d2, List.mem_cons_of_mem _ hd2, n, by omega, hn⟩

theorem mkForks_candid_nil {hist ds : List Obs} {c : ℤ} {m : ℤ}
    (hh : ∀ d ∈ ds, ∀ x ∈ hist, x.trajectory_id = d.trajectory_id → x.candid ≠ c)
    (hd : ∀ d ∈ ds, d.candid ≠ c) :
    rowsWithCandid (mkForks hist m ds) c = [] := by
  apply rowsWithCandid_eq_nil
  intro r hr
  rcases mkForks_mem hr with ⟨d, hdm, x, hx, he, n, hn⟩ | ⟨d, hdm, n, _, hn⟩
  · rw [hn]
    exact hh d hdm x hx he
  · rw [hn]
    exact hd d hdm

theorem mkForks_candid_single {hist : List Obs} {c : ℤ} {d0 : Obs} :
    ∀ {ds : List Obs} {m : ℤ},
      (∀ d ∈ ds, ∀ x ∈ hist, x.trajectory_id = d.trajectory_id → x.candid ≠ c) →
      rowsWithCandid ds c = [d0] →
      ∃ n, m < n ∧ rowsWithCandid (mkForks hist m ds) c = [forkRow n d0] := by
  intro ds
  induction ds with
  | nil =>
      intro m _ hds
      exact absurd hds (by simp [rowsWithCandid])
  | cons d rest ih =>
      intro m hh hds
      have hblockhist : rowsWithCandid
          ((rowsWithId hist d.trajectory_id).map (forkRow (m + 1))) c = [] := by
        rw [rowsWithCandid_map_preserve (f := forkRow (m + 1)) (fun o => rfl)]
        have : rowsWithCandid (rowsWithId hist d.trajectory_id) c = [] := by
          apply rowsWithCandid_eq_nil
          intro x hx
          have hx2 := List.mem_filter.mp hx
          exact hh d (List.mem_cons_self _ _) x hx2.1 (by simpa using hx2.2)
        rw [this]
        rfl
      unfold rowsWithCandid at hds
      rw [List.filter_cons] at hds
      by_cases hdc : d.candid = c
      · rw [if_pos (by simpa using hdc)] at hds
        have hd0 : d = d0 := by
          have := List.head_eq_of_cons_eq hds
          exact this
        have hrest : List.filter (fun r : Obs => r.candid == c) rest = [] :=
          List.tail_eq_of_cons_eq hds
        refine ⟨m + 1, by omega, ?_⟩
        simp only [mkForks, List.append_assoc]
        rw [rowsWithCandid_append, rowsWithCandid_append, hblockhist]
        have hcont : rowsWithCandid [forkRow (m + 1) d] c = [forkRow (m + 1) d] := by
          unfold rowsWithCandid
          rw [List.filter_cons_of_pos (by simpa [forkRow] using hdc)]
          rfl
        have hrestnil : rowsWithCandid (mkForks hist (m + 1) rest) c = [] := by
          apply mkForks_candid_nil
          · intro d2 hd2
            exact hh d2 (List.mem_cons_of_mem _ hd2)
          · intro d2 hd2
            intro hc2
            have : d2 ∈ List.filter (fun r : Obs => r.candid == c) rest :=
              List.mem_filter.mpr ⟨hd2, by simpa using hc2⟩
            rw [hrest] at this
            cases this
        rw [hcont, hrestnil, hd0]
        rfl
      · rw [if_neg (by simpa using hdc)] at hds
        have hrec := ih (fun d2 hd2 => hh d2 (List.mem_cons_of_mem _ hd2)) hds
          (m := m + 1)
        rcases hrec with ⟨n, hn, he⟩
        refine ⟨n, by omega, ?_⟩
        simp only [mkForks, List.append_assoc]
        rw [rowsWithCandid_append, rowsWithCandid_append, hblockhist]
        have hcont : rowsWithCandid [forkRow (m + 1) d] c = [] := by
          unfold rowsWithCandid
          rw [List.filter_cons_of_neg (by simpa [forkRow] using hdc)]
          rfl
        rw [hcont, he]
        rfl

/-! ### Trajectory-id bookkeeping -/

theorem trajIds_setUpdatedFlags (ids : List ℤ) (l : List Obs) :
    trajIds (setUpdatedFlags ids l) = trajIds l := by
  unfold trajIds setUpdatedFlags
  congr 1
  rw [List.map_map]
  apply List.map_congr_left
  intro o _
  exact setUpdatedFlags_preserves_id ids o

theorem mem_trajIds_append_left {t : ℤ} {l1 l2 : List Obs} (h : t ∈ trajIds l1) :
    t ∈ trajIds (l1 ++ l2) := by
  unfold trajIds at *
  rw [List.mem_dedup] at *
  rw [List.map_append]
  exact List.mem_append_left _ h

/-! ### Anchor-table lemmas -/

theorem mem_insertByJd {x y : Obs} {l : List Obs} :
    y ∈ insertByJd x l ↔ y = x ∨ y ∈ l := by
  induction l with
  | nil => simp [insertByJd]
  | cons h t ih =>
      simp only [insertByJd]
      split
      · simp only [List.mem_cons]
      · simp only [List.mem_cons, ih]
        tauto

theorem mem_sortByJd {y : Obs} {l : List Obs} : y ∈ sortByJd l ↔ y ∈ l := by
  induction l with
  | nil => simp [sortByJd]
  | cons x xs ih =>
      simp only [sortByJd, List.foldr_cons, List.mem_cons]
      rw [show xs.foldr insertByJd [] = sortByJd xs from rfl]
      rw [mem_insertByJd, ih]

theorem getNLastGroups_mem {df : List Obs} {n : Nat} {b : Bool} :
    ∀ {ids : List ℤ} {r : Obs}, r ∈ getNLastGroups df n b ids →
      r ∈ df ∧ r.trajectory_id ∈ ids := by
  intro ids
  induction ids with
  | nil => intro r hr; cases hr
  | cons t ts ih =>
      intro r hr
      simp only [getNLastGroups, List.mem_append] at hr
      rcases hr with h1 | h2
      · have hg : r ∈ sortByJd (rowsWithId df t) := by
          rcases b with _ | _
          · simp only [Bool.false_eq_true, if_false] at h1
            exact (List.take_sublist _ _).mem h1
          · simp only [if_true] at h1
            exact (List.drop_sublist _ _).mem h1
        have hmem := mem_sortByJd.mp hg
        have h2 := List.mem_filter.mp hmem
        refine ⟨h2.1, ?_⟩
        have : r.trajectory_id = t := by simpa using h2.2
        rw [this]
        exact List.mem_cons_self _ _
      · rcases ih h2 with ⟨ha, hb⟩
        exact ⟨ha, List.mem_cons_of_mem _ hb⟩

theorem get_n_last_mem {df : List Obs} {n : Nat} {b : Bool} {r : Obs}
    (h : r ∈ get_n_last_observations_from_trajectories df n b) : r ∈ df :=
  (getNLastGroups_mem h).1

theorem getNLastGroups_one_le {df : List Obs} {b : Bool} {t : ℤ} :
    ∀ {ids : List ℤ}, ids.Nodup →
      (rowsWithId (getNLastGroups df 1 b ids) t).length ≤ 1 := by
  intro ids
  induction ids with
  | nil => intro _; simp [getNLastGroups, rowsWithId]
  | cons t2 ts ih =>
      intro hnd
      rw [List.nodup_cons] at hnd
      simp only [getNLastGroups]
      rw [rowsWithId_append]
      by_cases ht : t = t2
      · have hrest : rowsWithId (getNLastGroups df 1 b ts) t = [] := by
          apply rowsWithId_eq_nil_of_lt
          intro r hr
          intro he
          have := (getNLastGroups_mem hr).2
          rw [he, ht] at this
          exact hnd.1 this
        rw [hrest, List.append_nil]
        refine le_trans (List.length_filter_le _ _) ?_
        rcases b with _ | _
        · simp only [Bool.false_eq_true, if_false]
          rw [List.length_take]
          omega
        · simp only [if_true]
          rw [List.length_drop]
          omega
      · have hpiece : rowsWithId
            (if b = true then
              (sortByJd (rowsWithId df t2)).drop ((sortByJd (rowsWithId df t2)).length - 1)
            else (sortByJd (rowsWithId df t2)).take 1) t = [] := by
          apply rowsWithId_eq_nil_of_lt
          intro r hr
          have hg : r ∈ sortByJd (rowsWithId df t2) := by
            rcases b with _ | _
            · simp only [Bool.false_eq_true, if_false] at hr
              exact (List.take_sublist _ _).mem hr
            · simp only [if_true] at hr
              exact (List.drop_sublist _ _).mem hr
          have h2 := List.mem_filter.mp (mem_sortByJd.mp hg)
          have : r.trajectory_id = t2 := by simpa using h2.2
          rw [this]
          exact fun he => ht he.symm
        rw [hpiece, List.nil_append]
        exact ih hnd.2

theorem lastObs_one_per_id (df : List Obs) (b : Bool) (t : ℤ) :
    (rowsWithId (get_n_last_observations_from_trajectories df 1 b) t).length ≤ 1 := by
  unfold get_n_last_observations_from_trajectories
  exact getNLastGroups_one_le (List.nodup_dedup _)

/-! ### Conservation of observations through `trajectories_associations` -/

theorem rowsWithCandid_setUpdatedFlags (ids : List ℤ) (l : List Obs) (c : ℤ) :
    rowsWithCandid (setUpdatedFlags ids l) c
      = (rowsWithCandid l c).map
          (fun o => if ids.contains o.trajectory_id then flagFalse o else o) :=
  rowsWithCandid_map_preserve (fun o => by split <;> rfl) l c

theorem exists_of_mem_trajIds {t : ℤ} {l : List Obs} (h : t ∈ trajIds l) :
    ∃ r ∈ l, r.trajectory_id = t := by
  unfold trajIds at h
  rcases List.mem_map.mp (List.mem_dedup.mp h) with ⟨r, hr, he⟩
  exact ⟨r, hr, he⟩

theorem trajAssocApply_ids_mono {t : ℤ} (T oa : List Obs) (h : t ∈ trajIds T) :
    t ∈ trajIds (trajAssocApply T oa).1 := by
  rw [trajAssocApply_eq]
  show t ∈ trajIds (setUpdatedFlags (trajIds (keptRows oa))
      (T ++ mkForks T (maxTrajId T) (dupRows oa) ++ keptRows oa))
  rw [trajIds_setUpdatedFlags]
  exact mem_trajIds_append_left (mem_trajIds_append_left h)

theorem not_candid_of_rowsWithCandid_nil {l : List Obs} {c : ℤ}
    (h : rowsWithCandid l c = []) : ∀ x ∈ l, x.candid ≠ c := by
  intro x hx hc
  have : x ∈ rowsWithCandid l c := mem_rowsWithCandid.mpr ⟨hx, hc⟩
  rw [h] at this
  cases this

theorem conservation_core
    (T N N0 lastObs : List Obs) (oa : List Obs) (n : ℤ) (rest : List ℤ)
    (hnr : n ∉ rest)
    (hoa_sub : ∀ o ∈ oa, o.candid ∈ candids N)
    (hoa_nodup : (oa.map Obs.candid).Nodup)
    (hoa_anchor : ∀ o ∈ oa, ∃ row ∈ lastObs,
        row.trajectory_id = o.trajectory_id ∧ row.nid = n)
    (hlast_ids : ∀ row ∈ lastObs, row.trajectory_id ∈ trajIds T)
    (honeper : ∀ t : ℤ, (rowsWithId lastObs t).length ≤ 1)
    (hinv : pass2Inv N0 lastObs (n :: rest) T N) :
    pass2Inv N0 lastObs rest (trajAssocApply T oa).1
      (N.filter (fun o => !((oa.map Obs.candid).contains o.candid))) := by
  intro c hc
  have heq : (trajAssocApply T oa).1
      = setUpdatedFlags (trajIds (keptRows oa))
          (T ++ mkForks T (maxTrajId T) (dupRows oa) ++ keptRows oa) := by
    rw [trajAssocApply_eq]
  have hkept_oa : ∀ x ∈ keptRows oa, x ∈ oa := fun x hx => (keptRows_sublist oa).mem hx
  have hdup_oa : ∀ x ∈ dupRows oa, x ∈ oa := fun x hx => (dupRows_sublist oa).mem hx
  rcases hinv c hc with ⟨hcN, hcT⟩ | ⟨hcN, r0, hr0, hr0cond⟩
  · by_cases hcoa : c ∈ oa.map Obs.candid
    · -- candidate c is matched at this iteration
      obtain ⟨oc, hocsing⟩ := candid_singleton_of_nodup hoa_nodup hcoa
      have hocmem : oc ∈ oa ∧ oc.candid = c := by
        have : oc ∈ rowsWithCandid oa c := by rw [hocsing]; exact List.mem_singleton.mpr rfl
        exact mem_rowsWithCandid.mp this
      right
      constructor
      · intro hcc
        rcases List.mem_map.mp hcc with ⟨row, hrow, hrowc⟩
        have hpf := (List.mem_filter.mp hrow).2
        have hnotin : row.candid ∉ oa.map Obs.candid := by simpa using hpf
        exact hnotin (hrowc ▸ hcoa)
      · have hTnone : ∀ x ∈ T, x.candid ≠ c := not_candid_of_rowsWithCandid_nil hcT
        have hsplit := rowsWithCandid_kept_dup hocsing
        rw [heq, rowsWithCandid_setUpdatedFlags, rowsWithCandid_append, rowsWithCandid_append,
          hcT]
        cases hkp : rowsWithCandid (keptRows oa) c with
        | nil =>
            -- the unique match is a duplicated row: it lands in a fresh fork
            rw [hkp, List.nil_append] at hsplit
            obtain ⟨nf, hnf, hforks⟩ := mkForks_candid_single
              (fun d _ x _ _ => hTnone x (by assumption))
              hsplit (m := maxTrajId T)
            rw [hforks]
            refine ⟨_, rfl, ?_⟩
            intro row hrow htid
            have hfid : (if (trajIds (keptRows oa)).contains
                  (forkRow nf oc).trajectory_id = true
                then flagFalse (forkRow nf oc) else forkRow nf oc).trajectory_id
                = nf := by
              rw [setUpdatedFlags_preserves_id]
              rfl
            rw [hfid] at htid
            have hmemT := hlast_ids row hrow
            rw [htid] at hmemT
            have := mem_trajIds_le_max hmemT
            omega
        | cons x xs =>
            -- the unique match is kept under its original trajectory id
            rw [hkp] at hsplit
            have hx : x = oc ∧ xs ++ rowsWithCandid (dupRows oa) c = [] := by
              rw [List.cons_append] at hsplit
              exact ⟨List.head_eq_of_cons_eq hsplit, List.tail_eq_of_cons_eq hsplit⟩
            have hxs : xs = [] := by
              rcases List.append_eq_nil.mp hx.2 with ⟨h1, _⟩
              exact h1
            have hdupnil : rowsWithCandid (dupRows oa) c = [] := by
              rcases List.append_eq_nil.mp hx.2 with ⟨_, h2⟩
              exact h2
            have hforks : rowsWithCandid (mkForks T (maxTrajId T) (dupRows oa)) c = [] := by
              apply mkForks_candid_nil
              · intro d _ x2 hx2 _
                exact hTnone x2 hx2
              · exact not_candid_of_rowsWithCandid_nil hdupnil
            rw [hforks, hxs, hx.1]
            refine ⟨_, rfl, ?_⟩
            intro row hrow htid
            have hocmem2 : oc ∈ keptRows oa := by
              have : oc ∈ rowsWithCandid (keptRows oa) c := by
                rw [hkp, hxs, hx.1]
                exact List.mem_singleton.mpr rfl
              exact (mem_rowsWithCandid.mp this).1
            have htid2 : (if (trajIds (keptRows oa)).contains oc.trajectory_id = true
                then flagFalse oc else oc).trajectory_id = oc.trajectory_id :=
              setUpdatedFlags_preserves_id _ _
            rw [htid2] at htid
            rcases hoa_anchor oc hocmem.1 with ⟨row2, hrow2, hrtid, hrnid⟩
            have hrowmem : row ∈ rowsWithId lastObs oc.trajectory_id := by
              unfold rowsWithId
              exact List.mem_filter.mpr ⟨hrow, by simpa using htid⟩
            have hrow2mem : row2 ∈ rowsWithId lastObs oc.trajectory_id := by
              unfold rowsWithId
              exact List.mem_filter.mpr ⟨hrow2, by simpa using hrtid⟩
            have heq2 := eq_of_length_le_one (honeper oc.trajectory_id) hrowmem hrow2mem
            rw [heq2, hrnid]
            exact hnr
    · -- candidate c unmatched: it stays in the pool, in no trajectory
      left
      constructor
      · rcases List.mem_map.mp hcN with ⟨row, hrow, hrowc⟩
        have hpass : row ∈ N.filter (fun o => !((oa.map Obs.candid).contains o.candid)) := by
          refine List.mem_filter.mpr ⟨hrow, ?_⟩
          have hnotin : row.candid ∉ oa.map Obs.candid := by
            rw [hrowc]
            exact hcoa
          simpa using hnotin
        exact hrowc ▸ List.mem_map_of_mem _ hpass
      · have hTnone : ∀ x ∈ T, x.candid ≠ c := not_candid_of_rowsWithCandid_nil hcT
        have hforks : rowsWithCandid (mkForks T (maxTrajId T) (dupRows oa)) c = [] := by
          apply mkForks_candid_nil
          · intro d _ x2 hx2 _
            exact hTnone x2 hx2
          · intro d hd hdc
            exact hcoa (hdc ▸ List.mem_map_of_mem _ (hdup_oa d hd))
        have hkept : rowsWithCandid (keptRows oa) c = [] := by
          apply rowsWithCandid_eq_nil
          intro x hx hxc
          exact hcoa (hxc ▸ List.mem_map_of_mem _ (hkept_oa x hx))
        rw [heq, rowsWithCandid_setUpdatedFlags, rowsWithCandid_append, rowsWithCandid_append,
          hcT, hforks, hkept]
        rfl
  · -- candidate c was associated at an earlier iteration
    right
    constructor
    · intro hcc
      rcases List.mem_map.mp hcc with ⟨row, hrow, hrowc⟩
      exact hcN (hrowc ▸ List.mem_map_of_mem _ (List.mem_filter.mp hrow).1)
    · have hforks : rowsWithCandid (mkForks T (maxTrajId T) (dupRows oa)) c = [] := by
        apply mkForks_candid_nil
        · intro d hd x hx htid hxc
          have hxr0 : x = r0 := eq_of_rowsWithCandid_singleton hr0 hx hxc
          rcases hoa_anchor d (hdup_oa d hd) with ⟨row, hrow, hrtid, hrnid⟩
          have : row.nid ∉ n :: rest := hr0cond row hrow (by rw [hrtid, ← htid, hxr0])
          rw [hrnid] at this
          exact this (List.mem_cons_self _ _)
        · intro d hd hdc
          exact hcN (hdc ▸ hoa_sub d (hdup_oa d hd))
      have hkept : rowsWithCandid (keptRows oa) c = [] := by
        apply rowsWithCandid_eq_nil
        intro x hx hxc
        exact hcN (hxc ▸ hoa_sub x (hkept_oa x hx))
      rw [heq, rowsWithCandid_setUpdatedFlags, rowsWithCandid_append, rowsWithCandid_append,
        hr0, hforks, hkept]
      refine ⟨_, rfl, ?_⟩
      intro row hrow htid
      rw [setUpdatedFlags_preserves_id] at htid
      exact fun h2 => hr0cond row hrow htid (List.mem_cons_of_mem _ h2)

theorem pass2_fold_conservation
    (matcher : Matcher) (hM : MatcherOK matcher) (next_nid : ℤ) (sep ms md ang : ℚ)
    (twoLast lastObs N0 : List Obs)
    (honeper : ∀ t : ℤ, (rowsWithId lastObs t).length ≤ 1) :
    ∀ l : List ℤ, l.Nodup → ∀ s : Pass2State,
      (∀ row ∈ lastObs, row.trajectory_id ∈ trajIds s.T) →
      pass2Inv N0 lastObs l s.T s.N →
      pass2Inv N0 lastObs []
        ((l.foldl (pass2Step matcher next_nid sep ms md ang twoLast lastObs) s).T)
        ((l.foldl (pass2Step matcher next_nid sep ms md ang twoLast lastObs) s).N) := by
  intro l
  induction l with
  | nil =>
      intro _ s _ hinv
      simpa using hinv
  | cons n rest ih =>
      intro hnd s hlast hinv
      rw [List.nodup_cons] at hnd
      rw [List.foldl_cons]
      have hmi := hM (twoLast.filter (fun r =>
          (trajIds (lastObs.filter (fun l2 => l2.nid == n))).contains r.trajectory_id))
        s.N (sep * ((next_nid - n : ℤ) : ℚ)) (ms * ((next_nid - n : ℤ) : ℚ))
        (md * ((next_nid - n : ℤ) : ℚ)) ang
      have hoa_anchor : ∀ o ∈ (matcher (twoLast.filter (fun r =>
          (trajIds (lastObs.filter (fun l2 => l2.nid == n))).contains r.trajectory_id))
          s.N (sep * ((next_nid - n : ℤ) : ℚ)) (ms * ((next_nid - n : ℤ) : ℚ))
          (md * ((next_nid - n : ℤ) : ℚ)) ang).2,
          ∃ row ∈ lastObs, row.trajectory_id = o.trajectory_id ∧ row.nid = n := by
        intro o ho
        rcases exists_of_mem_trajIds (hmi.2.2 o ho) with ⟨r, hr, hre⟩
        have hr2 := List.mem_filter.mp hr
        have hr3 : r.trajectory_id ∈ trajIds (lastObs.filter (fun l2 => l2.nid == n)) := by
          simpa using hr2.2
        rcases exists_of_mem_trajIds hr3 with ⟨row, hrow, hrowe⟩
        have hrow2 := List.mem_filter.mp hrow
        exact ⟨row, hrow2.1, by rw [hrowe, hre], by simpa using hrow2.2⟩
      have key := conservation_core s.T s.N N0 lastObs
        ((matcher (twoLast.filter (fun r =>
            (trajIds (lastObs.filter (fun l2 => l2.nid == n))).contains r.trajectory_id))
          s.N (sep * ((next_nid - n : ℤ) : ℚ)) (ms * ((next_nid - n : ℤ) : ℚ))
          (md * ((next_nid - n : ℤ) : ℚ)) ang).2) n rest hnd.1
        hmi.1 hmi.2.1 hoa_anchor hlast honeper hinv
      exact ih hnd.2 _
        (fun row hrow => trajAssocApply_ids_mono _ _ (hlast row hrow)) key

/-- Conservation through `trajectories_associations` under the spec matcher
interface with the at-most-once side condition (which `MatcherOK` carries as
the pairwise distinctness of the matched right candidate ids): every new
observation in the input either stays in the unassociated remainder and
appears in no trajectory row, or leaves the remainder and appears in
exactly one trajectory row of the output. -/
theorem pass2_conservation (matcher : Matcher) (hM : MatcherOK matcher)
    (T N : List Obs) (next_nid : ℤ) (sep ms md ang : ℚ)
    (hdisj : ∀ r ∈ T, r.candid ∉ candids N)
    (c : ℤ) (hc : c ∈ candids N) :
    (c ∈ candids (trajectories_associations matcher T N next_nid sep ms md ang).new_observations
      ∧ rowsWithCandid
          (trajectories_associations matcher T N next_nid sep ms md ang).trajectories c = [])
    ∨ (c ∉ candids (trajectories_associations matcher T N next_nid sep ms md ang).new_observations
      ∧ ∃ r0, rowsWithCandid
          (trajectories_associations matcher T N next_nid sep ms md ang).trajectories c
            = [r0]) := by
  by_cases hg : T.length = 0 ∨ N.length = 0
  · left
    constructor
    · simp only [trajectories_associations, if_pos hg]
      exact hc
    · simp only [trajectories_associations, if_pos hg]
      apply rowsWithCandid_eq_nil
      intro x hx hxc
      exact hdisj x hx (hxc ▸ hc)
  · simp only [trajectories_associations, if_neg hg]
    have hfold := pass2_fold_conservation matcher hM next_nid sep ms md ang
      (get_n_last_observations_from_trajectories
        (T.filter (fun t => t.not_updated && t.a == -1)) 2 true)
      (get_n_last_observations_from_trajectories
        (T.filter (fun t => t.not_updated && t.a == -1)) 1 true)
      N
      (lastObs_one_per_id _ _)
      (descNids ((get_n_last_observations_from_trajectories
        (T.filter (fun t => t.not_updated && t.a == -1)) 1 true).map Obs.nid))
      ((pairwise_descNids _).imp (fun h => ne_of_gt h))
      { T := T, N := N, updated := [], reports := [], calls := [] }
      (by
        intro row hrow
        exact mem_trajIds_of_mem ((List.mem_filter.mp (get_n_last_mem hrow)).1))
      (by
        intro c2 hc2
        left
        refine ⟨hc2, ?_⟩
        apply rowsWithCandid_eq_nil
        intro x hx hxc
        exact hdisj x hx (hxc ▸ hc2))
    rcases hfold c hc with ⟨h1, h2⟩ | ⟨h1, r0, h2, _⟩
    · exact Or.inl ⟨h1, h2⟩
    · exact Or.inr ⟨h1, r0, h2⟩

/-- C8 counterexample: the claim as stated fails on the code.  With a
matcher that (as the spec interface permits) returns the same right-hand
observation matched to two different trajectories, the pass attaches
candidate 100 to both trajectory 0 and trajectory 1 and removes it from the
remainder, so it appears in two trajectories of the output rather than
exactly one. -/
theorem C8_conservation_counterexample :
    100 ∈ candids cxNew
    ∧ ((rowsWithCandid
        (trajectories_associations doubleMatcher cxTraj cxNew 10 1 1 1 30).trajectories
        100).map Obs.trajectory_id).dedup = [0, 1]
    ∧ 100 ∉ candids
        (trajectories_associations doubleMatcher cxTraj cxNew 10 1 1 1 30).new_observations := by
  refine ⟨by decide, by decide, by decide⟩

/-! ### Trajectories with computed orbital elements are never touched -/

theorem pass1Forks_id_lower {trajs tracklets : List Obs} {ds : List Obs} :
    ∀ {m : ℤ} {r : Obs}, r ∈ pass1Forks trajs tracklets m ds → m < r.trajectory_id := by
  induction ds with
  | nil => intro m r hr; cases hr
  | cons d rest ih =>
      intro m r hr
      simp only [pass1Forks, List.append_assoc, List.mem_append] at hr
      rcases hr with h1 | h2 | h3
      · rcases List.mem_map.mp h1 with ⟨x, _, he⟩
        subst he
        simp [reassignRow]
      · rcases List.mem_map.mp h2 with ⟨x, _, he⟩
        subst he
        simp [reassignRow]
      · have := ih h3
        omega

theorem assocTracklets_mem {K : List Obs} :
    ∀ {kept : List Obs} {r2 : Obs}, r2 ∈ assocTracklets K kept →
      ∃ r ∈ kept, r2.trajectory_id = r.trajectory_id := by
  intro kept
  induction kept with
  | nil => intro r2 hr; cases hr
  | cons r rs ih =>
      intro r2 hr
      simp only [assocTracklets, List.mem_append] at hr
      rcases hr with h1 | h2
      · rcases List.mem_map.mp h1 with ⟨k, _, he⟩
        exact ⟨r, List.mem_cons_self _ _, by rw [← he]⟩
      · rcases ih h2 with ⟨r3, hr3, he⟩
        exact ⟨r3, List.mem_cons_of_mem _ hr3, he⟩

theorem trajIds_contains_false_of_ne {l : List Obs} {t : ℤ}
    (h : ∀ x ∈ l, x.trajectory_id ≠ t) : (trajIds l).contains t = false := by
  cases hc : (trajIds l).contains t
  · rfl
  · exfalso
    have : t ∈ trajIds l := by simpa using hc
    rcases exists_of_mem_trajIds this with ⟨r, hr, he⟩
    exact h r hr he

theorem trajAssocApply_fst (trajs oa : List Obs) :
    (trajAssocApply trajs oa).1
      = setUpdatedFlags (trajIds (keptRows oa))
          (trajs ++ mkForks trajs (maxTrajId trajs) (dupRows oa) ++ keptRows oa) := by
  rw [trajAssocApply_eq]

theorem pass2Step_rowsWithId (matcher : Matcher) (hM : MatcherOK matcher)
    (next_nid : ℤ) (sep ms md ang : ℚ) (twoLast lastObs : List Obs) (t : ℤ)
    (htw : ∀ r ∈ twoLast, r.trajectory_id ≠ t)
    (s : Pass2State) (hts : t ∈ trajIds s.T) (n : ℤ) :
    rowsWithId ((pass2Step matcher next_nid sep ms md ang twoLast lastObs s n).T) t
      = rowsWithId s.T t
    ∧ t ∈ trajIds ((pass2Step matcher next_nid sep ms md ang twoLast lastObs s n).T) := by
  have hmi := hM (twoLast.filter (fun r =>
      (trajIds (lastObs.filter (fun l2 => l2.nid == n))).contains r.trajectory_id))
    s.N (sep * ((next_nid - n : ℤ) : ℚ)) (ms * ((next_nid - n : ℤ) : ℚ))
    (md * ((next_nid - n : ℤ) : ℚ)) ang
  set oa := (matcher (twoLast.filter (fun r =>
      (trajIds (lastObs.filter (fun l2 => l2.nid == n))).contains r.trajectory_id))
    s.N (sep * ((next_nid - n : ℤ) : ℚ)) (ms * ((next_nid - n : ℤ) : ℚ))
    (md * ((next_nid - n : ℤ) : ℚ)) ang).2 with hoa_def
  have hoa_ne : ∀ o ∈ oa, o.trajectory_id ≠ t := by
    intro o ho
    rcases exists_of_mem_trajIds (hmi.2.2 o ho) with ⟨r, hr, hre⟩
    have hr2 := (List.mem_filter.mp hr).1
    rw [← hre]
    exact htw r hr2
  have hT' : (pass2Step matcher next_nid sep ms md ang twoLast lastObs s n).T
      = (trajAssocApply s.T oa).1 := rfl
  have hkept_ne : ∀ x ∈ keptRows oa, x.trajectory_id ≠ t := by
    intro x hx
    exact hoa_ne x ((keptRows_sublist _).mem hx)
  constructor
  · rw [hT', trajAssocApply_fst]
    rw [rowsWithId_setUpdatedFlags_neg (trajIds_contains_false_of_ne hkept_ne),
      rowsWithId_append, rowsWithId_append]
    have hfp : rowsWithId (mkForks s.T (maxTrajId s.T) (dupRows oa)) t = [] := by
      apply rowsWithId_eq_nil_of_lt
      intro r hr
      have h1 := mkForks_id_lower hr
      have h2 := mem_trajIds_le_max hts
      omega
    have hkp : rowsWithId (keptRows oa) t = [] :=
      rowsWithId_eq_nil_of_lt hkept_ne
    rw [hfp, hkp, List.append_nil, List.append_nil]
  · rw [hT']
    exact trajAssocApply_ids_mono _ _ hts

theorem pass1Step_rowsWithId (matcher : Matcher) (hM : MatcherOK matcher)
    (next_nid : ℤ) (sep ms md ang : ℚ) (twoLast lastObs extremity : List Obs) (t : ℤ)
    (htw : ∀ r ∈ twoLast, r.trajectory_id ≠ t)
    (s : Pass1State) (hts : t ∈ trajIds s.T) (n : ℤ) :
    rowsWithId ((pass1Step matcher next_nid sep ms md ang twoLast lastObs extremity s n).T) t
      = rowsWithId s.T t
    ∧ t ∈ trajIds ((pass1Step matcher next_nid sep ms md ang twoLast lastObs extremity s n).T) := by
  have hmi := hM (twoLast.filter (fun r =>
      (trajIds (lastObs.filter (fun l2 => l2.nid == n))).contains r.trajectory_id))
    extremity (sep * ((next_nid - n : ℤ) : ℚ)) (ms * ((next_nid - n : ℤ) : ℚ))
    (md * ((next_nid - n : ℤ) : ℚ)) ang
  simp only [pass1Step]
  set te := (matcher (twoLast.filter (fun r =>
      (trajIds (lastObs.filter (fun l2 => l2.nid == n))).contains r.trajectory_id))
    extremity (sep * ((next_nid - n : ℤ) : ℚ)) (ms * ((next_nid - n : ℤ) : ℚ))
    (md * ((next_nid - n : ℤ) : ℚ)) ang).2 with hte_def
  have hte_ne : ∀ o ∈ te, o.trajectory_id ≠ t := by
    intro o ho
    rcases exists_of_mem_trajIds (hmi.2.2 o ho) with ⟨r, hr, hre⟩
    have hr2 := (List.mem_filter.mp hr).1
    rw [← hre]
    exact htw r hr2
  split
  · exact ⟨rfl, hts⟩
  · have hassoc_ne : ∀ r2 ∈ assocTracklets
        (if (dupRows te).length = 0 then s.K
         else s.K.filter (fun k => !((dupRows te).map Obs.tmp_traj).contains k.trajectory_id))
        (keptRows te), r2.trajectory_id ≠ t := by
      intro r2 hr2
      rcases assocTracklets_mem hr2 with ⟨r, hr, he⟩
      rw [he]
      exact hte_ne r ((keptRows_sublist _).mem hr)
    constructor
    · rw [rowsWithId_setUpdatedFlags_neg (trajIds_contains_false_of_ne hassoc_ne),
        rowsWithId_append]
      have hap : rowsWithId (assocTracklets
          (if (dupRows te).length = 0 then s.K
           else s.K.filter
             (fun k => !((dupRows te).map Obs.tmp_traj).contains k.trajectory_id))
          (keptRows te)) t = [] :=
        rowsWithId_eq_nil_of_lt hassoc_ne
      rw [hap, List.append_nil]
      split
      · rfl
      · rw [rowsWithId_append]
        have hfp : rowsWithId (pass1Forks s.T s.K (maxTrajId s.T) (dupRows te)) t = [] := by
          apply rowsWithId_eq_nil_of_lt
          intro r hr
          have h1 := pass1Forks_id_lower hr
          have h2 := mem_trajIds_le_max hts
          omega
        rw [hfp, List.append_nil]
    · rw [trajIds_setUpdatedFlags]
      apply mem_trajIds_append_left
      split
      · exact hts
      · exact mem_trajIds_append_left hts

theorem pass2_fold_rowsWithId (matcher : Matcher) (hM : MatcherOK matcher)
    (next_nid : ℤ) (sep ms md ang : ℚ) (twoLast lastObs : List Obs) (t : ℤ)
    (htw : ∀ r ∈ twoLast, r.trajectory_id ≠ t) :
    ∀ (l : List ℤ) (s : Pass2State), t ∈ trajIds s.T →
      rowsWithId ((l.foldl (pass2Step matcher next_nid sep ms md ang twoLast lastObs) s).T) t
        = rowsWithId s.T t := by
  intro l
  induction l with
  | nil => intro s _; rfl
  | cons n rest ih =>
      intro s hts
      rw [List.foldl_cons]
      have hstep := pass2Step_rowsWithId matcher hM next_nid sep ms md ang twoLast lastObs t
        htw s hts n
      rw [ih _ hstep.2, hstep.1]

theorem pass1_fold_rowsWithId (matcher : Matcher) (hM : MatcherOK matcher)
    (next_nid : ℤ) (sep ms md ang : ℚ) (twoLast lastObs extremity : List Obs) (t : ℤ)
    (htw : ∀ r ∈ twoLast, r.trajectory_id ≠ t) :
    ∀ (l : List ℤ) (s : Pass1State), t ∈ trajIds s.T →
      rowsWithId
        ((l.foldl (pass1Step matcher next_nid sep ms md ang twoLast lastObs extremity) s).T) t
        = rowsWithId s.T t := by
  intro l
  induction l with
  | nil => intro s _; rfl
  | cons n rest ih =>
      intro s hts
      rw [List.foldl_cons]
      have hstep := pass1Step_rowsWithId matcher hM next_nid sep ms md ang twoLast lastObs
        extremity t htw s hts n
      rw [ih _ hstep.2, hstep.1]

/-- C9: passes 1 and 2 select association anchors only among trajectories
that are still flagged `not_updated` and carry the orbital sentinel
`a = -1`; consequently a trajectory whose orbital elements have been
computed (every row with `a ≠ -1`) is never extended by either pass — its
rows in the output are exactly its rows in the input. -/
theorem C9_computed_trajectories_untouched (matcher : Matcher) (hM : MatcherOK matcher)
    (T K N : List Obs) (next_nid : ℤ) (sep ms md ang : ℚ) (t : ℤ)
    (ht : t ∈ trajIds T)
    (ha : ∀ r ∈ T, r.trajectory_id = t → r.a ≠ -1) :
    rowsWithId (tracklets_associations matcher T K next_nid sep ms md ang).trajectories t
        = rowsWithId T t
    ∧ rowsWithId (trajectories_associations matcher T N next_nid sep ms md ang).trajectories t
        = rowsWithId T t
    ∧ (∀ r ∈ get_n_last_observations_from_trajectories
          (T.filter (fun o => o.not_updated && o.a == -1)) 2 true,
        r.not_updated = true ∧ r.a = -1) := by
  have htw : ∀ r ∈ get_n_last_observations_from_trajectories
      (T.filter (fun o => o.not_updated && o.a == -1)) 2 true, r.trajectory_id ≠ t := by
    intro r hr he
    have h2 := List.mem_filter.mp (get_n_last_mem hr)
    have h3 := h2.2
    rw [Bool.and_eq_true] at h3
    have h4 : r.a = -1 := by simpa using h3.2
    exact ha r h2.1 he h4
  refine ⟨?_, ?_, ?_⟩
  · by_cases hg : T.length = 0 ∨ K.length = 0
    · simp only [tracklets_associations, if_pos hg]
    · simp only [tracklets_associations, if_neg hg]
      exact pass1_fold_rowsWithId matcher hM next_nid sep ms md ang _ _ _ t htw _ _ ht
  · by_cases hg : T.length = 0 ∨ N.length = 0
    · simp only [trajectories_associations, if_pos hg]
    · simp only [trajectories_associations, if_neg hg]
      exact pass2_fold_rowsWithId matcher hM next_nid sep ms md ang _ _ t htw _ _ ht
  · intro r hr
    have h2 := List.mem_filter.mp (get_n_last_mem hr)
    have h3 := h2.2
    rw [Bool.and_eq_true] at h3
    exact ⟨h3.1, by simpa using h3.2⟩

/-- C9 witness: a trajectory with computed elements (`a = 1`) is untouched
by both passes. -/
theorem C9_computed_trajectories_untouched_witness :
    rowsWithId (tracklets_associations neverMatcher
        [mkObs 9 4 1 0 1 1 true, mkObs 9 4 2 0 2 1 true] demoNew 10 1 1 1 30).trajectories 0
      = rowsWithId [mkObs 9 4 1 0 1 1 true, mkObs 9 4 2 0 2 1 true] 0
    ∧ rowsWithId (trajectories_associations neverMatcher
        [mkObs 9 4 1 0 1 1 true, mkObs 9 4 2 0 2 1 true] demoNew 10 1 1 1 30).trajectories 0
      = rowsWithId [mkObs 9 4 1 0 1 1 true, mkObs 9 4 2 0 2 1 true] 0 := by
  have h := C9_computed_trajectories_untouched neverMatcher
    (fun l r s a b g => ⟨by simp [neverMatcher], by simp [neverMatcher],
      by simp [neverMatcher]⟩)
    [mkObs 9 4 1 0 1 1 true, mkObs 9 4 2 0 2 1 true] demoNew demoNew 10 1 1 1 30 0
    (by decide) (by decide)
  exact ⟨h.1, h.2.1⟩

/-! ### Orchestration: the night cycle -/

theorem compute_orbit_elem_one_put (orbitCalc : OrbitCalc) (df : List Obs) (h : df ≠ []) :
    ∃ tbl, (compute_orbit_elem orbitCalc df).puts = [tbl] := by
  have hlen : ¬(df.length = 0) := fun hc => h (List.length_eq_zero.mp hc)
  simp only [compute_orbit_elem, if_neg hlen]
  exact ⟨_, rfl⟩

/-- C1: evidence for the missing fourth pass.  On the demo night (one
recorded 3-point trajectory, an old observation with candid 51 and a new
observation with candid 66 that the pass-4 matcher would pair), the
orchestrator invokes only passes 1-3, never pass 4; candids 51 and 66 are
returned unassociated in the old-observation output and appear in no
trajectory; yet running the (never invoked) `observations_associations` on
exactly those leftovers would create a brand-new 2-point trajectory under
the fresh id 3. -/
theorem C1_fourth_pass_never_runs :
    demoRun.trace.count (Event.passStart 4) = 0
    ∧ demoRun.trace
        = [Event.passStart 1, Event.spawn 1, Event.passStart 2, Event.spawn 2,
           Event.passStart 3, Event.spawn 3, Event.receive, Event.receive, Event.receive,
           Event.terminate 1, Event.terminate 2]
    ∧ demoRun.result.map (fun p => candids p.2) = some [51, 66]
    ∧ demoRun.result.map (fun p => decide (51 ∈ candids p.1)) = some false
    ∧ demoRun.result.map (fun p => decide (66 ∈ candids p.1)) = some false
    ∧ (pass4NewTrajectories (observations_associations demoObsMatcher
          [mkObs 7 9 51 0 1 (-1) true] [mkObs 10 3 66 0 10 (-1) true] 10 3 1 1 1)).map
        (fun o => (o.candid, o.trajectory_id)) = [(51, 3), (66, 3)] := by
  refine ⟨by decide, by decide, by decide, by decide, by decide, by decide⟩

/-- C5 (amended): in a night cycle with a non-empty input trajectory table
whose three orbit batches are all non-empty, exactly three background
workers are spawned (one after each of passes 1, 2 and 3), exactly three
blocking receives are performed (after pass 3 — pass 4 is never invoked),
the three received tables are concatenated into the published trajectory
table, and then only the workers of passes 1 and 2 are terminated — the
third worker is never terminated. -/
theorem C5_background_workers (matcher : Matcher) (obsMatcher : ObsMatcher)
    (builder : IntraBuilder) (orbitCalc : OrbitCalc)
    (T O N : List Obs) (last_nid next_nid tw : ℤ) (sep ms md ang : ℚ)
    (hT : T ≠ [])
    (h1 : (night_to_night_association matcher obsMatcher builder orbitCalc
        T O N last_nid next_nid tw sep ms md ang).batch1 ≠ [])
    (h2 : (night_to_night_association matcher obsMatcher builder orbitCalc
        T O N last_nid next_nid tw sep ms md ang).batch2 ≠ [])
    (h3 : (night_to_night_association matcher obsMatcher builder orbitCalc
        T O N last_nid next_nid tw sep ms md ang).batch3 ≠ []) :
    (night_to_night_association matcher obsMatcher builder orbitCalc
        T O N last_nid next_nid tw sep ms md ang).trace
      = [Event.passStart 1, Event.spawn 1, Event.passStart 2, Event.spawn 2,
         Event.passStart 3, Event.spawn 3, Event.receive, Event.receive, Event.receive,
         Event.terminate 1, Event.terminate 2]
    ∧ ∃ q1 q2 q3 pre p1 p2 obs,
        (compute_orbit_elem orbitCalc (night_to_night_association matcher obsMatcher builder
            orbitCalc T O N last_nid next_nid tw sep ms md ang).batch1).puts = [q1]
        ∧ (compute_orbit_elem orbitCalc (night_to_night_association matcher obsMatcher builder
            orbitCalc T O N last_nid next_nid tw sep ms md ang).batch2).puts = [q2]
        ∧ (compute_orbit_elem orbitCalc (night_to_night_association matcher obsMatcher builder
            orbitCalc T O N last_nid next_nid tw sep ms md ang).batch3).puts = [q3]
        ∧ (night_to_night_association matcher obsMatcher builder orbitCalc
            T O N last_nid next_nid tw sep ms md ang).result
          = some (pre ++ (concatTables [q1, q2, q3] ++ p1 ++ p2), obs) := by
  have hTlen : ¬(T.length = 0) := fun hc => hT (List.length_eq_zero.mp hc)
  simp only [night_to_night_association, if_neg hTlen] at h1 h2 h3 ⊢
  obtain ⟨q1, hq1⟩ := compute_orbit_elem_one_put orbitCalc _ h1
  obtain ⟨q2, hq2⟩ := compute_orbit_elem_one_put orbitCalc _ h2
  obtain ⟨q3, hq3⟩ := compute_orbit_elem_one_put orbitCalc _ h3
  rw [hq1, hq2, hq3]
  constructor
  · rfl
  · exact ⟨q1, q2, q3, _, _, _, _, rfl, rfl, rfl, rfl⟩

/-- C5 witness. -/
theorem C5_background_workers_witness :
    demoRun.trace
      = [Event.passStart 1, Event.spawn 1, Event.passStart 2, Event.spawn 2,
         Event.passStart 3, Event.spawn 3, Event.receive, Event.receive, Event.receive,
         Event.terminate 1, Event.terminate 2]
    ∧ ∃ q1 q2 q3 pre p1 p2 obs,
        (compute_orbit_elem demoOrbit demoRun.batch1).puts = [q1]
        ∧ (compute_orbit_elem demoOrbit demoRun.batch2).puts = [q2]
        ∧ (compute_orbit_elem demoOrbit demoRun.batch3).puts = [q3]
        ∧ demoRun.result = some (pre ++ (concatTables [q1, q2, q3] ++ p1 ++ p2), obs) :=
  C5_background_workers demoMatcher demoObsMatcher demoIntra demoOrbit
    demoTraj demoOld demoNew 9 10 100 1 1 1 30
    (by decide) (by decide) (by decide) (by decide)

/-- C5 counterexample: the claim as stated says all three workers are then
terminated; in the completed demo cycle worker 3 is spawned but never
terminated — only the workers of passes 1 and 2 are. -/
theorem C5_worker_termination_counterexample :
    demoRun.trace.count (Event.spawn 3) = 1
    ∧ demoRun.trace.count (Event.terminate 3) = 0
    ∧ demoRun.trace.filter
        (fun e => match e with | Event.terminate _ => true | _ => false)
      = [Event.terminate 1, Event.terminate 2] := by
  refine ⟨by decide, by decide, by decide⟩

/-! ### Pass-1 structural lemmas: tracklet forks and whole-tracklet moves -/

theorem rowsWithId_filter (l : List Obs) (p : Obs → Bool) (t : ℤ) :
    rowsWithId (l.filter p) t = (rowsWithId l t).filter p := by
  unfold rowsWithId
  exact List.filter_comm _ _ _

theorem rowsWithCandid_filter (l : List Obs) (p : Obs → Bool) (c : ℤ) :
    rowsWithCandid (l.filter p) c = (rowsWithCandid l c).filter p := by
  unfold rowsWithCandid
  exact List.filter_comm _ _ _

theorem rowsWithCandid_rowsWithId (l : List Obs) (t c : ℤ) :
    rowsWithCandid (rowsWithId l t) c = rowsWithId (rowsWithCandid l c) t := by
  unfold rowsWithCandid rowsWithId
  exact List.filter_comm _ _ _

theorem rowsWithId_filter_of_pred {l : List Obs} {p : Obs → Bool} {t : ℤ}
    (h : ∀ x ∈ l, x.trajectory_id = t → p x = true) :
    rowsWithId (l.filter p) t = rowsWithId l t := by
  rw [rowsWithId_filter]
  apply List.filter_eq_self.mpr
  intro a ha
  have hm := List.mem_filter.mp
    (show a ∈ l.filter (fun r => r.trajectory_id == t) from ha)
  exact h a hm.1 (by simpa using hm.2)

theorem rowsWithId_map_reassignRow_self (l : List Obs) (n : ℤ) :
    rowsWithId (l.map (reassignRow n)) n = l.map (reassignRow n) := by
  unfold rowsWithId
  rw [List.filter_map]
  have h : ((fun r : Obs => r.trajectory_id == n) ∘ reassignRow n) = fun _ => true := by
    funext x
    simp [reassignRow]
  rw [h, List.filter_true]

theorem rowsWithId_map_reassignRow_ne (l : List Obs) {n t : ℤ} (h : t ≠ n) :
    rowsWithId (l.map (reassignRow n)) t = [] := by
  unfold rowsWithId
  rw [List.filter_map]
  have hp : ((fun r : Obs => r.trajectory_id == t) ∘ reassignRow n) = fun _ => false := by
    funext x
    simp [reassignRow]
    exact fun he => absurd he.symm h
  rw [hp]
  simp

theorem assocTracklets_nilK (kept : List Obs) : assocTracklets [] kept = [] := by
  induction kept with
  | nil => rfl
  | cons r rs ih => simp [assocTracklets, ih]

theorem assocTracklets_mem_full {K : List Obs} :
    ∀ {kept : List Obs} {r2 : Obs}, r2 ∈ assocTracklets K kept →
      ∃ r ∈ kept, ∃ k ∈ K, k.trajectory_id = r.tmp_traj
        ∧ r2 = { k with trajectory_id := r.trajectory_id } := by
  intro kept
  induction kept with
  | nil => intro r2 hr; cases hr
  | cons r rs ih =>
      intro r2 hr
      simp only [assocTracklets, List.mem_append] at hr
      rcases hr with h1 | h2
      · rcases List.mem_map.mp h1 with ⟨k, hk, he⟩
        have hk2 := List.mem_filter.mp hk
        exact ⟨r, List.mem_cons_self _ _, k, hk2.1, by simpa using hk2.2, he.symm⟩
      · rcases ih h2 with ⟨r3, hr3, k, hk, he, heq⟩
        exact ⟨r3, List.mem_cons_of_mem _ hr3, k, hk, he, heq⟩

theorem rowsWithCandid_assocTracklets (K : List Obs) (c : ℤ) (kept : List Obs) :
    rowsWithCandid (assocTracklets K kept) c
      = assocTracklets (rowsWithCandid K c) kept := by
  induction kept with
  | nil => rfl
  | cons r rs ih =>
      simp only [assocTracklets]
      rw [rowsWithCandid_append, ih]
      congr 1
      rw [rowsWithCandid_map_preserve
        (f := fun k => { k with trajectory_id := r.trajectory_id }) (fun o => rfl)]
      congr 1
      exact rowsWithCandid_filter K _ c

theorem rowsWithId_assocTracklets (K : List Obs) (B : ℤ) (kept : List Obs) :
    rowsWithId (assocTracklets K kept) B
      = assocTracklets K (kept.filter (fun r => r.trajectory_id == B)) := by
  induction kept with
  | nil => rfl
  | cons r rs ih =>
      simp only [assocTracklets]
      rw [rowsWithId_append, ih]
      by_cases hb : r.trajectory_id = B
      · rw [List.filter_cons_of_pos (by simpa using hb)]
        simp only [assocTracklets]
        congr 1
        unfold rowsWithId
        apply List.filter_eq_self.mpr
        intro a ha
        rcases List.mem_map.mp ha with ⟨k, _, he⟩
        subst he
        simpa using hb
      · rw [List.filter_cons_of_neg (by simpa using hb)]
        have hz : rowsWithId ((K.filter (fun k => k.trajectory_id == r.tmp_traj)).map
            (fun k => { k with trajectory_id := r.trajectory_id })) B = [] := by
          apply rowsWithId_eq_nil_of_lt
          intro x hx
          rcases List.mem_map.mp hx with ⟨k, _, he⟩
          subst he
          simpa using hb
        rw [hz, List.nil_append]

theorem pass1Forks_mem {trajs K : List Obs} :
    ∀ {ds : List Obs} {m : ℤ} {r : Obs}, r ∈ pass1Forks trajs K m ds →
      ∃ d ∈ ds, ∃ n : ℤ, m < n ∧
        ((∃ x ∈ rowsWithId trajs d.trajectory_id, r = reassignRow n x)
         ∨ (∃ k ∈ rowsWithId K d.tmp_traj, r = reassignRow n k)) := by
  intro ds
  induction ds with
  | nil => intro m r hr; cases hr
  | cons d rest ih =>
      intro m r hr
      simp only [pass1Forks, List.append_assoc, List.mem_append] at hr
      rcases hr with h1 | h2 | h3
      · rcases List.mem_map.mp h1 with ⟨x, hx, he⟩
        exact ⟨d, List.mem_cons_self _ _, m + 1, by omega, Or.inl ⟨x, hx, he.symm⟩⟩
      · rcases List.mem_map.mp h2 with ⟨k, hk, he⟩
        exact ⟨d, List.mem_cons_self _ _, m + 1, by omega, Or.inr ⟨k, hk, he.symm⟩⟩
      · rcases ih h3 with ⟨d2, hd2, n, hn, hor⟩
        exact ⟨d2, List.mem_cons_of_mem _ hd2, n, by omega, hor⟩

theorem pass1Forks_eq_nil {trajs K : List Obs} {ds : List Obs} {m : ℤ}
    (h1 : ∀ d ∈ ds, rowsWithId trajs d.trajectory_id = [])
    (h2 : ∀ d ∈ ds, rowsWithId K d.tmp_traj = []) :
    pass1Forks trajs K m ds = [] := by
  apply List.eq_nil_iff_forall_not_mem.mpr
  intro r hr
  rcases pass1Forks_mem hr with ⟨d, hd, n, _, ⟨x, hx, _⟩ | ⟨k, hk, _⟩⟩
  · rw [h1 d hd] at hx
    cases hx
  · rw [h2 d hd] at hk
    cases hk

theorem rowsWithCandid_pass1Forks (trajs K : List Obs) (c : ℤ) (ds : List Obs) :
    ∀ m : ℤ, rowsWithCandid (pass1Forks trajs K m ds) c
      = pass1Forks (rowsWithCandid trajs c) (rowsWithCandid K c) m ds := by
  induction ds with
  | nil => intro m; rfl
  | cons d rest ih =>
      intro m
      simp only [pass1Forks]
      rw [rowsWithCandid_append, rowsWithCandid_append, ih]
      congr 2
      · rw [rowsWithCandid_map_preserve (f := reassignRow (m + 1)) (fun o => rfl)]
        congr 1
        exact rowsWithCandid_rowsWithId trajs d.trajectory_id c
      · rw [rowsWithCandid_map_preserve (f := reassignRow (m + 1)) (fun o => rfl)]
        congr 1
        exact rowsWithCandid_filter K _ c

theorem pass1Forks_pool_notmem {kc : Obs} {ds : List Obs} {m : ℤ}
    (h : kc.trajectory_id ∉ ds.map Obs.tmp_traj) :
    pass1Forks [] [kc] m ds = [] := by
  apply pass1Forks_eq_nil
  · intro d _
    rfl
  · intro d hd
    apply rowsWithId_eq_nil_of_lt
    intro r hr
    simp only [List.mem_singleton] at hr
    subst hr
    intro he
    exact h (by rw [he]; exact List.mem_map_of_mem _ hd)

theorem pass1Forks_pool_single {kc : Obs} :
    ∀ {ds : List Obs} {m : ℤ}, (ds.map Obs.tmp_traj).Nodup →
      kc.trajectory_id ∈ ds.map Obs.tmp_traj →
      ∃ n : ℤ, m < n ∧ pass1Forks [] [kc] m ds = [reassignRow n kc] := by
  intro ds
  induction ds with
  | nil => intro m _ hmem; simp at hmem
  | cons d rest ih =>
      intro m hnd hmem
      rw [List.map_cons, List.nodup_cons] at hnd
      simp only [pass1Forks]
      by_cases he : kc.trajectory_id = d.tmp_traj
      · have htail : pass1Forks [] [kc] (m + 1) rest = [] := by
          apply pass1Forks_pool_notmem
          rw [he]
          exact hnd.1
        have hblock : ([kc].filter (fun k => k.trajectory_id == d.tmp_traj)) = [kc] := by
          rw [List.filter_cons_of_pos (by simpa using he)]
          rfl
        refine ⟨m + 1, by omega, ?_⟩
        rw [htail, show rowsWithId ([] : List Obs) d.trajectory_id = [] from rfl, hblock]
        simp
      · have hmem2 : kc.trajectory_id ∈ rest.map Obs.tmp_traj := by
          rcases List.mem_cons.mp hmem with h1 | h2
          · exact absurd h1 he
          · exact h2
        rcases ih (m := m + 1) hnd.2 hmem2 with ⟨n, hn, heq⟩
        refine ⟨n, by omega, ?_⟩
        have hblock : ([kc].filter (fun k => k.trajectory_id == d.tmp_traj)) = [] := by
          rw [List.filter_cons_of_neg (by simpa using he)]
          rfl
        rw [heq, show rowsWithId ([] : List Obs) d.trajectory_id = [] from rfl, hblock]
        simp

theorem pass1Forks_rowsWithId_at (trajs K : List Obs) (ds : List Obs) :
    ∀ (m : ℤ) (j : Nat) (hj : j < ds.length),
      rowsWithId (pass1Forks trajs K m ds) (m + j + 1)
        = (rowsWithId trajs (ds.get ⟨j, hj⟩).trajectory_id).map (reassignRow (m + j + 1))
          ++ (rowsWithId K (ds.get ⟨j, hj⟩).tmp_traj).map (reassignRow (m + j + 1)) := by
  induction ds with
  | nil => intro m j hj; exact absurd hj (by simp)
  | cons d rest ih =>
      intro m j hj
      cases j with
      | zero =>
          simp only [pass1Forks, List.get, Nat.cast_zero]
          rw [show m + (0 : ℤ) + 1 = m + 1 by ring]
          rw [rowsWithId_append, rowsWithId_append]
          rw [rowsWithId_map_reassignRow_self, rowsWithId_map_reassignRow_self]
          have h2 : rowsWithId (pass1Forks trajs K (m + 1) rest) (m + 1) = [] := by
            apply rowsWithId_eq_nil_of_lt
            intro r hr
            have := pass1Forks_id_lower hr
            omega
          rw [h2, List.append_nil]
          rfl
      | succ i =>
          have hi : i < rest.length := by simpa using hj
          simp only [pass1Forks, List.get]
          rw [rowsWithId_append, rowsWithId_append]
          have hne : (m + (i + 1 : ℕ) + 1 : ℤ) ≠ m + 1 := by
            push_cast
            omega
          rw [rowsWithId_map_reassignRow_ne _ hne, rowsWithId_map_reassignRow_ne _ hne]
          have harith : (m + (i + 1 : ℕ) + 1 : ℤ) = (m + 1) + i + 1 := by
            push_cast
            ring
          rw [harith, ih (m + 1) i hi]
          simp

theorem kept_dup_tmp_parts {te : List Obs} (h : (te.map Obs.tmp_traj).Nodup) :
    ((keptRows te).map Obs.tmp_traj).Nodup
    ∧ ((dupRows te).map Obs.tmp_traj).Nodup
    ∧ ∀ x ∈ keptRows te, x.tmp_traj ∉ (dupRows te).map Obs.tmp_traj := by
  have hp := (kept_dup_perm te).map Obs.tmp_traj
  rw [List.map_append] at hp
  have hnd : ((keptRows te).map Obs.tmp_traj ++ (dupRows te).map Obs.tmp_traj).Nodup :=
    hp.nodup_iff.mpr h
  rw [List.nodup_append] at hnd
  exact ⟨hnd.1, hnd.2.1, fun x hx hm => hnd.2.2 (List.mem_map_of_mem _ hx) hm⟩

/-- Canonical form of the tracklet-association core: forks first (over the
untouched pool), then the kept whole-tracklet moves looked up in the thinned
pool, then the updated-flag sweep over the ids that actually received a
continuation; the reported duplicate count is the number of duplicated
association rows. -/
theorem trackAssocApply_eq (trajs K te : List Obs) :
    trackAssocApply trajs K te
      = (setUpdatedFlags
            (trajIds (assocTracklets
              (K.filter (fun k =>
                !((dupRows te).map Obs.tmp_traj).contains k.trajectory_id))
              (keptRows te)))
            ((trajs ++ pass1Forks trajs K (maxTrajId trajs) (dupRows te))
              ++ assocTracklets
                  (K.filter (fun k =>
                    !((dupRows te).map Obs.tmp_traj).contains k.trajectory_id))
                  (keptRows te)),
         (K.filter (fun k =>
            !((dupRows te).map Obs.tmp_traj).contains k.trajectory_id)).filter
              (fun k => !((keptRows te).map Obs.tmp_traj).contains k.trajectory_id),
         (dupRows te).length) := by
  have hcnt : te.length - (keptRows te).length = (dupRows te).length := by
    have := keptRows_length_add te
    omega
  unfold trackAssocApply
  by_cases h : te.length = 0
  · have hnil : te = [] := List.length_eq_zero.mp h
    rw [if_pos h, hnil]
    rw [show keptRows ([] : List Obs) = [] from rfl,
      show dupRows ([] : List Obs) = [] from rfl]
    have hKf : K.filter (fun k =>
        !((([] : List Obs).map Obs.tmp_traj).contains k.trajectory_id)) = K := by
      apply List.filter_eq_self.mpr
      intro a _
      rfl
    rw [hKf, hKf]
    simp [assocTracklets, pass1Forks, setUpdatedFlags_nil, trajIds]
  · rw [if_neg h]
    by_cases hd : (dupRows te).length = 0
    · have hdn : dupRows te = [] := List.length_eq_zero.mp hd
      have hKf : K.filter (fun k =>
          !(((dupRows te).map Obs.tmp_traj).contains k.trajectory_id)) = K := by
        rw [hdn]
        apply List.filter_eq_self.mpr
        intro a _
        rfl
      simp only [hd, if_pos, hKf, hcnt]
      rw [hdn]
      simp [pass1Forks]
    · simp only [hd, if_neg, hcnt]
      simp

theorem contains_false_of_not_mem {l : List ℤ} {x : ℤ} (h : x ∉ l) :
    l.contains x = false := by
  cases hc : l.contains x
  · rfl
  · exact absurd (by simpa using hc) h

theorem trackAssocApply_fst (trajs K te : List Obs) :
    (trackAssocApply trajs K te).1
      = setUpdatedFlags
          (trajIds (assocTracklets
            (K.filter (fun k =>
              !((dupRows te).map Obs.tmp_traj).contains k.trajectory_id))
            (keptRows te)))
          ((trajs ++ pass1Forks trajs K (maxTrajId trajs) (dupRows te))
            ++ assocTracklets
                (K.filter (fun k =>
                  !((dupRows te).map Obs.tmp_traj).contains k.trajectory_id))
                (keptRows te)) := by
  rw [trackAssocApply_eq]

theorem trackAssocApply_K (trajs K te : List Obs) :
    (trackAssocApply trajs K te).2.1
      = (K.filter (fun k =>
          !((dupRows te).map Obs.tmp_traj).contains k.trajectory_id)).filter
            (fun k => !((keptRows te).map Obs.tmp_traj).contains k.trajectory_id) := by
  rw [trackAssocApply_eq]

theorem trackAssocApply_count (trajs K te : List Obs) :
    (trackAssocApply trajs K te).2.2 = (dupRows te).length := by
  rw [trackAssocApply_eq]

theorem trackAssocApply_ids_mono {t : ℤ} (trajs K te : List Obs) (h : t ∈ trajIds trajs) :
    t ∈ trajIds (trackAssocApply trajs K te).1 := by
  rw [trackAssocApply_fst, trajIds_setUpdatedFlags]
  exact mem_trajIds_append_left (mem_trajIds_append_left h)

theorem trackAssocApply_K_sublist (trajs K te : List Obs) :
    ((trackAssocApply trajs K te).2.1).Sublist K := by
  rw [trackAssocApply_K]
  exact (List.filter_sublist _).trans (List.filter_sublist _)

/-- The data fields of one `pass1Step` iteration are exactly the
tracklet-association core `trackAssocApply` applied to the matcher output
of that iteration. -/
theorem pass1Step_TK (matcher : Matcher) (next_nid : ℤ) (sep ms md ang : ℚ)
    (twoLast lastObs extremity : List Obs) (s : Pass1State) (n : ℤ) :
    (pass1Step matcher next_nid sep ms md ang twoLast lastObs extremity s n).T
      = (trackAssocApply s.T s.K ((matcher (twoLast.filter (fun r =>
          (trajIds (lastObs.filter (fun r2 => r2.nid == n))).contains r.trajectory_id))
          extremity (sep * ((next_nid - n : ℤ) : ℚ)) (ms * ((next_nid - n : ℤ) : ℚ))
          (md * ((next_nid - n : ℤ) : ℚ)) ang).2)).1
    ∧ (pass1Step matcher next_nid sep ms md ang twoLast lastObs extremity s n).K
      = (trackAssocApply s.T s.K ((matcher (twoLast.filter (fun r =>
          (trajIds (lastObs.filter (fun r2 => r2.nid == n))).contains r.trajectory_id))
          extremity (sep * ((next_nid - n : ℤ) : ℚ)) (ms * ((next_nid - n : ℤ) : ℚ))
          (md * ((next_nid - n : ℤ) : ℚ)) ang).2)).2.1 := by
  constructor <;>
  · simp only [pass1Step, trackAssocApply]
    split
    · rfl
    · rfl

/-- Duplicate resolution in the tracklet-association core of
`tracklets_associations`, under the provisos that the matcher returned
each tracklet in at most one association row (pairwise distinct
`tmp_traj`) and that every named tracklet is present in the pool: the
first match of a `k > 1` group keeps the original id and receives the
whole tracklet it names (looked up intact because no duplicated row named
that tracklet), every row of the group marked updated; the `j`-th
duplicated row overall is resolved into a fork under the fresh id
`maxTrajId + j + 1` holding the copied trajectory history plus its whole
tracklet, all rows marked updated; the reported count is the number of
duplicated rows. -/
theorem trackAssoc_duplicate_resolution (trajs K te : List Obs) (B : ℤ)
    (hmem : ∀ r ∈ te, r.trajectory_id ∈ trajIds trajs)
    (htmp : (te.map Obs.tmp_traj).Nodup)
    (hpool : ∀ r ∈ te, rowsWithId K r.tmp_traj ≠ [])
    (hk : 1 < (te.filter (fun r => r.trajectory_id == B)).length) :
    (∃ a0, (te.filter (fun r => r.trajectory_id == B)).head? = some a0
      ∧ rowsWithId (trackAssocApply trajs K te).1 B
          = (rowsWithId trajs B).map flagFalse
            ++ (rowsWithId K a0.tmp_traj).map
                (fun k => flagFalse { k with trajectory_id := B }))
    ∧ (dupRows te).filter (fun r => r.trajectory_id == B)
        = (te.filter (fun r => r.trajectory_id == B)).drop 1
    ∧ (∀ j : Nat, (hj : j < (dupRows te).length) →
        (maxTrajId trajs + j + 1) ∉ trajIds trajs
        ∧ rowsWithId (trackAssocApply trajs K te).1 (maxTrajId trajs + j + 1)
            = (rowsWithId trajs ((dupRows te).get ⟨j, hj⟩).trajectory_id).map
                (reassignRow (maxTrajId trajs + j + 1))
              ++ (rowsWithId K ((dupRows te).get ⟨j, hj⟩).tmp_traj).map
                (reassignRow (maxTrajId trajs + j + 1)))
    ∧ (trackAssocApply trajs K te).2.2 = (dupRows te).length
    ∧ (keptRows te).length + (dupRows te).length = te.length := by
  obtain ⟨a0, arest, hAm⟩ :
      ∃ a0 arest, te.filter (fun r => r.trajectory_id == B) = a0 :: arest := by
    cases hc : te.filter (fun r => r.trajectory_id == B) with
    | nil => rw [hc] at hk; simp at hk
    | cons x xs => exact ⟨x, xs, rfl⟩
  have ha0B : a0.trajectory_id = B := by
    have : a0 ∈ te.filter (fun r => r.trajectory_id == B) := by rw [hAm]; simp
    have := (List.mem_filter.mp this).2
    simpa using this
  have ha0te : a0 ∈ te := by
    have : a0 ∈ te.filter (fun r => r.trajectory_id == B) := by rw [hAm]; simp
    exact (List.mem_filter.mp this).1
  have hBmemT : B ∈ trajIds trajs := ha0B ▸ hmem a0 ha0te
  have hBle : B ≤ maxTrajId trajs := mem_trajIds_le_max hBmemT
  have htrajs_le : ∀ r ∈ trajs, r.trajectory_id ≤ maxTrajId trajs := fun r hr =>
    mem_trajIds_le_max (mem_trajIds_of_mem hr)
  have hkept_le : ∀ r ∈ keptRows te, r.trajectory_id ≤ maxTrajId trajs := fun r hr =>
    mem_trajIds_le_max (hmem r ((keptRows_sublist te).mem hr))
  obtain ⟨hknd, hdnd, hdisj⟩ := kept_dup_tmp_parts htmp
  set K1 := K.filter (fun k =>
    !((dupRows te).map Obs.tmp_traj).contains k.trajectory_id) with hK1def
  have hkeptB : (keptRows te).filter (fun r => r.trajectory_id == B) = [a0] := by
    rw [keptRows_filter_id, hAm, List.take_succ_cons, List.take_zero]
  have ha0kept : a0 ∈ keptRows te := by
    have : a0 ∈ (keptRows te).filter (fun r => r.trajectory_id == B) := by
      rw [hkeptB]; simp
    exact (List.mem_filter.mp this).1
  have hK1a0 : rowsWithId K1 a0.tmp_traj = rowsWithId K a0.tmp_traj := by
    rw [hK1def]
    apply rowsWithId_filter_of_pred
    intro x _ hx
    rw [hx, contains_false_of_not_mem (hdisj a0 ha0kept)]
    rfl
  have hassocB : rowsWithId (assocTracklets K1 (keptRows te)) B
      = (rowsWithId K a0.tmp_traj).map (fun k => { k with trajectory_id := B }) := by
    rw [rowsWithId_assocTracklets, hkeptB]
    simp only [assocTracklets, List.append_nil]
    rw [show K1.filter (fun k => k.trajectory_id == a0.tmp_traj)
        = rowsWithId K1 a0.tmp_traj from rfl, hK1a0, ha0B]
  have hvne : rowsWithId K a0.tmp_traj ≠ [] := hpool a0 ha0te
  have hBassoc : (trajIds (assocTracklets K1 (keptRows te))).contains B = true := by
    obtain ⟨k0, hk0⟩ := List.exists_mem_of_ne_nil _ hvne
    have hmm : ({ k0 with trajectory_id := B } : Obs)
        ∈ rowsWithId (assocTracklets K1 (keptRows te)) B := by
      rw [hassocB]
      exact List.mem_map_of_mem _ hk0
    have hmem2 := (List.mem_filter.mp
      (show ({ k0 with trajectory_id := B } : Obs)
          ∈ (assocTracklets K1 (keptRows te)).filter
            (fun r => r.trajectory_id == B) from hmm)).1
    have h3 := mem_trajIds_of_mem hmem2
    simpa using h3
  refine ⟨⟨a0, by rw [hAm]; rfl, ?_⟩, dupRows_filter_id B te, ?_,
    trackAssocApply_count _ _ _, keptRows_length_add te⟩
  · rw [trackAssocApply_fst, ← hK1def]
    rw [rowsWithId_setUpdatedFlags_pos hBassoc, rowsWithId_append, rowsWithId_append]
    have hforksB : rowsWithId (pass1Forks trajs K (maxTrajId trajs) (dupRows te)) B = [] := by
      apply rowsWithId_eq_nil_of_lt
      intro r hr
      have := pass1Forks_id_lower hr
      omega
    rw [hforksB, List.append_nil, hassocB, List.map_append, List.map_map]
    rfl
  · intro j hj
    have hfr : (maxTrajId trajs + j + 1 : ℤ) ∉ trajIds trajs := by
      intro hmemn
      have := mem_trajIds_le_max hmemn
      omega
    refine ⟨hfr, ?_⟩
    have hassoc_ne : ∀ x ∈ assocTracklets K1 (keptRows te),
        x.trajectory_id ≠ maxTrajId trajs + j + 1 := by
      intro x hx
      rcases assocTracklets_mem hx with ⟨r, hr, he⟩
      rw [he]
      have := hkept_le r hr
      omega
    have hcont : (trajIds (assocTracklets K1 (keptRows te))).contains
        (maxTrajId trajs + j + 1) = false := trajIds_contains_false_of_ne hassoc_ne
    rw [trackAssocApply_fst, ← hK1def]
    rw [rowsWithId_setUpdatedFlags_neg hcont, rowsWithId_append, rowsWithId_append]
    have h1 : rowsWithId trajs (maxTrajId trajs + j + 1) = [] := by
      apply rowsWithId_eq_nil_of_lt
      intro r hr
      have := htrajs_le r hr
      omega
    have h3 : rowsWithId (assocTracklets K1 (keptRows te)) (maxTrajId trajs + j + 1) = [] :=
      rowsWithId_eq_nil_of_lt hassoc_ne
    rw [h1, h3, pass1Forks_rowsWithId_at trajs K (dupRows te) (maxTrajId trajs) j hj]
    simp

/-- C2 (amended): duplicate resolution in the two matching passes that
extend recorded trajectories.  In the association core of
`trajectories_associations` (lines 615-701, first conjunct) the property
holds unconditionally: when the matcher output associates `k > 1`
continuations with one trajectory id, the first match in encounter order is
attached under the original id with every row of the group marked updated,
the `j`-th duplicated row overall is resolved into a fork under the freshly
minted id `maxTrajId + j + 1` — distinct from every pre-existing id —
holding the full copied history plus exactly that one continuation, all
marked updated, and the reported "number of duplicated association" equals
the number of duplicated rows removed.  In the tracklet core of
`tracklets_associations` (lines 239-345, second conjunct) the same
resolution holds under the proviso that the matcher returned each tracklet
in at most one association row (pairwise distinct `tmp_traj`, each naming a
tracklet present in the pool): the pass removes the duplicated tracklets
from the pool before the kept first-matches look up their continuations, so
without the proviso the first match can lose its continuation entirely and
stay unflagged (see the counterexample). -/
theorem C2_duplicate_resolution :
    (∀ (trajs oa : List Obs) (A : ℤ),
      (∀ r ∈ oa, r.trajectory_id ∈ trajIds trajs) →
      1 < (oa.filter (fun r => r.trajectory_id == A)).length →
      (∃ a0, (oa.filter (fun r => r.trajectory_id == A)).head? = some a0
        ∧ rowsWithId (trajAssocApply trajs oa).1 A
            = (rowsWithId trajs A).map flagFalse ++ [flagFalse a0])
      ∧ (dupRows oa).filter (fun r => r.trajectory_id == A)
          = (oa.filter (fun r => r.trajectory_id == A)).drop 1
      ∧ (∀ j : Nat, (hj : j < (dupRows oa).length) →
          (maxTrajId trajs + j + 1) ∉ trajIds trajs
          ∧ rowsWithId (trajAssocApply trajs oa).1 (maxTrajId trajs + j + 1)
              = (rowsWithId trajs ((dupRows oa).get ⟨j, hj⟩).trajectory_id).map
                  (forkRow (maxTrajId trajs + j + 1))
                ++ [forkRow (maxTrajId trajs + j + 1) ((dupRows oa).get ⟨j, hj⟩)])
      ∧ (trajAssocApply trajs oa).2 = (dupRows oa).length
      ∧ (keptRows oa).length + (dupRows oa).length = oa.length)
    ∧ (∀ (trajs K te : List Obs) (B : ℤ),
      (∀ r ∈ te, r.trajectory_id ∈ trajIds trajs) →
      (te.map Obs.tmp_traj).Nodup →
      (∀ r ∈ te, rowsWithId K r.tmp_traj ≠ []) →
      1 < (te.filter (fun r => r.trajectory_id == B)).length →
      (∃ a0, (te.filter (fun r => r.trajectory_id == B)).head? = some a0
        ∧ rowsWithId (trackAssocApply trajs K te).1 B
            = (rowsWithId trajs B).map flagFalse
              ++ (rowsWithId K a0.tmp_traj).map
                  (fun k => flagFalse { k with trajectory_id := B }))
      ∧ (dupRows te).filter (fun r => r.trajectory_id == B)
          = (te.filter (fun r => r.trajectory_id == B)).drop 1
      ∧ (∀ j : Nat, (hj : j < (dupRows te).length) →
          (maxTrajId trajs + j + 1) ∉ trajIds trajs
          ∧ rowsWithId (trackAssocApply trajs K te).1 (maxTrajId trajs + j + 1)
              = (rowsWithId trajs ((dupRows te).get ⟨j, hj⟩).trajectory_id).map
                  (reassignRow (maxTrajId trajs + j + 1))
                ++ (rowsWithId K ((dupRows te).get ⟨j, hj⟩).tmp_traj).map
                  (reassignRow (maxTrajId trajs + j + 1)))
      ∧ (trackAssocApply trajs K te).2.2 = (dupRows te).length
      ∧ (keptRows te).length + (dupRows te).length = te.length) :=
  ⟨fun trajs oa A hmem hk => trajAssoc_duplicate_resolution trajs oa A hmem hk,
   fun trajs K te B hmem htmp hpool hk =>
     trackAssoc_duplicate_resolution trajs K te B hmem htmp hpool hk⟩

/-- C2 counterexample: the claim as stated fails on `tracklets_associations`
(source lines 245-345).  The matcher `c2Matcher` associates trajectory 0
with k = 3 rows naming the two distinct tracklets 7 and 8, tracklet 7
twice — permitted by the spec matcher interface, which promises only
matched pairs plus each side's unmatched remainder.  The
duplicate-resolution loop forks the two duplicated rows and removes
tracklets 7 and 8 from the pool (lines 285-289) before the kept
first-match looks its continuation up (line 313), so the first match keeps
the original id but receives no continuation at all and trajectory 0 is
never marked updated, while both continuations live only in the forks 1
and 2 — contradicting the claim that the first match keeps the original id
holding its continuation and that the original is marked updated. -/
theorem C2_pass1_counterexample :
    1 < (c2te.filter (fun r => r.trajectory_id == 0)).length
    ∧ (c2te.filter (fun r => r.trajectory_id == 0)).map Obs.tmp_traj = [7, 8, 7]
    ∧ rowsWithId (tracklets_associations c2Matcher c2T c2K 10 1 1 1 30).trajectories 0 = c2T
    ∧ (rowsWithId (tracklets_associations c2Matcher c2T c2K 10 1 1 1 30).trajectories 0).map
        Obs.not_updated = [true]
    ∧ (rowsWithId (tracklets_associations c2Matcher c2T c2K 10 1 1 1 30).trajectories 1).map
        Obs.candid = [1, 82]
    ∧ (rowsWithId (tracklets_associations c2Matcher c2T c2K 10 1 1 1 30).trajectories 2).map
        Obs.candid = [1, 80, 81] :=
  ⟨by decide, by decide, by decide, by decide, by decide, by decide⟩

/-- C2 witness: both cores exercised at concrete inputs — the pass-2 core
on two continuations for the recorded trajectory 0, and the pass-1 core on
two distinct tracklets matched once each for trajectory 0. -/
theorem C2_duplicate_resolution_witness :
    ((∀ r ∈ [mkObs 10 4 70 0 10 (-1) true, mkObs 10 4 71 0 10 (-1) true],
        r.trajectory_id ∈ trajIds demoTraj)
      ∧ (1 : Nat) < (([mkObs 10 4 70 0 10 (-1) true, mkObs 10 4 71 0 10 (-1) true]).filter
          (fun r => r.trajectory_id == 0)).length
      ∧ (∃ a0, (([mkObs 10 4 70 0 10 (-1) true, mkObs 10 4 71 0 10 (-1) true]).filter
            (fun r => r.trajectory_id == 0)).head? = some a0
          ∧ rowsWithId (trajAssocApply demoTraj
              [mkObs 10 4 70 0 10 (-1) true, mkObs 10 4 71 0 10 (-1) true]).1 0
            = (rowsWithId demoTraj 0).map flagFalse ++ [flagFalse a0])
      ∧ (trajAssocApply demoTraj
          [mkObs 10 4 70 0 10 (-1) true, mkObs 10 4 71 0 10 (-1) true]).2
        = (dupRows [mkObs 10 4 70 0 10 (-1) true, mkObs 10 4 71 0 10 (-1) true]).length)
    ∧ ((c2teGood.map Obs.tmp_traj).Nodup
      ∧ (1 : Nat) < (c2teGood.filter (fun r => r.trajectory_id == 0)).length
      ∧ (∃ a0, (c2teGood.filter (fun r => r.trajectory_id == 0)).head? = some a0
          ∧ rowsWithId (trackAssocApply c2T c2K c2teGood).1 0
            = (rowsWithId c2T 0).map flagFalse
              ++ (rowsWithId c2K a0.tmp_traj).map
                  (fun k => flagFalse { k with trajectory_id := 0 }))
      ∧ (trackAssocApply c2T c2K c2teGood).2.2 = (dupRows c2teGood).length) := by
  have h1 := (C2_duplicate_resolution).1 demoTraj
    [mkObs 10 4 70 0 10 (-1) true, mkObs 10 4 71 0 10 (-1) true] 0 (by decide) (by decide)
  have h2 := (C2_duplicate_resolution).2 c2T c2K c2teGood 0
    (by decide) (by decide) (by decide) (by decide)
  exact ⟨⟨by decide, by decide, h1.1, h1.2.2.2.1⟩,
    ⟨by decide, by decide, h2.1, h2.2.2.2.1⟩⟩

/-! ### Conservation of tracklet observations through `tracklets_associations` -/

theorem not_mem_candids_of_rwc_nil {l : List Obs} {c : ℤ}
    (h : rowsWithCandid l c = []) : c ∉ candids l := by
  intro hm
  rcases List.mem_map.mp (show c ∈ l.map Obs.candid from hm) with ⟨x, hx, hxc⟩
  have : x ∈ rowsWithCandid l c := mem_rowsWithCandid.mpr ⟨hx, hxc⟩
  rw [h] at this
  cases this

theorem mem_candids_of_rwc {l : List Obs} {c : ℤ} {x : Obs} (hx : x ∈ l)
    (hc : x.candid = c) : c ∈ candids l :=
  hc ▸ List.mem_map_of_mem _ hx

theorem assocTracklets_single_notmem {kc : Obs} :
    ∀ {kept : List Obs}, kc.trajectory_id ∉ kept.map Obs.tmp_traj →
      assocTracklets [kc] kept = [] := by
  intro kept
  induction kept with
  | nil => intro _; rfl
  | cons r rs ih =>
      intro h
      simp only [List.map_cons, List.mem_cons] at h
      push_neg at h
      simp only [assocTracklets]
      have hblock : ([kc].filter (fun k => k.trajectory_id == r.tmp_traj)) = [] := by
        rw [List.filter_cons_of_neg (by simpa using h.1)]
        rfl
      rw [hblock, ih h.2]
      rfl

theorem assocTracklets_single {kc : Obs} :
    ∀ {kept : List Obs}, (kept.map Obs.tmp_traj).Nodup →
      kc.trajectory_id ∈ kept.map Obs.tmp_traj →
      ∃ r ∈ kept, r.tmp_traj = kc.trajectory_id
        ∧ assocTracklets [kc] kept
            = [{ kc with trajectory_id := r.trajectory_id }] := by
  intro kept
  induction kept with
  | nil => intro _ hmem; simp at hmem
  | cons r rs ih =>
      intro hnd hmem
      rw [List.map_cons, List.nodup_cons] at hnd
      simp only [assocTracklets]
      by_cases he : kc.trajectory_id = r.tmp_traj
      · have htail : assocTracklets [kc] rs = [] := by
          apply assocTracklets_single_notmem
          rw [he]
          exact hnd.1
        have hblock : ([kc].filter (fun k => k.trajectory_id == r.tmp_traj)) = [kc] := by
          rw [List.filter_cons_of_pos (by simpa using he)]
          rfl
        refine ⟨r, List.mem_cons_self _ _, he.symm, ?_⟩
        rw [hblock, htail]
        rfl
      · have hmem2 : kc.trajectory_id ∈ rs.map Obs.tmp_traj := by
          rcases List.mem_cons.mp hmem with h1 | h2
          · exact absurd h1 he
          · exact h2
        rcases ih hnd.2 hmem2 with ⟨r2, hr2, he2, heq⟩
        refine ⟨r2, List.mem_cons_of_mem _ hr2, he2, ?_⟩
        have hblock : ([kc].filter (fun k => k.trajectory_id == r.tmp_traj)) = [] := by
          rw [List.filter_cons_of_neg (by simpa using he)]
          rfl
        rw [hblock, heq]
        rfl

theorem conservation_core1
    (T K K0 lastObs te : List Obs) (n : ℤ) (rest : List ℤ)
    (hnr : n ∉ rest)
    (htmp : (te.map Obs.tmp_traj).Nodup)
    (hanchor : ∀ o ∈ te, ∃ row ∈ lastObs,
        row.trajectory_id = o.trajectory_id ∧ row.nid = n)
    (hlast_ids : ∀ row ∈ lastObs, row.trajectory_id ∈ trajIds T)
    (honeper : ∀ t : ℤ, (rowsWithId lastObs t).length ≤ 1)
    (hKnodup : (K.map Obs.candid).Nodup)
    (hinv : pass1Inv K0 lastObs (n :: rest) T K) :
    pass1Inv K0 lastObs rest (trackAssocApply T K te).1 (trackAssocApply T K te).2.1 := by
  obtain ⟨hknd, hdnd, hdisj⟩ := kept_dup_tmp_parts htmp
  intro c hc
  rw [trackAssocApply_fst, trackAssocApply_K]
  set dups := dupRows te with hdups
  set kept := keptRows te with hkept
  set K1 := K.filter (fun k => !(dups.map Obs.tmp_traj).contains k.trajectory_id) with hK1
  set forks := pass1Forks T K (maxTrajId T) dups with hforks
  set assoc := assocTracklets K1 kept with hassoc
  set K2 := K1.filter (fun k => !(kept.map Obs.tmp_traj).contains k.trajectory_id) with hK2
  have hK2K : ∀ x ∈ K2, x ∈ K := by
    intro x hx
    rw [hK2] at hx
    have h1 := (List.mem_filter.mp hx).1
    rw [hK1] at h1
    exact (List.mem_filter.mp h1).1
  have hrwcK1 : ∀ c2 : ℤ, rowsWithCandid K1 c2 = (rowsWithCandid K c2).filter
      (fun k => !(dups.map Obs.tmp_traj).contains k.trajectory_id) := by
    intro c2
    rw [hK1]
    exact rowsWithCandid_filter _ _ _
  have hrwcK2 : ∀ c2 : ℤ, rowsWithCandid K2 c2 = (rowsWithCandid K1 c2).filter
      (fun k => !(kept.map Obs.tmp_traj).contains k.trajectory_id) := by
    intro c2
    rw [hK2]
    exact rowsWithCandid_filter _ _ _
  rcases hinv c hc with ⟨hcK, hcT⟩ | ⟨hcK, r0, hr0, hprot⟩
  · -- candidate still in the pool: unique pool row kc
    obtain ⟨kc, hkc⟩ := candid_singleton_of_nodup hKnodup hcK
    have hkcK : kc ∈ K ∧ kc.candid = c := by
      have : kc ∈ rowsWithCandid K c := by rw [hkc]; simp
      exact mem_rowsWithCandid.mp this
    by_cases hdm : kc.trajectory_id ∈ dups.map Obs.tmp_traj
    · -- the whole tracklet of kc is forked away
      have hA1K1 : rowsWithCandid K1 c = [] := by
        rw [hrwcK1, hkc]
        simp
        simpa using hdm
      have hK2nil : rowsWithCandid K2 c = [] := by
        rw [hrwcK2, hA1K1]
        rfl
      have hforkssingle : ∃ f, maxTrajId T < f
          ∧ rowsWithCandid forks c = [reassignRow f kc] := by
        rw [hforks, rowsWithCandid_pass1Forks, hcT, hkc]
        exact pass1Forks_pool_single hdnd hdm
      have hassocnil : rowsWithCandid assoc c = [] := by
        rw [hassoc, rowsWithCandid_assocTracklets, hA1K1, assocTracklets_nilK]
      right
      refine ⟨not_mem_candids_of_rwc_nil hK2nil, ?_⟩
      obtain ⟨f, hf, hfe⟩ := hforkssingle
      rw [rowsWithCandid_setUpdatedFlags, rowsWithCandid_append, rowsWithCandid_append,
        hcT, hfe, hassocnil]
      refine ⟨_, rfl, ?_⟩
      intro row hrow htid
      rw [setUpdatedFlags_preserves_id] at htid
      have hmemT := hlast_ids row hrow
      rw [htid] at hmemT
      have : (reassignRow f kc).trajectory_id ≤ maxTrajId T := mem_trajIds_le_max hmemT
      have hfid : (reassignRow f kc).trajectory_id = f := rfl
      rw [hfid] at this
      omega
    · -- the tracklet of kc is not among the duplicated ones
      have hA2K1 : rowsWithCandid K1 c = [kc] := by
        rw [hrwcK1, hkc]
        simp
        simpa using hdm
      have hforksnil : rowsWithCandid forks c = [] := by
        rw [hforks, rowsWithCandid_pass1Forks, hcT, hkc]
        exact pass1Forks_pool_notmem hdm
      by_cases hkm : kc.trajectory_id ∈ kept.map Obs.tmp_traj
      · -- the tracklet of kc is attached to its kept match
        have hK2nil : rowsWithCandid K2 c = [] := by
          rw [hrwcK2, hA2K1]
          simp
          simpa using hkm
        obtain ⟨r2, hr2kept, hr2tmp, hassingle⟩ : ∃ r2 ∈ kept,
            r2.tmp_traj = kc.trajectory_id
            ∧ rowsWithCandid assoc c = [{ kc with trajectory_id := r2.trajectory_id }] := by
          rw [hassoc, rowsWithCandid_assocTracklets, hA2K1]
          exact assocTracklets_single hknd hkm
        right
        refine ⟨not_mem_candids_of_rwc_nil hK2nil, ?_⟩
        rw [rowsWithCandid_setUpdatedFlags, rowsWithCandid_append, rowsWithCandid_append,
          hcT, hforksnil, hassingle]
        refine ⟨_, rfl, ?_⟩
        intro row hrow htid
        rw [setUpdatedFlags_preserves_id] at htid
        rcases hanchor r2 ((keptRows_sublist te).mem hr2kept) with ⟨row2, hrow2, hrtid, hrnid⟩
        have hrowmem : row ∈ rowsWithId lastObs r2.trajectory_id := by
          unfold rowsWithId
          exact List.mem_filter.mpr ⟨hrow, by simpa using htid⟩
        have hrow2mem : row2 ∈ rowsWithId lastObs r2.trajectory_id := by
          unfold rowsWithId
          exact List.mem_filter.mpr ⟨hrow2, by simpa using hrtid⟩
        have heq2 := eq_of_length_le_one (honeper r2.trajectory_id) hrowmem hrow2mem
        rw [heq2, hrnid]
        exact hnr
      · -- the tracklet of kc is untouched this iteration
        have hA3K2 : rowsWithCandid K2 c = [kc] := by
          rw [hrwcK2, hA2K1]
          simp
          simpa using hkm
        have hassocnil : rowsWithCandid assoc c = [] := by
          rw [hassoc, rowsWithCandid_assocTracklets, hA2K1]
          exact assocTracklets_single_notmem hkm
        left
        constructor
        · have : kc ∈ rowsWithCandid K2 c := by rw [hA3K2]; simp
          exact mem_candids_of_rwc (mem_rowsWithCandid.mp this).1 hkcK.2
        · rw [rowsWithCandid_setUpdatedFlags, rowsWithCandid_append, rowsWithCandid_append,
            hcT, hforksnil, hassocnil]
          rfl
  · -- candidate placed at an earlier iteration
    have hrwcKnil : rowsWithCandid K c = [] :=
      rowsWithCandid_eq_nil (fun x hx hxc => hcK (mem_candids_of_rwc hx hxc))
    have hcK2 : c ∉ candids K2 := by
      intro hm
      rcases List.mem_map.mp (show c ∈ K2.map Obs.candid from hm) with ⟨x, hx, hxc⟩
      exact hcK (mem_candids_of_rwc (hK2K x hx) hxc)
    have hforksnil : rowsWithCandid forks c = [] := by
      rw [hforks, rowsWithCandid_pass1Forks, hr0, hrwcKnil]
      apply pass1Forks_eq_nil
      · intro d hd
        apply rowsWithId_eq_nil_of_lt
        intro r hr
        simp only [List.mem_singleton] at hr
        subst hr
        intro he
        rcases hanchor d ((dupRows_sublist te).mem hd) with ⟨row, hrow, hrtid, hrnid⟩
        have : row.nid ∉ n :: rest := hprot row hrow (by rw [hrtid, ← he])
        rw [hrnid] at this
        exact this (List.mem_cons_self _ _)
      · intro d _
        rfl
    have hassocnil : rowsWithCandid assoc c = [] := by
      rw [hassoc, rowsWithCandid_assocTracklets]
      have hK1nil : rowsWithCandid K1 c = [] := by
        rw [hrwcK1, hrwcKnil]
        rfl
      rw [hK1nil, assocTracklets_nilK]
    right
    refine ⟨hcK2, ?_⟩
    rw [rowsWithCandid_setUpdatedFlags, rowsWithCandid_append, rowsWithCandid_append,
      hr0, hforksnil, hassocnil]
    refine ⟨_, rfl, ?_⟩
    intro row hrow htid
    rw [setUpdatedFlags_preserves_id] at htid
    exact fun h2 => hprot row hrow htid (List.mem_cons_of_mem _ h2)

theorem pass1_fold_conservation
    (matcher : Matcher) (hM : MatcherOK matcher) (hMt : MatcherTmpNodup matcher)
    (next_nid : ℤ) (sep ms md ang : ℚ)
    (twoLast lastObs extremity K0 : List Obs)
    (honeper : ∀ t : ℤ, (rowsWithId lastObs t).length ≤ 1) :
    ∀ l : List ℤ, l.Nodup → ∀ s : Pass1State,
      (∀ row ∈ lastObs, row.trajectory_id ∈ trajIds s.T) →
      (s.K.map Obs.candid).Nodup →
      pass1Inv K0 lastObs l s.T s.K →
      pass1Inv K0 lastObs []
        ((l.foldl (pass1Step matcher next_nid sep ms md ang twoLast lastObs extremity) s).T)
        ((l.foldl (pass1Step matcher next_nid sep ms md ang twoLast lastObs extremity) s).K) := by
  intro l
  induction l with
  | nil =>
      intro _ s _ _ hinv
      simpa using hinv
  | cons n rest ih =>
      intro hnd s hlast hknd hinv
      rw [List.nodup_cons] at hnd
      rw [List.foldl_cons]
      have hTK := pass1Step_TK matcher next_nid sep ms md ang twoLast lastObs extremity s n
      set te := (matcher (twoLast.filter (fun r =>
          (trajIds (lastObs.filter (fun r2 => r2.nid == n))).contains r.trajectory_id))
        extremity (sep * ((next_nid - n : ℤ) : ℚ)) (ms * ((next_nid - n : ℤ) : ℚ))
        (md * ((next_nid - n : ℤ) : ℚ)) ang).2 with hte
      have hmi := hM (twoLast.filter (fun r =>
          (trajIds (lastObs.filter (fun r2 => r2.nid == n))).contains r.trajectory_id))
        extremity (sep * ((next_nid - n : ℤ) : ℚ)) (ms * ((next_nid - n : ℤ) : ℚ))
        (md * ((next_nid - n : ℤ) : ℚ)) ang
      have htmp := hMt (twoLast.filter (fun r =>
          (trajIds (lastObs.filter (fun r2 => r2.nid == n))).contains r.trajectory_id))
        extremity (sep * ((next_nid - n : ℤ) : ℚ)) (ms * ((next_nid - n : ℤ) : ℚ))
        (md * ((next_nid - n : ℤ) : ℚ)) ang
      have hanchor : ∀ o ∈ te, ∃ row ∈ lastObs,
          row.trajectory_id = o.trajectory_id ∧ row.nid = n := by
        intro o ho
        rcases exists_of_mem_trajIds (hmi.2.2 o ho) with ⟨r, hr, hre⟩
        have hr2 := List.mem_filter.mp hr
        have hr3 : r.trajectory_id ∈ trajIds (lastObs.filter (fun r2 => r2.nid == n)) := by
          simpa using hr2.2
        rcases exists_of_mem_trajIds hr3 with ⟨row, hrow, hrowe⟩
        have hrow2 := List.mem_filter.mp hrow
        exact ⟨row, hrow2.1, by rw [hrowe, hre], by simpa using hrow2.2⟩
      have hkey := conservation_core1 s.T s.K K0 lastObs te n rest hnd.1 htmp hanchor
        hlast honeper hknd hinv
      refine ih hnd.2 _ ?_ ?_ ?_
      · intro row hrow
        rw [hTK.1]
        exact trackAssocApply_ids_mono _ _ _ (hlast row hrow)
      · rw [hTK.2]
        exact hknd.sublist ((trackAssocApply_K_sublist s.T s.K te).map Obs.candid)
      · rw [hTK.1, hTK.2]
        exact hkey

/-! ### Conservation of old observations through `old_observations_associations` -/

theorem trajIds_subset_of_filter {l : List Obs} {p : Obs → Bool} {t : ℤ}
    (h : t ∈ trajIds (l.filter p)) : t ∈ trajIds l := by
  rcases exists_of_mem_trajIds h with ⟨r, hr, he⟩
  exact he ▸ mem_trajIds_of_mem ((List.mem_filter.mp hr).1)

theorem conservation_core3
    (K O O0 twoFirst tl ra : List Obs)
    (hra_sub : ∀ o ∈ ra, o.candid ∈ candids O)
    (hra_nodup : (ra.map Obs.candid).Nodup)
    (hra_tl : ∀ o ∈ ra, o.trajectory_id ∈ trajIds tl)
    (htl_sub : ∀ o ∈ tl, o ∈ twoFirst)
    (htf_ids : ∀ r ∈ twoFirst, r.trajectory_id ∈ trajIds K)
    (hinv : pass3Inv O0 K O twoFirst) :
    pass3Inv O0 (trajAssocApply K ra).1
      (O.filter (fun o => !((ra.map Obs.candid).contains o.candid)))
      (twoFirst.filter (fun r => !((trajIds tl).contains r.trajectory_id))) := by
  intro c hc
  have heq : (trajAssocApply K ra).1
      = setUpdatedFlags (trajIds (keptRows ra))
          ((K ++ mkForks K (maxTrajId K) (dupRows ra)) ++ keptRows ra) := by
    rw [trajAssocApply_eq]
  have hkept_ra : ∀ x ∈ keptRows ra, x ∈ ra := fun x hx => (keptRows_sublist ra).mem hx
  have hdup_ra : ∀ x ∈ dupRows ra, x ∈ ra := fun x hx => (dupRows_sublist ra).mem hx
  have hra_tf : ∀ o ∈ ra, o.trajectory_id ∈ trajIds twoFirst := by
    intro o ho
    rcases exists_of_mem_trajIds (hra_tl o ho) with ⟨x, hx, he⟩
    exact he ▸ mem_trajIds_of_mem (htl_sub x hx)
  have hgone : ∀ o ∈ ra, o.trajectory_id
      ∉ trajIds (twoFirst.filter (fun r => !((trajIds tl).contains r.trajectory_id))) := by
    intro o ho hmem
    rcases exists_of_mem_trajIds hmem with ⟨x, hx, he⟩
    have hx2 := List.mem_filter.mp hx
    have hxn : x.trajectory_id ∉ trajIds tl := by simpa using hx2.2
    rw [he] at hxn
    exact hxn (hra_tl o ho)
  have htf1_sub : ∀ t : ℤ, t ∈ trajIds (twoFirst.filter
      (fun r => !((trajIds tl).contains r.trajectory_id))) → t ∈ trajIds twoFirst :=
    fun t ht => trajIds_subset_of_filter ht
  rcases hinv c hc with ⟨hcO, hcK⟩ | ⟨hcO, r0, hr0, hprot⟩
  · by_cases hcra : c ∈ ra.map Obs.candid
    · -- candidate c matched at this iteration
      obtain ⟨oc, hocsing⟩ := candid_singleton_of_nodup hra_nodup hcra
      have hocmem : oc ∈ ra ∧ oc.candid = c := by
        have : oc ∈ rowsWithCandid ra c := by rw [hocsing]; exact List.mem_singleton.mpr rfl
        exact mem_rowsWithCandid.mp this
      right
      constructor
      · intro hcc
        rcases List.mem_map.mp (show c ∈ (O.filter (fun o =>
            !((ra.map Obs.candid).contains o.candid))).map Obs.candid from hcc)
          with ⟨row, hrow, hrowc⟩
        have hpf := (List.mem_filter.mp hrow).2
        have hnotin : row.candid ∉ ra.map Obs.candid := by simpa using hpf
        exact hnotin (hrowc ▸ hcra)
      · have hKnone : ∀ x ∈ K, x.candid ≠ c := not_candid_of_rowsWithCandid_nil hcK
        have hsplit := rowsWithCandid_kept_dup hocsing
        rw [heq, rowsWithCandid_setUpdatedFlags, rowsWithCandid_append, rowsWithCandid_append,
          hcK]
        cases hkp : rowsWithCandid (keptRows ra) c with
        | nil =>
            rw [hkp, List.nil_append] at hsplit
            obtain ⟨nf, hnf, hforks⟩ := mkForks_candid_single
              (fun d _ x _ _ => hKnone x (by assumption))
              hsplit (m := maxTrajId K)
            rw [hforks]
            refine ⟨_, rfl, ?_⟩
            rw [setUpdatedFlags_preserves_id]
            intro hmem
            have h1 := htf1_sub _ hmem
            rcases exists_of_mem_trajIds h1 with ⟨x, hx, he⟩
            have h2 := htf_ids x hx
            rw [he] at h2
            have h3 := mem_trajIds_le_max h2
            have h4 : (forkRow nf oc).trajectory_id = nf := rfl
            rw [h4] at h3
            omega
        | cons x xs =>
            rw [hkp] at hsplit
            have hx : x = oc ∧ xs ++ rowsWithCandid (dupRows ra) c = [] := by
              rw [List.cons_append] at hsplit
              exact ⟨List.head_eq_of_cons_eq hsplit, List.tail_eq_of_cons_eq hsplit⟩
            have hxs : xs = [] := (List.append_eq_nil.mp hx.2).1
            have hdupnil : rowsWithCandid (dupRows ra) c = [] := (List.append_eq_nil.mp hx.2).2
            have hforks : rowsWithCandid (mkForks K (maxTrajId K) (dupRows ra)) c = [] := by
              apply mkForks_candid_nil
              · intro d _ x2 hx2 _
                exact hKnone x2 hx2
              · exact not_candid_of_rowsWithCandid_nil hdupnil
            rw [hforks, hxs, hx.1]
            refine ⟨_, rfl, ?_⟩
            rw [setUpdatedFlags_preserves_id]
            exact hgone oc hocmem.1
    · -- candidate c unmatched: it stays in the pool, in no tracklet
      left
      constructor
      · rcases List.mem_map.mp (show c ∈ O.map Obs.candid from hcO) with ⟨row, hrow, hrowc⟩
        have hpass : row ∈ O.filter (fun o => !((ra.map Obs.candid).contains o.candid)) := by
          refine List.mem_filter.mpr ⟨hrow, ?_⟩
          have hnotin : row.candid ∉ ra.map Obs.candid := by
            rw [hrowc]
            exact hcra
          simpa using hnotin
        exact hrowc ▸ List.mem_map_of_mem _ hpass
      · have hKnone : ∀ x ∈ K, x.candid ≠ c := not_candid_of_rowsWithCandid_nil hcK
        have hforks : rowsWithCandid (mkForks K (maxTrajId K) (dupRows ra)) c = [] := by
          apply mkForks_candid_nil
          · intro d _ x2 hx2 _
            exact hKnone x2 hx2
          · intro d hd hdc
            exact hcra (hdc ▸ List.mem_map_of_mem _ (hdup_ra d hd))
        have hkept : rowsWithCandid (keptRows ra) c = [] := by
          apply rowsWithCandid_eq_nil
          intro x hx hxc
          exact hcra (hxc ▸ List.mem_map_of_mem _ (hkept_ra x hx))
        rw [heq, rowsWithCandid_setUpdatedFlags, rowsWithCandid_append, rowsWithCandid_append,
          hcK, hforks, hkept]
        rfl
  · -- candidate c was placed at an earlier iteration
    right
    constructor
    · intro hcc
      rcases List.mem_map.mp (show c ∈ (O.filter (fun o =>
          !((ra.map Obs.candid).contains o.candid))).map Obs.candid from hcc)
        with ⟨row, hrow, hrowc⟩
      exact hcO (hrowc ▸ List.mem_map_of_mem _ (List.mem_filter.mp hrow).1)
    · have hforks : rowsWithCandid (mkForks K (maxTrajId K) (dupRows ra)) c = [] := by
        apply mkForks_candid_nil
        · intro d hd x hx htid hxc
          have hxr0 : x = r0 := eq_of_rowsWithCandid_singleton hr0 hx hxc
          have hre : r0.trajectory_id = d.trajectory_id := by rw [← hxr0, htid]
          exact hprot (by rw [hre]; exact hra_tf d (hdup_ra d hd))
        · intro d hd hdc
          exact hcO (hdc ▸ hra_sub d (hdup_ra d hd))
      have hkept : rowsWithCandid (keptRows ra) c = [] := by
        apply rowsWithCandid_eq_nil
        intro x hx hxc
        exact hcO (hxc ▸ hra_sub x (hkept_ra x hx))
      rw [heq, rowsWithCandid_setUpdatedFlags, rowsWithCandid_append, rowsWithCandid_append,
        hr0, hforks, hkept]
      refine ⟨_, rfl, ?_⟩
      rw [setUpdatedFlags_preserves_id]
      intro hmem
      exact hprot (htf1_sub _ hmem)

theorem pass3Step_inv
    (matcher : Matcher) (hM : MatcherOK matcher) (hMp : MatcherPairs matcher)
    (next_nid : ℤ) (sep ms md ang : ℚ) (O0 : List Obs)
    (s : Pass3State)
    (htf : ∀ r ∈ s.twoFirst, r.trajectory_id ∈ trajIds s.K)
    (hinv : pass3Inv O0 s.K s.O s.twoFirst) (n : ℤ) :
    pass3Inv O0 (pass3Step matcher next_nid sep ms md ang s n).K
        (pass3Step matcher next_nid sep ms md ang s n).O
        (pass3Step matcher next_nid sep ms md ang s n).twoFirst
    ∧ (∀ r ∈ (pass3Step matcher next_nid sep ms md ang s n).twoFirst,
        r.trajectory_id ∈ trajIds (pass3Step matcher next_nid sep ms md ang s n).K) := by
  have hmi := hM s.twoFirst (s.O.filter (fun o => o.nid == n))
    (sep * ((next_nid - n : ℤ) : ℚ)) (ms * ((next_nid - n : ℤ) : ℚ))
    (md * ((next_nid - n : ℤ) : ℚ)) ang
  have hmp := hMp s.twoFirst (s.O.filter (fun o => o.nid == n))
    (sep * ((next_nid - n : ℤ) : ℚ)) (ms * ((next_nid - n : ℤ) : ℚ))
    (md * ((next_nid - n : ℤ) : ℚ)) ang
  simp only [pass3Step]
  split
  · -- no matched pairs this iteration: nothing changes
    rename_i hb
    have htlnil : (matcher s.twoFirst (s.O.filter (fun o => o.nid == n))
        (sep * ((next_nid - n : ℤ) : ℚ)) (ms * ((next_nid - n : ℤ) : ℚ))
        (md * ((next_nid - n : ℤ) : ℚ)) ang).1 = [] := List.length_eq_zero.mp hb
    have hra : (matcher s.twoFirst (s.O.filter (fun o => o.nid == n))
        (sep * ((next_nid - n : ℤ) : ℚ)) (ms * ((next_nid - n : ℤ) : ℚ))
        (md * ((next_nid - n : ℤ) : ℚ)) ang).2 = [] := by
      apply List.eq_nil_iff_forall_not_mem.mpr
      intro o ho
      have hmem := hmp.2 o ho
      rw [htlnil] at hmem
      simp [trajIds] at hmem
    have hO1 : s.O.filter (fun o =>
        !(((matcher s.twoFirst (s.O.filter (fun o2 => o2.nid == n))
          (sep * ((next_nid - n : ℤ) : ℚ)) (ms * ((next_nid - n : ℤ) : ℚ))
          (md * ((next_nid - n : ℤ) : ℚ)) ang).2.map Obs.candid).contains o.candid))
        = s.O := by
      apply List.filter_eq_self.mpr
      intro a _
      rw [hra]
      rfl
    constructor
    · show pass3Inv O0 s.K (s.O.filter _) s.twoFirst
      rw [hO1]
      exact hinv
    · intro r hr
      exact htf r hr
  · -- matched pairs: the shared association/duplication core runs
    have hra_sub : ∀ o ∈ (matcher s.twoFirst (s.O.filter (fun o2 => o2.nid == n))
        (sep * ((next_nid - n : ℤ) : ℚ)) (ms * ((next_nid - n : ℤ) : ℚ))
        (md * ((next_nid - n : ℤ) : ℚ)) ang).2, o.candid ∈ candids s.O := by
      intro o ho
      have hme := hmi.1 o ho
      rcases List.mem_map.mp (show o.candid ∈ (s.O.filter
          (fun o2 => o2.nid == n)).map Obs.candid from hme) with ⟨x, hx, he⟩
      exact he ▸ List.mem_map_of_mem _ ((List.mem_filter.mp hx).1)
    have hcore := conservation_core3 s.K s.O O0 s.twoFirst
      (matcher s.twoFirst (s.O.filter (fun o2 => o2.nid == n))
        (sep * ((next_nid - n : ℤ) : ℚ)) (ms * ((next_nid - n : ℤ) : ℚ))
        (md * ((next_nid - n : ℤ) : ℚ)) ang).1
      (matcher s.twoFirst (s.O.filter (fun o2 => o2.nid == n))
        (sep * ((next_nid - n : ℤ) : ℚ)) (ms * ((next_nid - n : ℤ) : ℚ))
        (md * ((next_nid - n : ℤ) : ℚ)) ang).2
      hra_sub hmi.2.1 (fun o ho => hmp.2 o ho) (fun o ho => hmp.1 o ho) htf hinv
    have hK3 : setUpdatedFlags
        (trajIds (keptRows (matcher s.twoFirst (s.O.filter (fun o2 => o2.nid == n))
          (sep * ((next_nid - n : ℤ) : ℚ)) (ms * ((next_nid - n : ℤ) : ℚ))
          (md * ((next_nid - n : ℤ) : ℚ)) ang).2))
        ((if (dupRows (matcher s.twoFirst (s.O.filter (fun o2 => o2.nid == n))
            (sep * ((next_nid - n : ℤ) : ℚ)) (ms * ((next_nid - n : ℤ) : ℚ))
            (md * ((next_nid - n : ℤ) : ℚ)) ang).2).length = 0 then s.K
          else s.K ++ mkForks s.K (maxTrajId s.K)
            (dupRows (matcher s.twoFirst (s.O.filter (fun o2 => o2.nid == n))
              (sep * ((next_nid - n : ℤ) : ℚ)) (ms * ((next_nid - n : ℤ) : ℚ))
              (md * ((next_nid - n : ℤ) : ℚ)) ang).2))
          ++ keptRows (matcher s.twoFirst (s.O.filter (fun o2 => o2.nid == n))
            (sep * ((next_nid - n : ℤ) : ℚ)) (ms * ((next_nid - n : ℤ) : ℚ))
            (md * ((next_nid - n : ℤ) : ℚ)) ang).2)
        = (trajAssocApply s.K (matcher s.twoFirst (s.O.filter (fun o2 => o2.nid == n))
            (sep * ((next_nid - n : ℤ) : ℚ)) (ms * ((next_nid - n : ℤ) : ℚ))
            (md * ((next_nid - n : ℤ) : ℚ)) ang).2).1 := by
      rw [trajAssocApply_eq]
      by_cases hd : (dupRows (matcher s.twoFirst (s.O.filter (fun o2 => o2.nid == n))
          (sep * ((next_nid - n : ℤ) : ℚ)) (ms * ((next_nid - n : ℤ) : ℚ))
          (md * ((next_nid - n : ℤ) : ℚ)) ang).2).length = 0
      · have hdn := List.length_eq_zero.mp hd
        rw [if_pos hd, hdn]
        simp [mkForks]
      · rw [if_neg hd]
    have hO2 : (s.O.filter (fun o =>
        !(((matcher s.twoFirst (s.O.filter (fun o2 => o2.nid == n))
          (sep * ((next_nid - n : ℤ) : ℚ)) (ms * ((next_nid - n : ℤ) : ℚ))
          (md * ((next_nid - n : ℤ) : ℚ)) ang).2.map Obs.candid).contains o.candid))).filter
        (fun o => !(((keptRows (matcher s.twoFirst (s.O.filter (fun o2 => o2.nid == n))
          (sep * ((next_nid - n : ℤ) : ℚ)) (ms * ((next_nid - n : ℤ) : ℚ))
          (md * ((next_nid - n : ℤ) : ℚ)) ang).2).map Obs.candid).contains o.candid))
        = s.O.filter (fun o =>
          !(((matcher s.twoFirst (s.O.filter (fun o2 => o2.nid == n))
            (sep * ((next_nid - n : ℤ) : ℚ)) (ms * ((next_nid - n : ℤ) : ℚ))
            (md * ((next_nid - n : ℤ) : ℚ)) ang).2.map Obs.candid).contains o.candid)) := by
      apply List.filter_eq_self.mpr
      intro a ha
      have ha2 := (List.mem_filter.mp ha).2
      have hnotin : a.candid ∉ (matcher s.twoFirst (s.O.filter (fun o2 => o2.nid == n))
          (sep * ((next_nid - n : ℤ) : ℚ)) (ms * ((next_nid - n : ℤ) : ℚ))
          (md * ((next_nid - n : ℤ) : ℚ)) ang).2.map Obs.candid := by simpa using ha2
      have hnk : a.candid ∉ (keptRows (matcher s.twoFirst (s.O.filter (fun o2 => o2.nid == n))
          (sep * ((next_nid - n : ℤ) : ℚ)) (ms * ((next_nid - n : ℤ) : ℚ))
          (md * ((next_nid - n : ℤ) : ℚ)) ang).2).map Obs.candid := by
        intro hm
        rcases List.mem_map.mp hm with ⟨x, hx, he⟩
        exact hnotin (he ▸ List.mem_map_of_mem _ ((keptRows_sublist _).mem hx))
      simpa using hnk
    constructor
    · rw [hK3, hO2]
      exact hcore
    · intro r hr
      have hr2 : r ∈ s.twoFirst := (List.mem_filter.mp (show r ∈ s.twoFirst.filter
          (fun r2 => !((trajIds (matcher s.twoFirst (s.O.filter (fun o2 => o2.nid == n))
            (sep * ((next_nid - n : ℤ) : ℚ)) (ms * ((next_nid - n : ℤ) : ℚ))
            (md * ((next_nid - n : ℤ) : ℚ)) ang).1).contains r2.trajectory_id))
          from hr)).1
      rw [hK3]
      exact trajAssocApply_ids_mono _ _ (htf r hr2)

theorem pass3_fold_conservation
    (matcher : Matcher) (hM : MatcherOK matcher) (hMp : MatcherPairs matcher)
    (next_nid : ℤ) (sep ms md ang : ℚ) (O0 : List Obs) :
    ∀ (l : List ℤ) (s : Pass3State),
      (∀ r ∈ s.twoFirst, r.trajectory_id ∈ trajIds s.K) →
      pass3Inv O0 s.K s.O s.twoFirst →
      pass3Inv O0 ((l.foldl (pass3Step matcher next_nid sep ms md ang) s).K)
        ((l.foldl (pass3Step matcher next_nid sep ms md ang) s).O)
        ((l.foldl (pass3Step matcher next_nid sep ms md ang) s).twoFirst) := by
  intro l
  induction l with
  | nil => intro s _ hinv; simpa using hinv
  | cons n rest ih =>
      intro s htf hinv
      rw [List.foldl_cons]
      have hstep := pass3Step_inv matcher hM hMp next_nid sep ms md ang O0 s htf hinv n
      exact ih _ hstep.2 hstep.1

/-! ### Conservation of new observations through `observations_associations` -/

theorem setIdsPositional_candid_mem {l : List Obs} :
    ∀ {i : ℤ} {x : Obs}, x ∈ setIdsPositional l i → ∃ o ∈ l, x.candid = o.candid := by
  induction l with
  | nil => intro i x hx; cases hx
  | cons o os ih =>
      intro i x hx
      rcases List.mem_cons.mp hx with h1 | h2
      · exact ⟨o, List.mem_cons_self _ _, by rw [h1]⟩
      · rcases ih h2 with ⟨o2, ho2, he⟩
        exact ⟨o2, List.mem_cons_of_mem _ ho2, he⟩

theorem rowsWithCandid_setIdsPositional_length (l : List Obs) (c : ℤ) :
    ∀ i : ℤ, (rowsWithCandid (setIdsPositional l i) c).length
      = (rowsWithCandid l c).length := by
  induction l with
  | nil => intro i; rfl
  | cons o os ih =>
      intro i
      have ih2 := ih (i + 1)
      unfold rowsWithCandid at ih2 ⊢
      simp only [setIdsPositional, List.filter_cons]
      by_cases he : o.candid = c
      · simp [he, ih2]
      · simp [he, ih2]

theorem rowsWithCandid_setIdsPositional_nil {l : List Obs} {c : ℤ} {i : ℤ}
    (h : ∀ o ∈ l, o.candid ≠ c) :
    rowsWithCandid (setIdsPositional l i) c = [] := by
  apply rowsWithCandid_eq_nil
  intro x hx
  rcases setIdsPositional_candid_mem hx with ⟨o, ho, he⟩
  rw [he]
  exact h o ho

theorem rowsWithCandid_setIdsPositional_single {l : List Obs} {c : ℤ} {i : ℤ} {x0 : Obs}
    (h : rowsWithCandid l c = [x0]) :
    ∃ r0, rowsWithCandid (setIdsPositional l i) c = [r0] := by
  have hlen := rowsWithCandid_setIdsPositional_length l c i
  rw [h] at hlen
  exact List.length_eq_one.mp hlen

theorem conservation_core4
    (Tdf O N O0 N0 la ra : List Obs) (i : ℤ)
    (hO_sub : ∀ o ∈ O, o ∈ O0)
    (hdisj : ∀ r ∈ O0, r.candid ∉ candids N0)
    (hla_sub : ∀ o ∈ la, o.candid ∈ candids O)
    (hra_sub : ∀ o ∈ ra, o.candid ∈ candids N)
    (hra_nodup : (ra.map Obs.candid).Nodup)
    (hinv : pass4Inv N0 Tdf N) :
    pass4Inv N0 ((Tdf ++ setIdsPositional la i) ++ setIdsPositional ra i)
      (N.filter (fun o => !((ra.map Obs.candid).contains o.candid))) := by
  intro c hc
  have hla_nil : rowsWithCandid (setIdsPositional la i) c = [] := by
    apply rowsWithCandid_setIdsPositional_nil
    intro o ho hoc
    rcases List.mem_map.mp (show o.candid ∈ O.map Obs.candid from hla_sub o ho)
      with ⟨x, hx, he⟩
    exact hdisj x (hO_sub x hx) (by rw [he, hoc]; exact hc)
  rcases hinv c hc with ⟨hcN, hcT⟩ | ⟨hcN, r0, hr0⟩
  · by_cases hcra : c ∈ ra.map Obs.candid
    · -- candidate c matched: removed from the pool, one row in the new pair
      obtain ⟨oc, hocsing⟩ := candid_singleton_of_nodup hra_nodup hcra
      right
      constructor
      · intro hcc
        rcases List.mem_map.mp (show c ∈ (N.filter (fun o =>
            !((ra.map Obs.candid).contains o.candid))).map Obs.candid from hcc)
          with ⟨row, hrow, hrowc⟩
        have hpf := (List.mem_filter.mp hrow).2
        have hnotin : row.candid ∉ ra.map Obs.candid := by simpa using hpf
        exact hnotin (hrowc ▸ hcra)
      · rcases rowsWithCandid_setIdsPositional_single (i := i) hocsing with ⟨r1, hr1⟩
        refine ⟨r1, ?_⟩
        rw [rowsWithCandid_append, rowsWithCandid_append, hcT, hla_nil, hr1]
        rfl
    · -- candidate c unmatched: stays in the pool
      left
      constructor
      · rcases List.mem_map.mp (show c ∈ N.map Obs.candid from hcN) with ⟨row, hrow, hrowc⟩
        have hpass : row ∈ N.filter (fun o => !((ra.map Obs.candid).contains o.candid)) := by
          refine List.mem_filter.mpr ⟨hrow, ?_⟩
          have hnotin : row.candid ∉ ra.map Obs.candid := by
            rw [hrowc]
            exact hcra
          simpa using hnotin
        exact hrowc ▸ List.mem_map_of_mem _ hpass
      · have hra_nil : rowsWithCandid (setIdsPositional ra i) c = [] := by
          apply rowsWithCandid_setIdsPositional_nil
          intro o ho hoc
          exact hcra (hoc ▸ List.mem_map_of_mem _ ho)
        rw [rowsWithCandid_append, rowsWithCandid_append, hcT, hla_nil, hra_nil]
        rfl
  · -- candidate c placed at an earlier iteration
    right
    constructor
    · intro hcc
      rcases List.mem_map.mp (show c ∈ (N.filter (fun o =>
          !((ra.map Obs.candid).contains o.candid))).map Obs.candid from hcc)
        with ⟨row, hrow, hrowc⟩
      exact hcN (hrowc ▸ List.mem_map_of_mem _ (List.mem_filter.mp hrow).1)
    · have hra_nil : rowsWithCandid (setIdsPositional ra i) c = [] := by
        apply rowsWithCandid_setIdsPositional_nil
        intro o ho hoc
        exact hcN (hoc ▸ hra_sub o ho)
      refine ⟨r0, ?_⟩
      rw [rowsWithCandid_append, rowsWithCandid_append, hr0, hla_nil, hra_nil]
      rfl

theorem pass4Step_inv
    (matcher : ObsMatcher) (hOM : ObsMatcherOK matcher)
    (next_nid : ℤ) (sep ms md : ℚ) (O0 N0 : List Obs)
    (hdisj : ∀ r ∈ O0, r.candid ∉ candids N0)
    (s : Pass4State) (hOsub : ∀ o ∈ s.O, o ∈ O0)
    (hinv : pass4Inv N0 s.Tdf s.N) (n : ℤ) :
    pass4Inv N0 (pass4Step matcher next_nid sep ms md s n).Tdf
        (pass4Step matcher next_nid sep ms md s n).N
    ∧ (∀ o ∈ (pass4Step matcher next_nid sep ms md s n).O, o ∈ O0) := by
  have hmi := hOM (s.O.filter (fun o => o.nid == n)) s.N
    (sep * ((next_nid - n : ℤ) : ℚ)) (ms * ((next_nid - n : ℤ) : ℚ))
    (md * ((next_nid - n : ℤ) : ℚ))
  simp only [pass4Step]
  split
  · exact ⟨hinv, hOsub⟩
  · constructor
    · have hla_sub : ∀ o ∈ (matcher (s.O.filter (fun o2 => o2.nid == n)) s.N
          (sep * ((next_nid - n : ℤ) : ℚ)) (ms * ((next_nid - n : ℤ) : ℚ))
          (md * ((next_nid - n : ℤ) : ℚ))).1, o.candid ∈ candids s.O := by
        intro o ho
        have hme := hmi.1 o ho
        rcases List.mem_map.mp (show o.candid ∈ (s.O.filter
            (fun o2 => o2.nid == n)).map Obs.candid from hme) with ⟨x, hx, he⟩
        exact he ▸ List.mem_map_of_mem _ ((List.mem_filter.mp hx).1)
      exact conservation_core4 s.Tdf s.O s.N O0 N0
        (matcher (s.O.filter (fun o2 => o2.nid == n)) s.N
          (sep * ((next_nid - n : ℤ) : ℚ)) (ms * ((next_nid - n : ℤ) : ℚ))
          (md * ((next_nid - n : ℤ) : ℚ))).1
        (matcher (s.O.filter (fun o2 => o2.nid == n)) s.N
          (sep * ((next_nid - n : ℤ) : ℚ)) (ms * ((next_nid - n : ℤ) : ℚ))
          (md * ((next_nid - n : ℤ) : ℚ))).2
        s.lastId hOsub hdisj hla_sub hmi.2.1 hmi.2.2 hinv
    · intro o ho
      exact hOsub o (List.mem_filter.mp ho).1

theorem pass4_fold_conservation
    (matcher : ObsMatcher) (hOM : ObsMatcherOK matcher)
    (next_nid : ℤ) (sep ms md : ℚ) (O0 N0 : List Obs)
    (hdisj : ∀ r ∈ O0, r.candid ∉ candids N0) :
    ∀ (l : List ℤ) (s : Pass4State),
      (∀ o ∈ s.O, o ∈ O0) →
      pass4Inv N0 s.Tdf s.N →
      pass4Inv N0 ((l.foldl (pass4Step matcher next_nid sep ms md) s).Tdf)
        ((l.foldl (pass4Step matcher next_nid sep ms md) s).N) := by
  intro l
  induction l with
  | nil => intro s _ hinv; simpa using hinv
  | cons n rest ih =>
      intro s hOsub hinv
      rw [List.foldl_cons]
      have hstep := pass4Step_inv matcher hOM next_nid sep ms md O0 N0 hdisj s hOsub hinv n
      exact ih _ hstep.2 hstep.1

/-- C8 (amended): conservation of candidate observations through every
matching pass, provided the external matcher matches each right-hand item
at most once per call — pairwise-distinct matched candidate ids, and, for
the tracklet pass, pairwise-distinct matched tracklet ids — and returns
properly paired matches drawn from its inputs (the spec interface of
section 6; the at-most-once part is the amendment, which the interface does
not itself promise and without which the claim fails, see the
counterexample).  First conjunct, `tracklets_associations`: every
observation of the tracklet input (tracklet candidate ids assumed pairwise
distinct, as alert ids are) either stays in the tracklet pool and in no
trajectory, or leaves the pool and lands in exactly one trajectory row.
Second conjunct, `trajectories_associations`: the same for every new
observation.  Third conjunct, `old_observations_associations`: the same for
every retained old observation with respect to the tracklet table.  Fourth
conjunct, `observations_associations`: every new observation either stays
unassociated or lands in exactly one row of the brand-new trajectory
table. -/
theorem C8_conservation :
    (∀ (matcher : Matcher), MatcherOK matcher → MatcherTmpNodup matcher →
      ∀ (T K : List Obs) (next_nid : ℤ) (sep ms md ang : ℚ),
        (K.map Obs.candid).Nodup →
        (∀ r ∈ T, r.candid ∉ candids K) →
        ∀ c ∈ candids K,
          (c ∈ candids (tracklets_associations matcher T K next_nid sep ms md ang).tracklets
            ∧ rowsWithCandid
                (tracklets_associations matcher T K next_nid sep ms md ang).trajectories c = [])
          ∨ (c ∉ candids (tracklets_associations matcher T K next_nid sep ms md ang).tracklets
            ∧ ∃ r0, rowsWithCandid
                (tracklets_associations matcher T K next_nid sep ms md ang).trajectories c
                  = [r0]))
    ∧ (∀ (matcher : Matcher), MatcherOK matcher →
      ∀ (T N : List Obs) (next_nid : ℤ) (sep ms md ang : ℚ),
        (∀ r ∈ T, r.candid ∉ candids N) →
        ∀ c ∈ candids N,
          (c ∈ candids
              (trajectories_associations matcher T N next_nid sep ms md ang).new_observations
            ∧ rowsWithCandid
                (trajectories_associations matcher T N next_nid sep ms md ang).trajectories c
                  = [])
          ∨ (c ∉ candids
              (trajectories_associations matcher T N next_nid sep ms md ang).new_observations
            ∧ ∃ r0, rowsWithCandid
                (trajectories_associations matcher T N next_nid sep ms md ang).trajectories c
                  = [r0]))
    ∧ (∀ (matcher : Matcher), MatcherOK matcher → MatcherPairs matcher →
      ∀ (K O : List Obs) (next_nid : ℤ) (sep ms md ang : ℚ),
        (∀ r ∈ K, r.candid ∉ candids O) →
        ∀ c ∈ candids O,
          (c ∈ candids
              (old_observations_associations matcher K O next_nid sep ms md ang).old_observations
            ∧ rowsWithCandid
                (old_observations_associations matcher K O next_nid sep ms md ang).tracklets c
                  = [])
          ∨ (c ∉ candids
              (old_observations_associations matcher K O next_nid sep ms md ang).old_observations
            ∧ ∃ r0, rowsWithCandid
                (old_observations_associations matcher K O next_nid sep ms md ang).tracklets c
                  = [r0]))
    ∧ (∀ (matcher : ObsMatcher), ObsMatcherOK matcher →
      ∀ (O N : List Obs) (next_nid last_id : ℤ) (sep ms md : ℚ),
        (∀ r ∈ O, r.candid ∉ candids N) →
        ∀ c ∈ candids N,
          (c ∈ candids (pass4RemainingNew
              (observations_associations matcher O N next_nid last_id sep ms md))
            ∧ rowsWithCandid (pass4NewTrajectories
                (observations_associations matcher O N next_nid last_id sep ms md)) c = [])
          ∨ (c ∉ candids (pass4RemainingNew
              (observations_associations matcher O N next_nid last_id sep ms md))
            ∧ ∃ r0, rowsWithCandid (pass4NewTrajectories
                (observations_associations matcher O N next_nid last_id sep ms md)) c
                  = [r0])) := by
  refine ⟨?_, ?_, ?_, ?_⟩
  · -- pass 1
    intro matcher hM hMt T K next_nid sep ms md ang hKnd hdisj c hc
    by_cases hg : T.length = 0 ∨ K.length = 0
    · left
      constructor
      · simp only [tracklets_associations, if_pos hg]
        exact hc
      · simp only [tracklets_associations, if_pos hg]
        apply rowsWithCandid_eq_nil
        intro x hx hxc
        exact hdisj x hx (hxc ▸ hc)
    · simp only [tracklets_associations, if_neg hg]
      have hfold := pass1_fold_conservation matcher hM hMt next_nid sep ms md ang
        (get_n_last_observations_from_trajectories
          (T.filter (fun t => t.not_updated && t.a == -1)) 2 true)
        (get_n_last_observations_from_trajectories
          (T.filter (fun t => t.not_updated && t.a == -1)) 1 true)
        (get_n_last_observations_from_trajectories K 1 false)
        K
        (lastObs_one_per_id _ _)
        (descNids ((get_n_last_observations_from_trajectories
          (T.filter (fun t => t.not_updated && t.a == -1)) 1 true).map Obs.nid))
        ((pairwise_descNids _).imp (fun h => ne_of_gt h))
        { T := T, K := K, updated := [], reports := [], calls := [] }
        (by
          intro row hrow
          exact mem_trajIds_of_mem ((List.mem_filter.mp (get_n_last_mem hrow)).1))
        hKnd
        (by
          intro c2 hc2
          left
          refine ⟨hc2, ?_⟩
          apply rowsWithCandid_eq_nil
          intro x hx hxc
          exact hdisj x hx (hxc ▸ hc2))
      rcases hfold c hc with ⟨h1, h2⟩ | ⟨h1, r0, h2, _⟩
      · exact Or.inl ⟨h1, h2⟩
      · exact Or.inr ⟨h1, r0, h2⟩
  · -- pass 2
    intro matcher hM T N next_nid sep ms md ang hdisj c hc
    exact pass2_conservation matcher hM T N next_nid sep ms md ang hdisj c hc
  · -- pass 3
    intro matcher hM hMp K O next_nid sep ms md ang hdisj c hc
    by_cases hg : K.length = 0 ∨ O.length = 0
    · left
      constructor
      · simp only [old_observations_associations, if_pos hg]
        exact hc
      · simp only [old_observations_associations, if_pos hg]
        apply rowsWithCandid_eq_nil
        intro x hx hxc
        exact hdisj x hx (hxc ▸ hc)
    · simp only [old_observations_associations, if_neg hg]
      have hfold := pass3_fold_conservation matcher hM hMp next_nid sep ms md ang O
        (descNids (O.map Obs.nid))
        { K := K, O := O,
          twoFirst := get_n_last_observations_from_trajectories K 2 false,
          updated := [], reports := [], calls := [] }
        (by
          intro r hr
          exact mem_trajIds_of_mem (get_n_last_mem hr))
        (by
          intro c2 hc2
          left
          refine ⟨hc2, ?_⟩
          apply rowsWithCandid_eq_nil
          intro x hx hxc
          exact hdisj x hx (hxc ▸ hc2))
      rcases hfold c hc with ⟨h1, h2⟩ | ⟨h1, r0, h2, _⟩
      · exact Or.inl ⟨h1, h2⟩
      · exact Or.inr ⟨h1, r0, h2⟩
  · -- pass 4
    intro matcher hOM O N next_nid last_id sep ms md hdisj c hc
    by_cases hg : O.length = 0 ∨ N.length = 0
    · left
      constructor
      · simp only [observations_associations, if_pos hg, pass4RemainingNew]
        exact hc
      · simp only [observations_associations, if_pos hg, pass4NewTrajectories]
        rfl
    · simp only [observations_associations, if_neg hg, pass4RemainingNew,
        pass4NewTrajectories]
      have hfold := pass4_fold_conservation matcher hOM next_nid sep ms md O N hdisj
        (descNids (O.map Obs.nid))
        { Tdf := [], O := O, N := N, lastId := last_id, newTrajs := [],
          reports := [], calls := [] }
        (fun o ho => ho)
        (by
          intro c2 hc2
          left
          exact ⟨hc2, rfl⟩)
      rcases hfold c hc with ⟨h1, h2⟩ | ⟨h1, r0, h2⟩
      · exact Or.inl ⟨h1, h2⟩
      · exact Or.inr ⟨h1, r0, h2⟩

/-- C8 witness: all four passes exercised at concrete inputs with
interface-conforming matchers. -/
theorem C8_conservation_witness :
    ((66 ∈ candids (tracklets_associations neverMatcher demoTraj demoNew 10 1 1 1 30).tracklets
      ∧ rowsWithCandid
          (tracklets_associations neverMatcher demoTraj demoNew 10 1 1 1 30).trajectories 66
            = [])
    ∨ (66 ∉ candids (tracklets_associations neverMatcher demoTraj demoNew 10 1 1 1 30).tracklets
      ∧ ∃ r0, rowsWithCandid
          (tracklets_associations neverMatcher demoTraj demoNew 10 1 1 1 30).trajectories 66
            = [r0]))
    ∧ ((66 ∈ candids
          (trajectories_associations neverMatcher demoTraj demoNew 10 1 1 1 30).new_observations
        ∧ rowsWithCandid
            (trajectories_associations neverMatcher demoTraj demoNew 10 1 1 1 30).trajectories
            66 = [])
      ∨ (66 ∉ candids
          (trajectories_associations neverMatcher demoTraj demoNew 10 1 1 1 30).new_observations
        ∧ ∃ r0, rowsWithCandid
            (trajectories_associations neverMatcher demoTraj demoNew 10 1 1 1 30).trajectories
            66 = [r0]))
    ∧ ((50 ∈ candids
          (old_observations_associations neverMatcher demoTraj demoOld
            10 1 1 1 30).old_observations
        ∧ rowsWithCandid
            (old_observations_associations neverMatcher demoTraj demoOld 10 1 1 1 30).tracklets
            50 = [])
      ∨ (50 ∉ candids
          (old_observations_associations neverMatcher demoTraj demoOld
            10 1 1 1 30).old_observations
        ∧ ∃ r0, rowsWithCandid
            (old_observations_associations neverMatcher demoTraj demoOld 10 1 1 1 30).tracklets
            50 = [r0]))
    ∧ ((66 ∈ candids (pass4RemainingNew
            (observations_associations neverObsMatcher demoOld demoNew 10 3 1 1 1))
        ∧ rowsWithCandid (pass4NewTrajectories
            (observations_associations neverObsMatcher demoOld demoNew 10 3 1 1 1)) 66 = [])
      ∨ (66 ∉ candids (pass4RemainingNew
            (observations_associations neverObsMatcher demoOld demoNew 10 3 1 1 1))
        ∧ ∃ r0, rowsWithCandid (pass4NewTrajectories
            (observations_associations neverObsMatcher demoOld demoNew 10 3 1 1 1)) 66
              = [r0])) :=
  ⟨(C8_conservation).1 neverMatcher
      (fun l r s a b g => ⟨by simp [neverMatcher], by simp [neverMatcher],
        by simp [neverMatcher]⟩)
      (fun l r s a b g => by simp [neverMatcher])
      demoTraj demoNew 10 1 1 1 30 (by decide) (by decide) 66 (by decide),
   (C8_conservation).2.1 neverMatcher
      (fun l r s a b g => ⟨by simp [neverMatcher], by simp [neverMatcher],
        by simp [neverMatcher]⟩)
      demoTraj demoNew 10 1 1 1 30 (by decide) 66 (by decide),
   (C8_conservation).2.2.1 neverMatcher
      (fun l r s a b g => ⟨by simp [neverMatcher], by simp [neverMatcher],
        by simp [neverMatcher]⟩)
      (fun l r s a b g => ⟨by simp [neverMatcher], by simp [neverMatcher]⟩)
      demoTraj demoOld 10 1 1 1 30 (by decide) 50 (by decide),
   (C8_conservation).2.2.2 neverObsMatcher
      (fun l r s a b => ⟨by simp [neverObsMatcher], by simp [neverObsMatcher],
        by simp [neverObsMatcher]⟩)
      demoOld demoNew 10 3 1 1 1 (by decide) 66 (by decide)⟩

end FinkFat
